import Mathlib

/-!
# scrollview.h : the recursive ray tracer

A shallow embedding of `src/sv/inc/scrollview.h`.

The C `float` is embedded as an arbitrary linearly ordered field `F` with a floor
function (exact arithmetic; `ℚ` and `ℝ` are instances), so that every definition
below is an ordinary computable function.  The two `libm` calls that are not field
operations, `sqrtf` and `powf`, are passed in as a record `Libm F`.  `fabsf`, `fmaxf`
and `fminf` are `|·|`, `max` and `min`.  Decimal `float` literals are the decimal
rationals they denote.  NaN and the infinities are outside this embedding; the second
part of the definitions, `XFloat` and the namespace `IEEE`, repeats the program with
them.  Rounding and overflow are outside both.
-/

namespace ScrollView

/-- The `libm` functions used by the program that are not field operations. -/
structure Libm (F : Type) where
  /-- The C `sqrtf`. -/
  sqrtf : F → F
  /-- The C `powf`. -/
  powf : F → F → F

/-- A `Libm` is exact when `sqrtf` is a true square root on the non-negative numbers. -/
def Libm.Exact {F : Type} [LinearOrderedField F] (m : Libm F) : Prop :=
  (∀ x : F, 0 ≤ x → 0 ≤ m.sqrtf x) ∧ (∀ x : F, 0 ≤ x → m.sqrtf x * m.sqrtf x = x)

/-- Source: `typedef struct vec3 { float x, y, z; } vec3;` -/
@[ext]
structure vec3 (F : Type) where
  x : F
  y : F
  z : F
deriving DecidableEq

/-- Source: `typedef struct Material`; the array `albedo[4]` is the four fields
`albedo0 … albedo3`. -/
structure Material (F : Type) where
  refractive_index : F
  albedo0 : F
  albedo1 : F
  albedo2 : F
  albedo3 : F
  diffuse_color : vec3 F
  specular_exponent : F
deriving DecidableEq

/-- Source: `typedef struct Sphere` -/
structure Sphere (F : Type) where
  center : vec3 F
  radius : F
  material : Material F
deriving DecidableEq

section Defs

variable {F : Type} [LinearOrderedField F]

/-- Source: `static const Material MATBASE = {1.0f, {2.0f,0.f,0.f,0.f}, {0.f,0.f,0.f}, 0.f};` -/
def MATBASE : Material F := ⟨1, 2, 0, 0, 0, ⟨0, 0, 0⟩, 0⟩

/-- Source: `static const Material ivory` -/
def ivory : Material F := ⟨1, 0.9, 0.5, 0.1, 0, ⟨0.4, 0.4, 0.3⟩, 50⟩

/-- Source: `static const Material glass` -/
def glass : Material F := ⟨1.5, 0, 0.9, 0.1, 0.8, ⟨0.6, 0.7, 0.8⟩, 125⟩

/-- Source: `static const Material red_rubber` -/
def red_rubber : Material F := ⟨1, 1.4, 0.3, 0, 0, ⟨0.3, 0.1, 0.1⟩, 10⟩

/-- Source: `static const Material mirror` -/
def mirror : Material F := ⟨1, 0, 16, 0.8, 0, ⟨1, 1, 1⟩, 1425⟩

/-- Source: `static const Sphere spheres[NUMSPHERES]` -/
def spheres : List (Sphere F) :=
  [ ⟨⟨-3, 0, -16⟩, 2, ⟨1, 0.9, 0.5, 0.1, 0, ⟨0.4, 0.4, 0.3⟩, 50⟩⟩,
    ⟨⟨-1, -1.5, -12⟩, 2, ⟨1.5, 0, 0.9, 0.1, 0.8, ⟨0.6, 0.7, 0.8⟩, 125⟩⟩,
    ⟨⟨1.5, -0.5, -18⟩, 3, ⟨1, 1.4, 0.3, 0, 0, ⟨0.3, 0.1, 0.1⟩, 10⟩⟩,
    ⟨⟨7, 5, -18⟩, 4, ⟨1, 0, 16, 0.8, 0, ⟨1, 1, 1⟩, 1425⟩⟩ ]

/-- Source: `static const vec3 lights[NUMLIGHTS]` -/
def lights : List (vec3 F) :=
  [ ⟨-20, 20, 20⟩, ⟨30, 50, -25⟩, ⟨30, 20, 30⟩ ]

/-- Source: `mul(vec3 v, float f)` -/
def mul (v : vec3 F) (f : F) : vec3 F := ⟨v.x * f, v.y * f, v.z * f⟩

/-- Source: `add(vec3 v, vec3 v2)` -/
def add (v v2 : vec3 F) : vec3 F := ⟨v.x + v2.x, v.y + v2.y, v.z + v2.z⟩

/-- Source: `sub(vec3 v, vec3 v2)` -/
def sub (v v2 : vec3 F) : vec3 F := ⟨v.x - v2.x, v.y - v2.y, v.z - v2.z⟩

/-- Source: `neg(vec3 v)` -/
def neg (v : vec3 F) : vec3 F := ⟨v.x * -1, v.y * -1, v.z * -1⟩

/-- Source: `dot(vec3 v, vec3 v2)` -/
def dot (v v2 : vec3 F) : F := v.x * v2.x + v.y * v2.y + v.z * v2.z

/-- Source: `norm(vec3 v)` -/
def norm (m : Libm F) (v : vec3 F) : F := m.sqrtf (v.x * v.x + v.y * v.y + v.z * v.z)

/-- Source: `normalized(vec3 v)` -/
def normalized (m : Libm F) (v : vec3 F) : vec3 F := mul v (1 / norm m v)

/-- Source: `reflect(vec3 I, vec3 N)` -/
def reflect (I N : vec3 F) : vec3 F := sub I (mul N (2 * dot I N))

/-- The local `cosi` of `refract`: `-fmaxf(-1.0f, fminf(1.0f, dot(I, N)))`. -/
def cosi (I N : vec3 F) : F := -(max (-1) (min 1 (dot I N)))

/-- Source: `refract(vec3 I, vec3 N, float eta_t, float eta_i)`, with the C recursion kept:
a call with `cosi < 0` calls itself on the flipped normal and the swapped indices. -/
def refract (m : Libm F) (I N : vec3 F) (eta_t eta_i : F) : vec3 F :=
  if _h : cosi I N < 0 then refract m I (neg N) eta_i eta_t
  else
    let eta := eta_i / eta_t
    let k := 1 - eta * eta * (1 - cosi I N * cosi I N)
    if k < 0 then ⟨1, 0, 0⟩
    else add (mul I eta) (mul N (eta * cosi I N - m.sqrtf k))
termination_by (if cosi I N < 0 then 1 else 0 : Nat)
decreasing_by
  have hneg : dot I (neg N) = -dot I N := by simp only [dot, neg]; ring
  have hpos : ¬ cosi I (neg N) < 0 := by
    have h0 : 0 < max (-1) (min 1 (dot I N)) := by
      simpa [cosi] using _h
    have h1 : 0 < dot I N := by
      rcases lt_max_iff.mp h0 with h | h
      · exact absurd h (by norm_num)
      · exact (lt_min_iff.mp h).2
    simp only [cosi, hneg, not_lt]
    have h2 : min 1 (-dot I N) < 0 := min_lt_iff.mpr (Or.inr (by linarith))
    have h3 : max (-1) (min 1 (-dot I N)) ≤ 0 := max_le (by norm_num) (le_of_lt h2)
    linarith
  simp [_h, hpos]

/-- The function `refract` with an explicit bound on the number of nested calls:
`fuel` is the number of activations of `refract` that may be on the stack; `none` when
that many do not suffice. -/
def refractFuel (m : Libm F) : Nat → vec3 F → vec3 F → F → F → Option (vec3 F)
  | 0, _, _, _, _ => none
  | fuel + 1, I, N, eta_t, eta_i =>
    if cosi I N < 0 then refractFuel m fuel I (neg N) eta_i eta_t
    else
      let eta := eta_i / eta_t
      let k := 1 - eta * eta * (1 - cosi I N * cosi I N)
      if k < 0 then some ⟨1, 0, 0⟩
      else some (add (mul I eta) (mul N (eta * cosi I N - m.sqrtf k)))

/-- Source: `ray_sphere_intersect(vec3 orig, vec3 dir, Sphere s, float *f)`: the returned
`bool` and the value stored through `f`. -/
def ray_sphere_intersect (m : Libm F) (orig dir : vec3 F) (s : Sphere F) : Bool × F :=
  let L := sub s.center orig
  let tca := dot L dir
  let d2 := dot L L - tca * tca
  if d2 > s.radius * s.radius then (false, 0)
  else
    let thc := m.sqrtf (s.radius * s.radius - d2)
    let t0 := tca - thc
    let t1 := tca + thc
    if t0 > 0.001 then (true, t0)
    else if t1 > 0.001 then (true, t1)
    else (false, 0)

/-! ### The reference definition of the sphere intersection, in the words of the
specification -/

/-- The vector `L = center − orig`. -/
def ref_L (orig : vec3 F) (s : Sphere F) : vec3 F := sub s.center orig

/-- The projection `tca = L·dir`. -/
def ref_tca (orig dir : vec3 F) (s : Sphere F) : F := dot (ref_L orig s) dir

/-- The squared perpendicular distance `d2 = L·L − tca²`. -/
def ref_d2 (orig dir : vec3 F) (s : Sphere F) : F :=
  dot (ref_L orig s) (ref_L orig s) - ref_tca orig dir s ^ 2

/-- The half-chord `thc = sqrt(radius² − d2)`. -/
def ref_thc (m : Libm F) (orig dir : vec3 F) (s : Sphere F) : F :=
  m.sqrtf (s.radius ^ 2 - ref_d2 orig dir s)

/-- The near root `t0 = tca − thc`. -/
def ref_t0 (m : Libm F) (orig dir : vec3 F) (s : Sphere F) : F :=
  ref_tca orig dir s - ref_thc m orig dir s

/-- The far root `t1 = tca + thc`. -/
def ref_t1 (m : Libm F) (orig dir : vec3 F) (s : Sphere F) : F :=
  ref_tca orig dir s + ref_thc m orig dir s

/-- The reference behaviour: no hit (distance 0) when `d2 > radius²`; otherwise a hit at
`t0` when `t0 > 0.001`, else a hit at `t1` when `t1 > 0.001`, else no hit. -/
def ray_sphere_intersect_ref (m : Libm F) (orig dir : vec3 F) (s : Sphere F) : Bool × F :=
  if ref_d2 orig dir s > s.radius ^ 2 then (false, 0)
  else if ref_t0 m orig dir s > 0.001 then (true, ref_t0 m orig dir s)
  else if ref_t1 m orig dir s > 0.001 then (true, ref_t1 m orig dir s)
  else (false, 0)

variable [FloorRing F]

/-- The C conversion `(int) f` of a `float` in `int` range: truncation toward zero. -/
def toInt (f : F) : Int := if 0 ≤ f then ⌊f⌋ else ⌈f⌉

/-- The colour expression of the checkerboard branch of `scene_intersect`:
`(int)(.5f * pt.x + 1000.f) + (int)(.5f * pt.z) & 1 ? (vec3) {.3f, .3f, .3f} :
(vec3) {.3f, .2f, .1f}`; in C `+` binds tighter than `&`, and `& 1` on an `int`
is its remainder modulo 2. -/
def checker_color (pt : vec3 F) : vec3 F :=
  if (toInt (0.5 * pt.x + 1000) + toInt (0.5 * pt.z)) % 2 ≠ 0 then ⟨0.3, 0.3, 0.3⟩
  else ⟨0.3, 0.2, 0.1⟩

/-- The locals `nearest_dist`, `pt`, `N` and `material` of `scene_intersect`. -/
structure Nearest (F : Type) where
  nearest_dist : F
  pt : vec3 F
  N : vec3 F
  material : Material F
deriving DecidableEq

/-- The locals of `scene_intersect` at entry.  `pt` and `N` are uninitialised in the
source; they stand here as the zero vector. -/
def nearest_init : Nearest F := ⟨1e10, ⟨0, 0, 0⟩, ⟨0, 0, 0⟩, MATBASE⟩

/-- The two nested conditions under which the checkerboard block of `scene_intersect`
assigns: `fabsf(dir.y) > .001f`, then `d > .001f && d < nearest_dist &&
fabsf(p.x) < 10.0f && p.z < -10.0f && p.z > -30.f`. -/
def checker_accepted (orig dir : vec3 F) (st : Nearest F) : Prop :=
  |dir.y| > 0.001 ∧
    (-(orig.y + 4) / dir.y > 0.001 ∧ -(orig.y + 4) / dir.y < st.nearest_dist ∧
      |(add orig (mul dir (-(orig.y + 4) / dir.y))).x| < 10 ∧
      (add orig (mul dir (-(orig.y + 4) / dir.y))).z < -10 ∧
      (add orig (mul dir (-(orig.y + 4) / dir.y))).z > -30)

instance (orig dir : vec3 F) (st : Nearest F) : Decidable (checker_accepted orig dir st) := by
  unfold checker_accepted
  infer_instance

/-- The checkerboard block of `scene_intersect` (the `if (fabsf(dir.y) > .001f)`). -/
def checkerboard (orig dir : vec3 F) (st : Nearest F) : Nearest F :=
  if |dir.y| > 0.001 then
    let d := -(orig.y + 4) / dir.y
    let p := add orig (mul dir d)
    if d > 0.001 ∧ d < st.nearest_dist ∧ |p.x| < 10 ∧ p.z < -10 ∧ p.z > -30 then
      { nearest_dist := d, pt := p, N := ⟨0, 1, 0⟩,
        material := { st.material with diffuse_color := checker_color p } }
    else st
  else st

/-- One iteration of the sphere loop of `scene_intersect`. -/
def sphere_step (m : Libm F) (orig dir : vec3 F) (st : Nearest F) (s : Sphere F) :
    Nearest F :=
  let r := ray_sphere_intersect m orig dir s
  if r.1 = false ∨ r.2 > st.nearest_dist then st
  else
    let pt := add orig (mul dir r.2)
    { nearest_dist := r.2, pt := pt, N := normalized m (sub pt s.center),
      material := s.material }

/-- The locals of `scene_intersect` just before it writes its results back: the
checkerboard block, then the loop over `spheres`. -/
def scene_nearest (m : Libm F) (orig dir : vec3 F) : Nearest F :=
  (spheres : List (Sphere F)).foldl (sphere_step m orig dir) (checkerboard orig dir nearest_init)

/-- The results of `scene_intersect`: the returned `bool` and the values written
through `v`, `v2` and `mat`. -/
structure SceneHit (F : Type) where
  hit : Bool
  v : vec3 F
  v2 : vec3 F
  mat : Material F
deriving DecidableEq

/-- Source: `scene_intersect(vec3 orig, vec3 dir, vec3 *v, vec3 *v2, Material *mat)` -/
def scene_intersect (m : Libm F) (orig dir : vec3 F) : SceneHit F :=
  let st := scene_nearest m orig dir
  { hit := decide (st.nearest_dist < 1000), v := st.pt, v2 := st.N, mat := st.material }

/-- The shadow test of the light loop of `cast_ray`:
`hit && norm(sub(shadow_pt, point)) < norm(sub(light, point))`. -/
def occluded (m : Libm F) (point light : vec3 F) : Bool :=
  let light_dir := normalized m (sub light point)
  let sh := scene_intersect m point light_dir
  sh.hit && decide (norm m (sub sh.v point) < norm m (sub light point))

/-- One iteration of the light loop of `cast_ray`, on the pair
`(diffuse_light_intensity, specular_light_intensity)`. -/
def light_step (m : Libm F) (dir point N : vec3 F) (material : Material F)
    (acc : F × F) (light : vec3 F) : F × F :=
  let light_dir := normalized m (sub light point)
  if occluded m point light then acc
  else
    (acc.1 + max 0 (dot light_dir N),
     acc.2 + m.powf (max 0 (dot (neg (reflect (neg light_dir) N)) dir))
       material.specular_exponent)

/-- The part of `cast_ray` after its two recursive calls: the light loop and the
returned sum. -/
def shade (m : Libm F) (dir point N : vec3 F) (material : Material F)
    (reflect_color refract_color : vec3 F) : vec3 F :=
  let acc := (lights : List (vec3 F)).foldl (light_step m dir point N material) (0, 0)
  add (add (mul (mul material.diffuse_color acc.1) material.albedo0)
           (mul (mul ⟨1, 1, 1⟩ acc.2) material.albedo1))
      (add (mul reflect_color material.albedo2) (mul refract_color material.albedo3))

/-- The background colour `(vec3) {0.2f, 0.7f, 0.8f}`. -/
def background : vec3 F := ⟨0.2, 0.7, 0.8⟩

/-- Source: `cast_ray(vec3 orig, vec3 dir, int depth)` -/
def cast_ray (m : Libm F) (orig dir : vec3 F) (depth : Int) : vec3 F :=
  let r := scene_intersect m orig dir
  if _h : depth > 4 ∨ r.hit = false then background
  else
    let reflect_dir := normalized m (reflect dir r.v2)
    let refract_dir := normalized m (refract m dir r.v2 r.mat.refractive_index 1)
    let reflect_color := cast_ray m r.v reflect_dir (depth + 1)
    let refract_color := cast_ray m r.v refract_dir (depth + 1)
    shade m dir r.v r.v2 r.mat reflect_color refract_color
termination_by (5 - depth).toNat
decreasing_by
  all_goals
    have : depth ≤ 4 := by
      by_contra hc
      exact _h (Or.inl (by omega))
    omega

/-- The function `cast_ray` with an explicit bound on the depth of the C call stack:
`fuel` is the number of nested activations of `cast_ray` available; `none` when that
many do not suffice. -/
def cast_rayFuel (m : Libm F) : Nat → vec3 F → vec3 F → Int → Option (vec3 F)
  | 0, _, _, _ => none
  | fuel + 1, orig, dir, depth =>
    let r := scene_intersect m orig dir
    if depth > 4 ∨ r.hit = false then some background
    else
      let reflect_dir := normalized m (reflect dir r.v2)
      let refract_dir := normalized m (refract m dir r.v2 r.mat.refractive_index 1)
      match cast_rayFuel m fuel r.v reflect_dir (depth + 1),
            cast_rayFuel m fuel r.v refract_dir (depth + 1) with
      | some reflect_color, some refract_color =>
        some (shade m dir r.v r.v2 r.mat reflect_color refract_color)
      | _, _ => none

/-! ### The image writer loop of `main` -/

/-- The local `max` of the image writer loop:
`fmaxf(1.f, fmaxf(color.x, fmaxf(color.y, color.z)))`. -/
def pixel_max (color : vec3 F) : F := max 1 (max color.x (max color.y color.z))

/-- The three values `x`, `y`, `z` of the image writer loop,
`(char)(255.f * color.x / max)` and so on, the conversion being truncation. -/
def pixel_chars (color : vec3 F) : Int × Int × Int :=
  (toInt (255 * color.x / pixel_max color), toInt (255 * color.y / pixel_max color),
    toInt (255 * color.z / pixel_max color))

/-- The three bytes that `fprintf(fp, "%c%c%c", x, y, z)` writes: each value as an
`unsigned char`, that is modulo 256. -/
def pixel_bytes (color : vec3 F) : Int × Int × Int :=
  ((pixel_chars color).1 % 256, (pixel_chars color).2.1 % 256, (pixel_chars color).2.2 % 256)

/-! ### Non-negative colours and materials -/

/-- Every component of a colour is non-negative. -/
def vec3.nonneg (v : vec3 F) : Prop := 0 ≤ v.x ∧ 0 ≤ v.y ∧ 0 ≤ v.z

/-- The four albedo weights and the diffuse colour of a material are non-negative. -/
def Material.nonneg (mat : Material F) : Prop :=
  0 ≤ mat.albedo0 ∧ 0 ≤ mat.albedo1 ∧ 0 ≤ mat.albedo2 ∧ 0 ≤ mat.albedo3 ∧
    mat.diffuse_color.nonneg

/-! ### The candidate intersections of a ray, in the words of the specification -/

/-- The checkerboard candidate: the distance `d = −(orig.y + 4)/dir.y` when it is accepted
(`|dir.y| > 0.001`, `d > 0.001`, `|p.x| < 10`, `−30 < p.z < −10`). -/
def checker_candidate (orig dir : vec3 F) : Option F :=
  if |dir.y| > 0.001 ∧ -(orig.y + 4) / dir.y > 0.001 ∧
      |(add orig (mul dir (-(orig.y + 4) / dir.y))).x| < 10 ∧
      -30 < (add orig (mul dir (-(orig.y + 4) / dir.y))).z ∧
      (add orig (mul dir (-(orig.y + 4) / dir.y))).z < -10 then
    some (-(orig.y + 4) / dir.y)
  else none

/-- The candidate of one sphere: its distance when `ray_sphere_intersect` succeeds. -/
def sphere_candidate (m : Libm F) (orig dir : vec3 F) (s : Sphere F) : Option F :=
  if (ray_sphere_intersect m orig dir s).1 = true then
    some (ray_sphere_intersect m orig dir s).2
  else none

/-- All candidate distances of a ray: the checkerboard's, then those of the spheres. -/
def candidates (m : Libm F) (orig dir : vec3 F) : List F :=
  (checker_candidate orig dir).toList ++
    (spheres : List (Sphere F)).filterMap (sphere_candidate m orig dir)

end Defs


/-! ## The program with the IEEE special values

The embedding above has no NaN and no infinity.  The definitions of this section repeat
the program over `XFloat F`: an exact number of `F`, `+∞`, `−∞` or NaN, with the IEEE 754
rules for the special values.  Arithmetic on numbers stays exact (no rounding, no
overflow) and there is a single zero, of positive sign.  `refract` and `cast_ray` are
given with a bound on the C call stack, as they need not return. -/

/-- A C `float`: an exact number, `+∞`, `−∞` or NaN. -/
inductive XFloat (F : Type) where
  | num (x : F)
  | pinf
  | ninf
  | nan
deriving DecidableEq

namespace XFloat

variable {F : Type} [LinearOrderedField F]

/-- Unary minus. -/
def neg : XFloat F → XFloat F
  | num x => num (-x)
  | pinf => ninf
  | ninf => pinf
  | nan => nan

/-- The sum: NaN is propagated and `∞ + (−∞)` is NaN. -/
def add : XFloat F → XFloat F → XFloat F
  | nan, _ => nan
  | _, nan => nan
  | num x, num y => num (x + y)
  | num _, pinf => pinf
  | num _, ninf => ninf
  | pinf, num _ => pinf
  | ninf, num _ => ninf
  | pinf, pinf => pinf
  | ninf, ninf => ninf
  | pinf, ninf => nan
  | ninf, pinf => nan

/-- The difference `a - b`, which IEEE arithmetic computes as `a + (-b)`. -/
def sub (a b : XFloat F) : XFloat F := add a (neg b)

/-- An infinity of the sign of `x`, NaN for `x = 0`: the value of `x · ∞`. -/
def signed_inf (x : F) : XFloat F := if x = 0 then nan else if 0 < x then pinf else ninf

/-- The product: NaN is propagated and `0 · ∞` is NaN. -/
def mul : XFloat F → XFloat F → XFloat F
  | nan, _ => nan
  | _, nan => nan
  | num x, num y => num (x * y)
  | num x, pinf => signed_inf x
  | num x, ninf => signed_inf (-x)
  | pinf, num y => signed_inf y
  | ninf, num y => signed_inf (-y)
  | pinf, pinf => pinf
  | ninf, ninf => pinf
  | pinf, ninf => ninf
  | ninf, pinf => ninf

/-- The quotient: `0/0` and `∞/∞` are NaN, a non-zero number over zero is an infinity
of its sign, a number over an infinity is zero. -/
def div : XFloat F → XFloat F → XFloat F
  | nan, _ => nan
  | _, nan => nan
  | num x, num y => if y = 0 then signed_inf x else num (x / y)
  | num _, pinf => num 0
  | num _, ninf => num 0
  | pinf, num y => if 0 ≤ y then pinf else ninf
  | ninf, num y => if 0 ≤ y then ninf else pinf
  | pinf, pinf => nan
  | ninf, ninf => nan
  | pinf, ninf => nan
  | ninf, pinf => nan

/-- The comparison `a < b` of C: false as soon as one side is NaN. -/
def lt : XFloat F → XFloat F → Bool
  | num x, num y => decide (x < y)
  | num _, pinf => true
  | ninf, num _ => true
  | ninf, pinf => true
  | _, _ => false

/-- The C `fabsf`. -/
def fabsf : XFloat F → XFloat F
  | num x => num |x|
  | pinf => pinf
  | ninf => pinf
  | nan => nan

/-- The C `fminf`: when one argument is NaN the other one is returned. -/
def fminf : XFloat F → XFloat F → XFloat F
  | nan, b => b
  | a, nan => a
  | a, b => if lt a b then a else b

/-- The C `fmaxf`: when one argument is NaN the other one is returned. -/
def fmaxf : XFloat F → XFloat F → XFloat F
  | nan, b => b
  | a, nan => a
  | a, b => if lt a b then b else a

/-- The C `sqrtf`: NaN on a negative number and on `−∞`. -/
def sqrtf (m : Libm F) : XFloat F → XFloat F
  | num x => if x < 0 then nan else num (m.sqrtf x)
  | pinf => pinf
  | ninf => nan
  | nan => nan

/-- The C `powf` on two numbers is the `powf` of the `Libm` record; with a special value
among the arguments it follows Annex F of C99 for a base that is not negative (the only
bases `cast_ray` passes): `powf(x, 0) = 1` and `powf(1, y) = 1` even for NaN, else NaN is
propagated. -/
def powf (m : Libm F) : XFloat F → XFloat F → XFloat F
  | num x, num y => num (m.powf x y)
  | nan, num y => if y = 0 then num 1 else nan
  | pinf, num y => if y = 0 then num 1 else if 0 < y then pinf else num 0
  | ninf, num y => if y = 0 then num 1 else nan
  | num x, nan => if x = 1 then num 1 else nan
  | num x, pinf => if |x| < 1 then num 0 else if |x| = 1 then num 1 else pinf
  | num x, ninf => if |x| < 1 then pinf else if |x| = 1 then num 1 else num 0
  | pinf, pinf => pinf
  | pinf, ninf => num 0
  | ninf, pinf => pinf
  | ninf, ninf => num 0
  | nan, _ => nan
  | _, nan => nan

/-- The C conversion `(int) f`: truncation of a number; the conversion of an infinity or
of NaN is undefined in C and stands here as 0. -/
def toInt [FloorRing F] : XFloat F → Int
  | num x => ScrollView.toInt x
  | _ => 0

end XFloat

/-- A vector of numbers as a vector of floats. -/
def vec3.lift {F : Type} (v : vec3 F) : vec3 (XFloat F) := ⟨.num v.x, .num v.y, .num v.z⟩

/-- A material of numbers as a material of floats. -/
def Material.lift {F : Type} (mat : Material F) : Material (XFloat F) :=
  ⟨.num mat.refractive_index, .num mat.albedo0, .num mat.albedo1, .num mat.albedo2,
    .num mat.albedo3, mat.diffuse_color.lift, .num mat.specular_exponent⟩

/-- A sphere of numbers as a sphere of floats. -/
def Sphere.lift {F : Type} (s : Sphere F) : Sphere (XFloat F) :=
  ⟨s.center.lift, .num s.radius, s.material.lift⟩

/-- The locals of `scene_intersect` over numbers as locals over floats. -/
def Nearest.lift {F : Type} (st : Nearest F) : Nearest (XFloat F) :=
  ⟨.num st.nearest_dist, st.pt.lift, st.N.lift, st.material.lift⟩

namespace IEEE

open XFloat

section Defs

variable {F : Type} [LinearOrderedField F]

/-- Source: `static const Material MATBASE`. -/
def MATBASE : Material (XFloat F) := (ScrollView.MATBASE : Material F).lift

/-- Source: `static const Sphere spheres[NUMSPHERES]`. -/
def spheres : List (Sphere (XFloat F)) := (ScrollView.spheres : List (Sphere F)).map Sphere.lift

/-- Source: `static const vec3 lights[NUMLIGHTS]`. -/
def lights : List (vec3 (XFloat F)) := (ScrollView.lights : List (vec3 F)).map vec3.lift

/-- Source: `mul(vec3 v, float f)`. -/
def mul (v : vec3 (XFloat F)) (f : XFloat F) : vec3 (XFloat F) :=
  ⟨v.x.mul f, v.y.mul f, v.z.mul f⟩

/-- Source: `add(vec3 v, vec3 v2)`. -/
def add (v v2 : vec3 (XFloat F)) : vec3 (XFloat F) :=
  ⟨v.x.add v2.x, v.y.add v2.y, v.z.add v2.z⟩

/-- Source: `sub(vec3 v, vec3 v2)`. -/
def sub (v v2 : vec3 (XFloat F)) : vec3 (XFloat F) :=
  ⟨v.x.sub v2.x, v.y.sub v2.y, v.z.sub v2.z⟩

/-- Source: `neg(vec3 v)`. -/
def neg (v : vec3 (XFloat F)) : vec3 (XFloat F) :=
  ⟨v.x.mul (num (-1)), v.y.mul (num (-1)), v.z.mul (num (-1))⟩

/-- Source: `dot(vec3 v, vec3 v2)`. -/
def dot (v v2 : vec3 (XFloat F)) : XFloat F :=
  ((v.x.mul v2.x).add (v.y.mul v2.y)).add (v.z.mul v2.z)

/-- Source: `norm(vec3 v)`. -/
def norm (m : Libm F) (v : vec3 (XFloat F)) : XFloat F :=
  XFloat.sqrtf m (((v.x.mul v.x).add (v.y.mul v.y)).add (v.z.mul v.z))

/-- Source: `normalized(vec3 v)`. -/
def normalized (m : Libm F) (v : vec3 (XFloat F)) : vec3 (XFloat F) :=
  mul v ((num 1).div (norm m v))

/-- Source: `reflect(vec3 I, vec3 N)`. -/
def reflect (I N : vec3 (XFloat F)) : vec3 (XFloat F) :=
  sub I (mul N ((num 2).mul (dot I N)))

/-- The local `cosi` of `refract`: `-fmaxf(-1.0f, fminf(1.0f, dot(I, N)))`. -/
def cosi (I N : vec3 (XFloat F)) : XFloat F :=
  (fmaxf (num (-1)) (fminf (num 1) (dot I N))).neg

/-- Source: `refract(vec3 I, vec3 N, float eta_t, float eta_i)`, with `fuel` activations
of `refract` available on the stack; `none` when that many do not suffice. -/
def refract (m : Libm F) : Nat → vec3 (XFloat F) → vec3 (XFloat F) → XFloat F → XFloat F →
    Option (vec3 (XFloat F))
  | 0, _, _, _, _ => none
  | fuel + 1, I, N, eta_t, eta_i =>
    if (cosi I N).lt (num 0) then refract m fuel I (neg N) eta_i eta_t
    else
      let eta := eta_i.div eta_t
      let k := (num 1).sub ((eta.mul eta).mul ((num 1).sub ((cosi I N).mul (cosi I N))))
      if k.lt (num 0) then some ⟨num 1, num 0, num 0⟩
      else some (add (mul I eta) (mul N ((eta.mul (cosi I N)).sub (XFloat.sqrtf m k))))

/-- Source: `ray_sphere_intersect(vec3 orig, vec3 dir, Sphere s, float *f)`: the returned
`bool` and the value stored through `f`. -/
def ray_sphere_intersect (m : Libm F) (orig dir : vec3 (XFloat F)) (s : Sphere (XFloat F)) :
    Bool × XFloat F :=
  let L := sub s.center orig
  let tca := dot L dir
  let d2 := (dot L L).sub (tca.mul tca)
  if (s.radius.mul s.radius).lt d2 then (false, num 0)
  else
    let thc := XFloat.sqrtf m ((s.radius.mul s.radius).sub d2)
    let t0 := tca.sub thc
    let t1 := tca.add thc
    if (num 0.001).lt t0 then (true, t0)
    else if (num 0.001).lt t1 then (true, t1)
    else (false, num 0)

variable [FloorRing F]

/-- The colour expression of the checkerboard branch of `scene_intersect`. -/
def checker_color (pt : vec3 (XFloat F)) : vec3 (XFloat F) :=
  if (XFloat.toInt (((num 0.5).mul pt.x).add (num 1000))
      + XFloat.toInt ((num 0.5).mul pt.z)) % 2 ≠ 0 then ⟨num 0.3, num 0.3, num 0.3⟩
  else ⟨num 0.3, num 0.2, num 0.1⟩

/-- The locals of `scene_intersect` at entry; the uninitialised `pt` and `N` stand as the
zero vector. -/
def nearest_init : Nearest (XFloat F) :=
  ⟨num 1e10, ⟨num 0, num 0, num 0⟩, ⟨num 0, num 0, num 0⟩, MATBASE⟩

/-- The checkerboard block of `scene_intersect`. -/
def checkerboard (orig dir : vec3 (XFloat F)) (st : Nearest (XFloat F)) :
    Nearest (XFloat F) :=
  if (num 0.001).lt (fabsf dir.y) then
    let d := ((orig.y.add (num 4)).neg).div dir.y
    let p := add orig (mul dir d)
    if (num 0.001).lt d = true ∧ d.lt st.nearest_dist = true ∧
        (fabsf p.x).lt (num 10) = true ∧ p.z.lt (num (-10)) = true ∧
        (num (-30)).lt p.z = true then
      { nearest_dist := d, pt := p, N := ⟨num 0, num 1, num 0⟩,
        material := { st.material with diffuse_color := checker_color p } }
    else st
  else st

/-- One iteration of the sphere loop of `scene_intersect`. -/
def sphere_step (m : Libm F) (orig dir : vec3 (XFloat F)) (st : Nearest (XFloat F))
    (s : Sphere (XFloat F)) : Nearest (XFloat F) :=
  let r := ray_sphere_intersect m orig dir s
  if r.1 = false ∨ st.nearest_dist.lt r.2 = true then st
  else
    let pt := add orig (mul dir r.2)
    { nearest_dist := r.2, pt := pt, N := normalized m (sub pt s.center),
      material := s.material }

/-- The locals of `scene_intersect` just before it writes its results back. -/
def scene_nearest (m : Libm F) (orig dir : vec3 (XFloat F)) : Nearest (XFloat F) :=
  (spheres : List (Sphere (XFloat F))).foldl (sphere_step m orig dir)
    (checkerboard orig dir nearest_init)

/-- Source: `scene_intersect(vec3 orig, vec3 dir, vec3 *v, vec3 *v2, Material *mat)`. -/
def scene_intersect (m : Libm F) (orig dir : vec3 (XFloat F)) : SceneHit (XFloat F) :=
  let st := scene_nearest m orig dir
  { hit := st.nearest_dist.lt (num 1000), v := st.pt, v2 := st.N, mat := st.material }

/-- The shadow test of the light loop of `cast_ray`. -/
def occluded (m : Libm F) (point light : vec3 (XFloat F)) : Bool :=
  let light_dir := normalized m (sub light point)
  let sh := scene_intersect m point light_dir
  sh.hit && (norm m (sub sh.v point)).lt (norm m (sub light point))

/-- One iteration of the light loop of `cast_ray`. -/
def light_step (m : Libm F) (dir point N : vec3 (XFloat F)) (material : Material (XFloat F))
    (acc : XFloat F × XFloat F) (light : vec3 (XFloat F)) : XFloat F × XFloat F :=
  let light_dir := normalized m (sub light point)
  if occluded m point light then acc
  else
    (acc.1.add (fmaxf (num 0) (dot light_dir N)),
     acc.2.add (XFloat.powf m (fmaxf (num 0) (dot (neg (reflect (neg light_dir) N)) dir))
       material.specular_exponent))

/-- The part of `cast_ray` after its two recursive calls. -/
def shade (m : Libm F) (dir point N : vec3 (XFloat F)) (material : Material (XFloat F))
    (reflect_color refract_color : vec3 (XFloat F)) : vec3 (XFloat F) :=
  let acc := (lights : List (vec3 (XFloat F))).foldl (light_step m dir point N material)
    (num 0, num 0)
  add (add (mul (mul material.diffuse_color acc.1) material.albedo0)
           (mul (mul ⟨num 1, num 1, num 1⟩ acc.2) material.albedo1))
      (add (mul reflect_color material.albedo2) (mul refract_color material.albedo3))

/-- Source: `cast_ray(vec3 orig, vec3 dir, int depth)`, with `fuel` nested activations
(of `cast_ray` and, below them, of `refract`) available on the stack; `none` when that
many do not suffice. -/
def cast_ray (m : Libm F) : Nat → vec3 (XFloat F) → vec3 (XFloat F) → Int →
    Option (vec3 (XFloat F))
  | 0, _, _, _ => none
  | fuel + 1, orig, dir, depth =>
    let r := scene_intersect m orig dir
    if depth > 4 ∨ r.hit = false then some ⟨num 0.2, num 0.7, num 0.8⟩
    else
      let reflect_dir := normalized m (reflect dir r.v2)
      match refract m fuel dir r.v2 r.mat.refractive_index (num 1) with
      | none => none
      | some t =>
        match cast_ray m fuel r.v reflect_dir (depth + 1),
              cast_ray m fuel r.v (normalized m t) (depth + 1) with
        | some reflect_color, some refract_color =>
          some (shade m dir r.v r.v2 r.mat reflect_color refract_color)
        | _, _ => none

end Defs

end IEEE

/-! ## Lemmas -/

section Lemmas

variable {F : Type} [LinearOrderedField F]

theorem dot_neg_right (I N : vec3 F) : dot I (neg N) = -dot I N := by
  simp only [dot, neg]; ring

theorem cosi_neg_right (I N : vec3 F) : cosi I (neg N) = -cosi I N := by
  simp only [cosi, dot_neg_right, neg_neg]
  rcases le_total 1 (dot I N) with h | h
  · have h1 : -dot I N ≤ -1 := by linarith
    rw [min_eq_left h, min_eq_right (by linarith : -dot I N ≤ 1), max_eq_left h1,
      max_eq_right (by norm_num : (-1 : F) ≤ 1), neg_neg]
  · rw [min_eq_right h]
    rcases le_total (-1) (dot I N) with h2 | h2
    · rw [max_eq_right h2, min_eq_right (by linarith : -dot I N ≤ 1),
        max_eq_right (by linarith : (-1 : F) ≤ -dot I N), neg_neg]
    · rw [max_eq_left h2, min_eq_left (by linarith : (1 : F) ≤ -dot I N),
        max_eq_right (by norm_num : (-1 : F) ≤ 1)]

theorem refract_of_neg (m : Libm F) (I N : vec3 F) (eta_t eta_i : F) (h : cosi I N < 0) :
    refract m I N eta_t eta_i = refract m I (neg N) eta_i eta_t := by
  rw [refract, dif_pos h]

theorem refract_of_nonneg (m : Libm F) (I N : vec3 F) (eta_t eta_i : F)
    (h : ¬ cosi I N < 0) :
    refract m I N eta_t eta_i =
      if 1 - eta_i / eta_t * (eta_i / eta_t) * (1 - cosi I N * cosi I N) < 0 then ⟨1, 0, 0⟩
      else add (mul I (eta_i / eta_t))
        (mul N (eta_i / eta_t * cosi I N -
          m.sqrtf (1 - eta_i / eta_t * (eta_i / eta_t) * (1 - cosi I N * cosi I N)))) := by
  rw [refract, dif_neg h]

theorem refractFuel_of_nonneg (m : Libm F) (fuel : Nat) (I N : vec3 F) (eta_t eta_i : F)
    (h : ¬ cosi I N < 0) :
    refractFuel m (fuel + 1) I N eta_t eta_i = some (refract m I N eta_t eta_i) := by
  rw [refract_of_nonneg m I N eta_t eta_i h]
  simp only [refractFuel, if_neg h]
  split <;> rfl

theorem Libm.Exact.sqrtf_mul_self {m : Libm F} (hm : m.Exact) {x : F} (hx : 0 ≤ x) :
    m.sqrtf (x * x) = x := by
  have h0 : 0 ≤ x * x := mul_nonneg hx hx
  have h1 := hm.1 (x * x) h0
  have h2 := hm.2 (x * x) h0
  nlinarith [sq_nonneg (m.sqrtf (x * x) - x), sq_nonneg (m.sqrtf (x * x) + x)]

theorem real_exact (p : ℝ → ℝ → ℝ) : (⟨Real.sqrt, p⟩ : Libm ℝ).Exact :=
  ⟨fun x _ => Real.sqrt_nonneg x, fun _ hx => Real.mul_self_sqrt hx⟩

theorem dot_self_nonneg (v : vec3 F) : 0 ≤ dot v v :=
  add_nonneg (add_nonneg (mul_self_nonneg _) (mul_self_nonneg _)) (mul_self_nonneg _)

theorem norm_sub_comm (m : Libm F) (a b : vec3 F) : norm m (sub a b) = norm m (sub b a) := by
  simp only [norm, sub]
  congr 1
  ring

theorem ray_at_center (m : Libm F) (hm : m.Exact) (orig : vec3 F) (s : Sphere F)
    (hr : 0 < s.radius) (hn : 0 < norm m (sub orig s.center)) :
    ray_sphere_intersect m orig (normalized m (sub s.center orig)) s =
      if norm m (sub orig s.center) - s.radius > 0.001 then
        (true, norm m (sub orig s.center) - s.radius)
      else if norm m (sub orig s.center) + s.radius > 0.001 then
        (true, norm m (sub orig s.center) + s.radius)
      else (false, 0) := by
  rw [norm_sub_comm m orig s.center] at hn ⊢
  have ha : 0 ≤ dot (sub s.center orig) (sub s.center orig) := dot_self_nonneg _
  have hnn : norm m (sub s.center orig) * norm m (sub s.center orig)
      = dot (sub s.center orig) (sub s.center orig) := hm.2 _ ha
  have htca : dot (sub s.center orig) (normalized m (sub s.center orig))
      = norm m (sub s.center orig) := by
    have : dot (sub s.center orig) (normalized m (sub s.center orig))
        = dot (sub s.center orig) (sub s.center orig) * (1 / norm m (sub s.center orig)) := by
      simp only [normalized, dot, mul]; ring
    rw [this, ← hnn]
    field_simp
  have hthc : m.sqrtf (s.radius * s.radius - (dot (sub s.center orig) (sub s.center orig)
      - norm m (sub s.center orig) * norm m (sub s.center orig))) = s.radius := by
    rw [hnn, sub_self, sub_zero]
    exact hm.sqrtf_mul_self (le_of_lt hr)
  have hd2 : ¬ (dot (sub s.center orig) (sub s.center orig)
      - norm m (sub s.center orig) * norm m (sub s.center orig) > s.radius * s.radius) := by
    rw [hnn, sub_self]
    exact not_lt.mpr (le_of_lt (mul_pos hr hr))
  simp only [ray_sphere_intersect, htca, hthc, if_neg hd2]

theorem dot_mul_self_le (I N : vec3 F) : dot I N * dot I N ≤ dot I I * dot N N := by
  simp only [dot]
  nlinarith [sq_nonneg (I.x * N.y - I.y * N.x), sq_nonneg (I.y * N.z - I.z * N.y),
    sq_nonneg (I.z * N.x - I.x * N.z)]

theorem Libm.Exact.dot_self_of_norm_one {m : Libm F} (hm : m.Exact) {v : vec3 F}
    (h : norm m v = 1) : dot v v = 1 := by
  have h2 : norm m v * norm m v = dot v v := hm.2 _ (dot_self_nonneg v)
  rw [h] at h2
  rw [← h2, mul_one]

theorem cosi_eq (I N : vec3 F) (h1 : -1 ≤ dot I N) (h2 : dot I N ≤ 1) :
    cosi I N = -dot I N := by
  simp only [cosi, min_eq_right h2, max_eq_right h1]

theorem abs_dot_le_one {I N : vec3 F} (hI : dot I I = 1) (hN : dot N N = 1) :
    -1 ≤ dot I N ∧ dot I N ≤ 1 := by
  have h := dot_mul_self_le I N
  rw [hI, hN] at h
  constructor <;> nlinarith

theorem checker_grays_ne : (⟨0.3, 0.3, 0.3⟩ : vec3 F) ≠ ⟨0.3, 0.2, 0.1⟩ := by
  intro h
  have h2 := congrArg vec3.y h
  norm_num at h2

theorem spheres_eq : (spheres : List (Sphere F)) =
    [⟨⟨-3, 0, -16⟩, 2, ivory⟩, ⟨⟨-1, -1.5, -12⟩, 2, glass⟩,
      ⟨⟨1.5, -0.5, -18⟩, 3, red_rubber⟩, ⟨⟨7, 5, -18⟩, 4, mirror⟩] := rfl

/-! ### The sphere intersection -/

theorem ray_sphere_intersect_miss (m : Libm F) (orig dir : vec3 F) (s : Sphere F)
    (h : dot (sub s.center orig) (sub s.center orig)
      - dot (sub s.center orig) dir * dot (sub s.center orig) dir > s.radius * s.radius) :
    ray_sphere_intersect m orig dir s = (false, 0) := by
  simp only [ray_sphere_intersect, if_pos h]

theorem ray_sphere_intersect_eval (m : Libm F) (orig dir : vec3 F) (s : Sphere F) (tca A : F)
    (htca : dot (sub s.center orig) dir = tca)
    (hA : s.radius * s.radius - (dot (sub s.center orig) (sub s.center orig) - tca * tca) = A)
    (hA0 : 0 ≤ A) :
    ray_sphere_intersect m orig dir s =
      if tca - m.sqrtf A > 0.001 then (true, tca - m.sqrtf A)
      else if tca + m.sqrtf A > 0.001 then (true, tca + m.sqrtf A)
      else (false, 0) := by
  have hd2 : ¬ (dot (sub s.center orig) (sub s.center orig) - tca * tca
      > s.radius * s.radius) := by
    intro hc; linarith
  simp only [ray_sphere_intersect, htca, hA, if_neg hd2]

theorem ray_sphere_intersect_hit_gt (m : Libm F) (orig dir : vec3 F) (s : Sphere F)
    (h : (ray_sphere_intersect m orig dir s).1 = true) :
    0.001 < (ray_sphere_intersect m orig dir s).2 := by
  simp only [ray_sphere_intersect] at h ⊢
  split_ifs at h ⊢ with h1 h2 h3
  · exact h2
  · exact h3

/-! ### The sphere loop of `scene_intersect` -/

theorem sphere_step_of_miss (m : Libm F) (orig dir : vec3 F) (st : Nearest F) (s : Sphere F)
    (h : (ray_sphere_intersect m orig dir s).1 = false) :
    sphere_step m orig dir st s = st := by
  simp only [sphere_step, if_pos (Or.inl h : _ ∨ (ray_sphere_intersect m orig dir s).2
    > st.nearest_dist)]

theorem sphere_step_of_gt (m : Libm F) (orig dir : vec3 F) (st : Nearest F) (s : Sphere F)
    (h : (ray_sphere_intersect m orig dir s).2 > st.nearest_dist) :
    sphere_step m orig dir st s = st := by
  simp only [sphere_step, if_pos (Or.inr h : (ray_sphere_intersect m orig dir s).1 = false ∨ _)]

theorem sphere_step_of_le (m : Libm F) (orig dir : vec3 F) (st : Nearest F) (s : Sphere F)
    (h1 : (ray_sphere_intersect m orig dir s).1 = true)
    (h2 : (ray_sphere_intersect m orig dir s).2 ≤ st.nearest_dist) :
    sphere_step m orig dir st s =
      { nearest_dist := (ray_sphere_intersect m orig dir s).2,
        pt := add orig (mul dir (ray_sphere_intersect m orig dir s).2),
        N := normalized m
          (sub (add orig (mul dir (ray_sphere_intersect m orig dir s).2)) s.center),
        material := s.material } := by
  have : ¬ ((ray_sphere_intersect m orig dir s).1 = false ∨
      (ray_sphere_intersect m orig dir s).2 > st.nearest_dist) := by
    rintro (h | h)
    · rw [h1] at h; exact Bool.noConfusion h
    · exact absurd h2 (not_le.mpr h)
  simp only [sphere_step, if_neg this]

/-- The sphere loop keeps the nearest distance below every candidate seen, and a nearest
distance below the initial `1e10` is a candidate whose point is stored in `pt`. -/
theorem sphere_loop_invariant (m : Libm F) (orig dir : vec3 F) (ss : List (Sphere F)) :
    ∀ (st : Nearest F) (cs : List F),
      (st.nearest_dist ≤ 1e10 ∧ (∀ c ∈ cs, st.nearest_dist ≤ c) ∧
        (st.nearest_dist < 1e10 →
          st.nearest_dist ∈ cs ∧ st.pt = add orig (mul dir st.nearest_dist))) →
      ((ss.foldl (sphere_step m orig dir) st).nearest_dist ≤ 1e10 ∧
        (∀ c ∈ cs ++ ss.filterMap (sphere_candidate m orig dir),
          (ss.foldl (sphere_step m orig dir) st).nearest_dist ≤ c) ∧
        ((ss.foldl (sphere_step m orig dir) st).nearest_dist < 1e10 →
          (ss.foldl (sphere_step m orig dir) st).nearest_dist
              ∈ cs ++ ss.filterMap (sphere_candidate m orig dir) ∧
          (ss.foldl (sphere_step m orig dir) st).pt
            = add orig (mul dir (ss.foldl (sphere_step m orig dir) st).nearest_dist))) := by
  induction ss with
  | nil =>
    intro st cs h
    simpa using h
  | cons s ss ih =>
    intro st cs ⟨h1, h2, h3⟩
    rw [List.foldl_cons]
    by_cases hhit : (ray_sphere_intersect m orig dir s).1 = true
    · have hc : sphere_candidate m orig dir s = some (ray_sphere_intersect m orig dir s).2 := by
        simp only [sphere_candidate, if_pos hhit]
      have hl : cs ++ (s :: ss).filterMap (sphere_candidate m orig dir)
          = (cs ++ [(ray_sphere_intersect m orig dir s).2])
            ++ ss.filterMap (sphere_candidate m orig dir) := by
        rw [List.filterMap_cons_some hc, List.append_assoc, List.singleton_append]
      rw [hl]
      apply ih
      by_cases hle : (ray_sphere_intersect m orig dir s).2 ≤ st.nearest_dist
      · rw [sphere_step_of_le m orig dir st s hhit hle]
        refine ⟨le_trans hle h1, ?_, fun _ => ⟨by simp, rfl⟩⟩
        intro c hcmem
        rcases List.mem_append.mp hcmem with hcm | hcm
        · exact le_trans hle (h2 c hcm)
        · rw [List.mem_singleton.mp hcm]
      · rw [sphere_step_of_gt m orig dir st s (not_le.mp hle)]
        refine ⟨h1, ?_, fun hlt => ⟨List.mem_append_left _ (h3 hlt).1, (h3 hlt).2⟩⟩
        intro c hcmem
        rcases List.mem_append.mp hcmem with hcm | hcm
        · exact h2 c hcm
        · rw [List.mem_singleton.mp hcm]
          exact le_of_lt (not_le.mp hle)
    · have hmiss : (ray_sphere_intersect m orig dir s).1 = false := by
        simpa using hhit
      have hc : sphere_candidate m orig dir s = none := by
        simp only [sphere_candidate, if_neg hhit]
      rw [List.filterMap_cons_none hc, sphere_step_of_miss m orig dir st s hmiss]
      exact ih st cs ⟨h1, h2, h3⟩

theorem sphere_loop_unchanged (m : Libm F) (orig dir : vec3 F) (ss : List (Sphere F)) :
    ∀ st : Nearest F,
      (∀ s ∈ ss, (ray_sphere_intersect m orig dir s).1 = true →
        st.nearest_dist < (ray_sphere_intersect m orig dir s).2) →
      ss.foldl (sphere_step m orig dir) st = st := by
  induction ss with
  | nil => intro st _; rfl
  | cons s ss ih =>
    intro st h
    have hs : sphere_step m orig dir st s = st := by
      by_cases hhit : (ray_sphere_intersect m orig dir s).1 = true
      · exact sphere_step_of_gt m orig dir st s (h s (List.mem_cons_self _ _) hhit)
      · exact sphere_step_of_miss m orig dir st s (by simpa using hhit)
    rw [List.foldl_cons, hs]
    exact ih st (fun s' hs' => h s' (List.mem_cons_of_mem _ hs'))

theorem dot_normalized (m : Libm F) (a v : vec3 F) :
    dot a (normalized m v) = dot a v * (1 / norm m v) := by
  simp only [normalized, dot, mul]; ring

theorem Libm.Exact.norm_mul_self {m : Libm F} (hm : m.Exact) (v : vec3 F) :
    norm m v * norm m v = dot v v := hm.2 _ (dot_self_nonneg v)

theorem Libm.Exact.norm_nonneg {m : Libm F} (hm : m.Exact) (v : vec3 F) :
    0 ≤ norm m v := hm.1 _ (dot_self_nonneg v)

theorem Libm.Exact.dot_normalized_self {m : Libm F} (hm : m.Exact) (v : vec3 F)
    (h : 0 < norm m v) : dot (normalized m v) (normalized m v) = 1 := by
  have h1 : dot (normalized m v) (normalized m v)
      = dot v v * (1 / norm m v) * (1 / norm m v) := by
    simp only [normalized, dot, mul]; ring
  rw [h1, ← hm.norm_mul_self v]
  field_simp

/-- A ray that leaves a point of the surface of a sphere towards its inside meets the
sphere again at twice the projection of the centre on the ray. -/
theorem ray_sphere_intersect_from_surface (m : Libm F) (hm : m.Exact) (orig dir : vec3 F)
    (s : Sphere F)
    (hon : dot (sub s.center orig) (sub s.center orig) = s.radius * s.radius)
    (htca : 0.0005 < dot (sub s.center orig) dir) :
    ray_sphere_intersect m orig dir s
      = (true, dot (sub s.center orig) dir + dot (sub s.center orig) dir) := by
  have h5 : (0 : F) < 0.0005 := by norm_num
  have hpos : 0 ≤ dot (sub s.center orig) dir := by linarith
  rw [ray_sphere_intersect_eval m orig dir s (dot (sub s.center orig) dir)
    (dot (sub s.center orig) dir * dot (sub s.center orig) dir) rfl (by rw [hon]; ring)
    (mul_self_nonneg _), hm.sqrtf_mul_self hpos, sub_self,
    if_neg (by norm_num), if_pos]
  have : (0.001 : F) = 0.0005 + 0.0005 := by norm_num
  rw [this]
  exact add_lt_add htca htca

theorem candidates_gt (m : Libm F) (orig dir : vec3 F) :
    ∀ c ∈ candidates m orig dir, 0.001 < c := by
  intro c hc
  rcases List.mem_append.mp hc with h | h
  · simp only [checker_candidate] at h
    split_ifs at h with hcond
    · simp only [Option.toList, List.mem_singleton] at h
      rw [h]; exact hcond.2.1
    · simp at h
  · obtain ⟨s, -, hs⟩ := List.mem_filterMap.mp h
    simp only [sphere_candidate] at hs
    split_ifs at hs with hhit
    · rw [← Option.some.inj hs]
      exact ray_sphere_intersect_hit_gt m orig dir s hhit

theorem mem_candidates_of_hit (m : Libm F) (orig dir : vec3 F) (s : Sphere F)
    (hs : s ∈ (spheres : List (Sphere F)))
    (hhit : (ray_sphere_intersect m orig dir s).1 = true) :
    (ray_sphere_intersect m orig dir s).2 ∈ candidates m orig dir := by
  apply List.mem_append_right
  exact List.mem_filterMap.mpr ⟨s, hs, by simp only [sphere_candidate, if_pos hhit]⟩


theorem ivory_ne_red_rubber : (red_rubber : Material F) ≠ ivory := by
  intro h
  have := congrArg Material.albedo0 h
  norm_num [red_rubber, ivory] at this


/-! ### Refraction -/

theorem Libm.Exact.sqrtf_one {m : Libm F} (hm : m.Exact) : m.sqrtf 1 = 1 := by
  have h := hm.sqrtf_mul_self (zero_le_one : (0 : F) ≤ 1)
  rwa [mul_one] at h

theorem neg_dot_self (N : vec3 F) : dot (neg N) (neg N) = dot N N := by
  simp only [dot, neg]; ring

theorem cosi_bounds_of_dot_nonpos (I N : vec3 F) (h : dot I N ≤ 0) :
    0 ≤ cosi I N ∧ cosi I N ≤ 1 := by
  have h1 : min 1 (dot I N) = dot I N := min_eq_right (le_trans h zero_le_one)
  simp only [cosi, h1]
  constructor
  · have : max (-1) (dot I N) ≤ 0 := max_le (by norm_num) h
    linarith
  · have : (-1 : F) ≤ max (-1) (dot I N) := le_max_left _ _
    linarith

/-- On the direct branch the value of `refract` has squared length 1 for unit `I`, `N`. -/
theorem refract_dot_self_direct (m : Libm F) (hm : m.Exact) (I N : vec3 F) (eta_t eta_i : F)
    (hI : dot I I = 1) (hN : dot N N = 1) (hc : ¬ cosi I N < 0) :
    dot (refract m I N eta_t eta_i) (refract m I N eta_t eta_i) = 1 := by
  obtain ⟨hge, hle⟩ := abs_dot_le_one hI hN
  have hcd : cosi I N = -dot I N := cosi_eq I N hge hle
  rw [refract_of_nonneg m I N eta_t eta_i hc]
  by_cases hk : 1 - eta_i / eta_t * (eta_i / eta_t) * (1 - cosi I N * cosi I N) < 0
  · rw [if_pos hk]
    simp [dot]
  · rw [if_neg hk]
    have hss := hm.2 _ (not_lt.mp hk)
    generalize m.sqrtf (1 - eta_i / eta_t * (eta_i / eta_t) * (1 - cosi I N * cosi I N)) = sk
      at hss ⊢
    have hexp : dot (add (mul I (eta_i / eta_t)) (mul N (eta_i / eta_t * cosi I N - sk)))
        (add (mul I (eta_i / eta_t)) (mul N (eta_i / eta_t * cosi I N - sk)))
        = eta_i / eta_t * (eta_i / eta_t) * dot I I
          + 2 * (eta_i / eta_t) * (eta_i / eta_t * cosi I N - sk) * dot I N
          + (eta_i / eta_t * cosi I N - sk) * (eta_i / eta_t * cosi I N - sk) * dot N N := by
      simp only [dot, add, mul]; ring
    have hdn : dot I N = -cosi I N := by rw [hcd, neg_neg]
    rw [hexp, hI, hN, hdn]
    linear_combination hss

theorem refract_dot_self (m : Libm F) (hm : m.Exact) (I N : vec3 F) (eta_t eta_i : F)
    (hI : dot I I = 1) (hN : dot N N = 1) :
    dot (refract m I N eta_t eta_i) (refract m I N eta_t eta_i) = 1 := by
  by_cases hc : cosi I N < 0
  · rw [refract_of_neg m I N eta_t eta_i hc]
    apply refract_dot_self_direct m hm I (neg N) eta_i eta_t hI
    · rw [neg_dot_self, hN]
    · rw [cosi_neg_right]
      exact not_lt.mpr (by linarith)
  · exact refract_dot_self_direct m hm I N eta_t eta_i hI hN hc

theorem Libm.Exact.norm_eq_one_of_dot {m : Libm F} (hm : m.Exact) {v : vec3 F}
    (h : dot v v = 1) : norm m v = 1 := by
  have : norm m v = m.sqrtf (dot v v) := rfl
  rw [this, h, hm.sqrtf_one]

theorem normalized_of_norm_one (m : Libm F) (v : vec3 F) (h : norm m v = 1) :
    normalized m v = v := by
  simp only [normalized, h]
  ext <;> simp [mul]

/-! ### Geometry of a sphere hit -/

theorem ray_sphere_intersect_hit_cases (m : Libm F) (orig dir : vec3 F) (s : Sphere F)
    (h : (ray_sphere_intersect m orig dir s).1 = true) :
    dot (sub s.center orig) (sub s.center orig)
        - dot (sub s.center orig) dir * dot (sub s.center orig) dir ≤ s.radius * s.radius ∧
    ((ray_sphere_intersect m orig dir s).2 = dot (sub s.center orig) dir
        - m.sqrtf (s.radius * s.radius - (dot (sub s.center orig) (sub s.center orig)
          - dot (sub s.center orig) dir * dot (sub s.center orig) dir)) ∨
      (ray_sphere_intersect m orig dir s).2 = dot (sub s.center orig) dir
        + m.sqrtf (s.radius * s.radius - (dot (sub s.center orig) (sub s.center orig)
          - dot (sub s.center orig) dir * dot (sub s.center orig) dir))) := by
  simp only [ray_sphere_intersect] at h ⊢
  split_ifs at h ⊢ with h1 h2 h3
  · exact ⟨not_lt.mp h1, Or.inl rfl⟩
  · exact ⟨not_lt.mp h1, Or.inr rfl⟩

theorem dot_hit_point (orig dir c : vec3 F) (t : F) :
    dot (sub (add orig (mul dir t)) c) (sub (add orig (mul dir t)) c)
      = dot (sub c orig) (sub c orig) - 2 * t * dot (sub c orig) dir
        + t * t * dot dir dir := by
  simp only [dot, sub, add, mul]; ring

/-- For a unit direction the point at the reported distance lies on the sphere. -/
theorem ray_sphere_intersect_on_sphere (m : Libm F) (hm : m.Exact) (orig dir : vec3 F)
    (s : Sphere F) (hdd : dot dir dir = 1)
    (h : (ray_sphere_intersect m orig dir s).1 = true) :
    dot (sub (add orig (mul dir (ray_sphere_intersect m orig dir s).2)) s.center)
        (sub (add orig (mul dir (ray_sphere_intersect m orig dir s).2)) s.center)
      = s.radius * s.radius := by
  obtain ⟨hd2, ht⟩ := ray_sphere_intersect_hit_cases m orig dir s h
  have hss := hm.2 (s.radius * s.radius - (dot (sub s.center orig) (sub s.center orig)
    - dot (sub s.center orig) dir * dot (sub s.center orig) dir)) (by linarith)
  rw [dot_hit_point, hdd]
  generalize m.sqrtf (s.radius * s.radius - (dot (sub s.center orig) (sub s.center orig)
    - dot (sub s.center orig) dir * dot (sub s.center orig) dir)) = thc at hss ht
  rcases ht with ht | ht <;> rw [ht] <;> linear_combination hss

theorem spheres_radius_pos (s : Sphere F) (hs : s ∈ (spheres : List (Sphere F))) :
    0 < s.radius := by
  rw [spheres_eq] at hs
  simp only [List.mem_cons, List.mem_singleton, List.not_mem_nil, or_false] at hs
  rcases hs with h | h | h | h <;> rw [h] <;> norm_num

/-- The sphere loop either leaves its state alone or ends in the state written by one of
the spheres it hit. -/
theorem sphere_loop_cases (m : Libm F) (orig dir : vec3 F) (ss : List (Sphere F)) :
    ∀ st : Nearest F,
      ss.foldl (sphere_step m orig dir) st = st ∨
      ∃ s ∈ ss, (ray_sphere_intersect m orig dir s).1 = true ∧
        ss.foldl (sphere_step m orig dir) st =
          { nearest_dist := (ray_sphere_intersect m orig dir s).2,
            pt := add orig (mul dir (ray_sphere_intersect m orig dir s).2),
            N := normalized m
              (sub (add orig (mul dir (ray_sphere_intersect m orig dir s).2)) s.center),
            material := s.material } := by
  induction ss with
  | nil => intro st; exact Or.inl rfl
  | cons s ss ih =>
    intro st
    rw [List.foldl_cons]
    rcases ih (sphere_step m orig dir st s) with h | ⟨s', hs', hhit, h⟩
    · rw [h]
      by_cases hhit : (ray_sphere_intersect m orig dir s).1 = true
      · by_cases hle : (ray_sphere_intersect m orig dir s).2 ≤ st.nearest_dist
        · exact Or.inr ⟨s, List.mem_cons_self _ _, hhit,
            sphere_step_of_le m orig dir st s hhit hle⟩
        · exact Or.inl (sphere_step_of_gt m orig dir st s (not_le.mp hle))
      · exact Or.inl (sphere_step_of_miss m orig dir st s (by simpa using hhit))
    · exact Or.inr ⟨s', List.mem_cons_of_mem _ hs', hhit, h⟩

theorem background_nonneg : (background : vec3 F).nonneg := by
  refine ⟨?_, ?_, ?_⟩ <;> norm_num [background]


theorem reflect_dot_self (I N : vec3 F) (hI : dot I I = 1) (hN : dot N N = 1) :
    dot (reflect I N) (reflect I N) = 1 := by
  have h : dot (reflect I N) (reflect I N)
      = dot I I - 4 * dot I N * dot I N + 4 * dot I N * dot I N * dot N N := by
    simp only [reflect, dot, sub, mul]; ring
  rw [h, hI, hN]; ring

theorem Libm.Exact.normalized_unit {m : Libm F} (hm : m.Exact) (v : vec3 F)
    (h : dot v v = 1) :
    norm m v ≠ 0 ∧ dot (normalized m v) (normalized m v) = 1 := by
  have h1 := hm.norm_eq_one_of_dot h
  refine ⟨by rw [h1]; exact one_ne_zero, ?_⟩
  rw [normalized_of_norm_one m v h1, h]


/-! ### The program with the IEEE special values -/

section IEEELemmas

open XFloat

@[simp]
theorem XFloat.neg_num (x : F) : (num x).neg = num (-x) := rfl

@[simp]
theorem XFloat.neg_pinf : (pinf : XFloat F).neg = ninf := rfl

@[simp]
theorem XFloat.neg_ninf : (ninf : XFloat F).neg = pinf := rfl

@[simp]
theorem XFloat.neg_nan : (nan : XFloat F).neg = nan := rfl

@[simp]
theorem XFloat.neg_neg (a : XFloat F) : a.neg.neg = a := by
  cases a <;> simp

@[simp]
theorem XFloat.add_num (x y : F) : (num x).add (num y) = num (x + y) := rfl

@[simp]
theorem XFloat.sub_num (x y : F) : (num x).sub (num y) = num (x - y) := by
  simp [XFloat.sub, sub_eq_add_neg]

@[simp]
theorem XFloat.mul_num (x y : F) : (num x).mul (num y) = num (x * y) := rfl

@[simp]
theorem XFloat.mul_nan_right (a : XFloat F) : a.mul nan = nan := by
  cases a <;> rfl

@[simp]
theorem XFloat.mul_nan_left (a : XFloat F) : (nan : XFloat F).mul a = nan := by
  cases a <;> rfl

@[simp]
theorem XFloat.add_nan_right (a : XFloat F) : a.add nan = nan := by
  cases a <;> rfl

@[simp]
theorem XFloat.add_nan_left (a : XFloat F) : (nan : XFloat F).add a = nan := by
  cases a <;> rfl

@[simp]
theorem XFloat.lt_num (x y : F) : (num x).lt (num y) = decide (x < y) := rfl

theorem XFloat.div_num (x y : F) (h : y ≠ 0) : (num x).div (num y) = num (x / y) := by
  simp [XFloat.div, h]

@[simp]
theorem XFloat.fabsf_num (x : F) : fabsf (num x) = num |x| := rfl

theorem XFloat.fminf_num (x y : F) : fminf (num x) (num y) = num (min x y) := by
  simp only [XFloat.fminf, XFloat.lt_num, decide_eq_true_eq]
  rcases lt_or_le x y with h | h
  · rw [if_pos h, min_eq_left (le_of_lt h)]
  · rw [if_neg (not_lt.mpr h), min_eq_right h]

theorem XFloat.fmaxf_num (x y : F) : fmaxf (num x) (num y) = num (max x y) := by
  simp only [XFloat.fmaxf, XFloat.lt_num, decide_eq_true_eq]
  rcases lt_or_le x y with h | h
  · rw [if_pos h, max_eq_right (le_of_lt h)]
  · rw [if_neg (not_lt.mpr h), max_eq_left h]

theorem XFloat.sqrtf_num (m : Libm F) (x : F) (h : 0 ≤ x) :
    XFloat.sqrtf m (num x) = num (m.sqrtf x) := by
  simp [XFloat.sqrtf, not_lt.mpr h]

theorem XFloat.signed_inf_neg (x : F) :
    (signed_inf (-x) : XFloat F) = (signed_inf x).neg := by
  simp only [signed_inf, neg_eq_zero, Left.neg_pos_iff]
  rcases lt_trichotomy x 0 with h | h | h
  · rw [if_neg (ne_of_lt h), if_pos h, if_neg (ne_of_lt h), if_neg (not_lt.mpr (le_of_lt h))]
    rfl
  · rw [if_pos h, if_pos h]; rfl
  · rw [if_neg (ne_of_gt h), if_neg (not_lt.mpr (le_of_lt h)), if_neg (ne_of_gt h), if_pos h]
    rfl

theorem XFloat.mul_neg_one (b : XFloat F) : b.mul (num (-1)) = b.neg := by
  cases b with
  | num y => simp
  | pinf => simp [XFloat.mul, signed_inf]
  | ninf => simp [XFloat.mul, signed_inf]
  | nan => rfl

theorem XFloat.mul_neg_right (a b : XFloat F) : a.mul b.neg = (a.mul b).neg := by
  cases a <;> cases b <;>
    simp [XFloat.mul, XFloat.signed_inf_neg]

theorem XFloat.add_neg_neg (a b : XFloat F) : a.neg.add b.neg = (a.add b).neg := by
  cases a <;> cases b <;> simp [XFloat.add]
  ring

theorem IEEE.dot_flipped_normal (I N : vec3 (XFloat F)) :
    IEEE.dot I (IEEE.neg N) = (IEEE.dot I N).neg := by
  simp only [IEEE.dot, IEEE.neg, XFloat.mul_neg_one, XFloat.mul_neg_right, XFloat.add_neg_neg]

theorem IEEE.cosi_of_dot_nan (I N : vec3 (XFloat F)) (h : IEEE.dot I N = nan) :
    IEEE.cosi I N = num (-1) := by
  simp [IEEE.cosi, h, XFloat.fminf, XFloat.fmaxf]

/-- With a NaN dot product every activation of `refract` calls `refract` again. -/
theorem IEEE.refract_of_dot_nan (m : Libm F) (fuel : Nat) :
    ∀ (I N : vec3 (XFloat F)) (eta_t eta_i : XFloat F), IEEE.dot I N = nan →
      IEEE.refract m fuel I N eta_t eta_i = none := by
  induction fuel with
  | zero => intro I N eta_t eta_i _; rfl
  | succ n ih =>
    intro I N eta_t eta_i h
    have hc : (IEEE.cosi I N).lt (num 0) = true := by
      rw [IEEE.cosi_of_dot_nan I N h]
      simp
    simp only [IEEE.refract, hc, if_true]
    exact ih I (IEEE.neg N) eta_i eta_t (by rw [IEEE.dot_flipped_normal, h]; rfl)

/-! #### On numbers the operations are those of the exact embedding -/

theorem IEEE.mul_lift (v : vec3 F) (f : F) :
    IEEE.mul v.lift (num f) = (ScrollView.mul v f).lift := rfl

theorem IEEE.add_lift (v v2 : vec3 F) :
    IEEE.add v.lift v2.lift = (ScrollView.add v v2).lift := rfl

theorem IEEE.sub_lift (v v2 : vec3 F) :
    IEEE.sub v.lift v2.lift = (ScrollView.sub v v2).lift := by
  simp [IEEE.sub, ScrollView.sub, vec3.lift]

theorem IEEE.neg_lift (v : vec3 F) : IEEE.neg v.lift = (ScrollView.neg v).lift := rfl

theorem IEEE.dot_lift (v v2 : vec3 F) :
    IEEE.dot v.lift v2.lift = num (ScrollView.dot v v2) := rfl

theorem IEEE.norm_lift (m : Libm F) (v : vec3 F) :
    IEEE.norm m v.lift = num (ScrollView.norm m v) := by
  have h : 0 ≤ v.x * v.x + v.y * v.y + v.z * v.z := dot_self_nonneg v
  simp only [IEEE.norm, vec3.lift, XFloat.mul_num, XFloat.add_num, ScrollView.norm]
  exact XFloat.sqrtf_num m _ h

theorem IEEE.normalized_lift (m : Libm F) (v : vec3 F) (h : ScrollView.norm m v ≠ 0) :
    IEEE.normalized m v.lift = (ScrollView.normalized m v).lift := by
  rw [IEEE.normalized, IEEE.norm_lift, XFloat.div_num _ _ h, IEEE.mul_lift]
  rfl

theorem IEEE.reflect_lift (I N : vec3 F) :
    IEEE.reflect I.lift N.lift = (ScrollView.reflect I N).lift := by
  rw [IEEE.reflect, IEEE.dot_lift, XFloat.mul_num, IEEE.mul_lift, IEEE.sub_lift]
  rfl

theorem IEEE.cosi_lift (I N : vec3 F) :
    IEEE.cosi I.lift N.lift = num (ScrollView.cosi I N) := by
  rw [IEEE.cosi, IEEE.dot_lift, XFloat.fminf_num, XFloat.fmaxf_num]
  rfl

/-- An activation of `refract` whose `cosi` is not negative returns. -/
theorem IEEE.refract_returns_of_not_lt (m : Libm F) (fuel : Nat) (I N : vec3 (XFloat F))
    (eta_t eta_i : XFloat F) (h : (IEEE.cosi I N).lt (num 0) = false) :
    ∃ v, IEEE.refract m (fuel + 1) I N eta_t eta_i = some v := by
  simp only [IEEE.refract, h, Bool.false_eq_true, if_false]
  split_ifs
  · exact ⟨_, rfl⟩
  · exact ⟨_, rfl⟩

/-- On numbers with non-zero indices the direct branch of `refract` returns the value of
the exact embedding. -/
theorem IEEE.refract_lift_direct (m : Libm F) (fuel : Nat) (I N : vec3 F) (eta_t eta_i : F)
    (ht : eta_t ≠ 0) (hc : ¬ ScrollView.cosi I N < 0) :
    IEEE.refract m (fuel + 1) I.lift N.lift (num eta_t) (num eta_i)
      = some (ScrollView.refract m I N eta_t eta_i).lift := by
  rw [refract_of_nonneg m I N eta_t eta_i hc]
  simp only [IEEE.refract, IEEE.cosi_lift, XFloat.lt_num, decide_eq_true_eq, if_neg hc,
    XFloat.div_num _ _ ht, XFloat.mul_num, XFloat.sub_num]
  by_cases hk : 1 - eta_i / eta_t * (eta_i / eta_t)
      * (1 - ScrollView.cosi I N * ScrollView.cosi I N) < 0
  · rw [if_pos hk, if_pos hk]
    rfl
  · rw [if_neg hk, if_neg hk, XFloat.sqrtf_num m _ (not_lt.mp hk), XFloat.sub_num,
      IEEE.mul_lift, IEEE.mul_lift, IEEE.add_lift]

/-- On numbers with non-zero indices two activations of `refract` return the value of the
exact embedding. -/
theorem IEEE.refract_lift (m : Libm F) (fuel : Nat) (I N : vec3 F) (eta_t eta_i : F)
    (ht : eta_t ≠ 0) (hi : eta_i ≠ 0) :
    IEEE.refract m (fuel + 2) I.lift N.lift (num eta_t) (num eta_i)
      = some (ScrollView.refract m I N eta_t eta_i).lift := by
  by_cases hc : ScrollView.cosi I N < 0
  · have hc2 : ¬ ScrollView.cosi I (ScrollView.neg N) < 0 := by
      rw [cosi_neg_right]; exact not_lt.mpr (by linarith)
    rw [refract_of_neg m I N eta_t eta_i hc,
      ← IEEE.refract_lift_direct m fuel I (ScrollView.neg N) eta_i eta_t hi hc2]
    simp only [IEEE.refract, IEEE.cosi_lift, XFloat.lt_num, decide_eq_true_eq, if_pos hc,
      IEEE.neg_lift]
  · exact IEEE.refract_lift_direct m (fuel + 1) I N eta_t eta_i ht hc

theorem IEEE.ray_sphere_intersect_lift (m : Libm F) (orig dir : vec3 F) (s : Sphere F) :
    IEEE.ray_sphere_intersect m orig.lift dir.lift s.lift =
      ((ScrollView.ray_sphere_intersect m orig dir s).1,
        num (ScrollView.ray_sphere_intersect m orig dir s).2) := by
  simp only [IEEE.ray_sphere_intersect, ScrollView.ray_sphere_intersect, Sphere.lift,
    IEEE.sub_lift, IEEE.dot_lift, XFloat.mul_num, XFloat.sub_num, XFloat.lt_num,
    decide_eq_true_eq, gt_iff_lt]
  by_cases h1 : s.radius * s.radius < ScrollView.dot (ScrollView.sub s.center orig)
      (ScrollView.sub s.center orig) - ScrollView.dot (ScrollView.sub s.center orig) dir
        * ScrollView.dot (ScrollView.sub s.center orig) dir
  · rw [if_pos h1, if_pos h1]
  · rw [if_neg h1, if_neg h1, XFloat.sqrtf_num m _ (by linarith [not_lt.mp h1])]
    simp only [XFloat.sub_num, XFloat.add_num, XFloat.lt_num, decide_eq_true_eq]
    split_ifs <;> rfl

theorem IEEE.nearest_init_lift :
    (IEEE.nearest_init : Nearest (XFloat F)) = (ScrollView.nearest_init : Nearest F).lift := rfl

theorem IEEE.sphere_step_no_hit (m : Libm F) (orig dir : vec3 (XFloat F))
    (st : Nearest (XFloat F)) (s : Sphere (XFloat F))
    (h : (IEEE.ray_sphere_intersect m orig dir s).1 = false) :
    IEEE.sphere_step m orig dir st s = st := by
  simp only [IEEE.sphere_step, h, true_or, if_true]

/-- For a unit direction one iteration of the sphere loop on numbers is the one of the
exact embedding. -/
theorem IEEE.sphere_step_lift (m : Libm F) (hm : m.Exact) (orig dir : vec3 F)
    (hdd : ScrollView.dot dir dir = 1) (st : Nearest F) (s : Sphere F) (hr : 0 < s.radius) :
    IEEE.sphere_step m orig.lift dir.lift st.lift s.lift
      = (ScrollView.sphere_step m orig dir st s).lift := by
  simp only [IEEE.sphere_step, ScrollView.sphere_step, IEEE.ray_sphere_intersect_lift]
  have hst : (st.lift).nearest_dist = num st.nearest_dist := rfl
  simp only [hst, XFloat.lt_num, decide_eq_true_eq, gt_iff_lt]
  split_ifs with h
  · rfl
  · have hhit : (ScrollView.ray_sphere_intersect m orig dir s).1 = true := by
      by_contra hc
      exact h (Or.inl (by simpa using hc))
    have hon := ray_sphere_intersect_on_sphere m hm orig dir s hdd hhit
    have hn : ScrollView.norm m (ScrollView.sub (ScrollView.add orig (ScrollView.mul dir
        (ScrollView.ray_sphere_intersect m orig dir s).2)) s.center) ≠ 0 := by
      have : ScrollView.norm m (ScrollView.sub (ScrollView.add orig (ScrollView.mul dir
          (ScrollView.ray_sphere_intersect m orig dir s).2)) s.center)
          = m.sqrtf (ScrollView.dot (ScrollView.sub (ScrollView.add orig (ScrollView.mul dir
              (ScrollView.ray_sphere_intersect m orig dir s).2)) s.center)
            (ScrollView.sub (ScrollView.add orig (ScrollView.mul dir
              (ScrollView.ray_sphere_intersect m orig dir s).2)) s.center)) := rfl
      rw [this, hon, hm.sqrtf_mul_self (le_of_lt hr)]
      exact ne_of_gt hr
    have hc : (s.lift).center = s.center.lift := rfl
    have hmat : (s.lift).material = s.material.lift := rfl
    rw [hc, hmat, IEEE.mul_lift, IEEE.add_lift, IEEE.sub_lift, IEEE.normalized_lift m _ hn]
    rfl

theorem IEEE.sphere_loop_lift (m : Libm F) (hm : m.Exact) (orig dir : vec3 F)
    (hdd : ScrollView.dot dir dir = 1) (ss : List (Sphere F)) :
    (∀ s ∈ ss, 0 < s.radius) → ∀ st : Nearest F,
      (ss.map Sphere.lift).foldl (IEEE.sphere_step m orig.lift dir.lift) st.lift
        = (ss.foldl (ScrollView.sphere_step m orig dir) st).lift := by
  induction ss with
  | nil => intro _ st; rfl
  | cons s ss ih =>
    intro h st
    rw [List.map_cons, List.foldl_cons, List.foldl_cons,
      IEEE.sphere_step_lift m hm orig dir hdd st s (h s (List.mem_cons_self _ _))]
    exact ih (fun s' hs' => h s' (List.mem_cons_of_mem _ hs')) _

/-! ### The recursion of `refract` on a dot product that is not NaN -/

theorem XFloat.not_lt_zero_of_pos (c : XFloat F) (h : (num 0).lt c = true) :
    c.lt (num 0) = false := by
  cases c with
  | num x =>
    simp only [XFloat.lt_num, decide_eq_true_eq, decide_eq_false_iff_not] at h ⊢
    exact not_lt.mpr (le_of_lt h)
  | pinf => rfl
  | ninf => exact absurd h (by simp [XFloat.lt])
  | nan => rfl

/-- When the dot product is not NaN and `cosi` is negative, `cosi` of the call on the
flipped normal is positive. -/
theorem IEEE.cosi_neg_pos (I N : vec3 (XFloat F)) (hd : IEEE.dot I N ≠ nan)
    (h : (IEEE.cosi I N).lt (num 0) = true) :
    (num 0).lt (IEEE.cosi I (IEEE.neg N)) = true := by
  rw [IEEE.cosi, IEEE.dot_flipped_normal]
  rw [IEEE.cosi] at h
  revert h hd
  generalize IEEE.dot I N = d
  intro hd h
  cases d with
  | num x =>
    simp only [XFloat.neg_num, XFloat.fminf_num, XFloat.fmaxf_num, XFloat.lt_num,
      decide_eq_true_eq] at h ⊢
    have h1 : 0 < max (-1) (min 1 x) := by linarith
    have h2 : 0 < x := by
      rcases lt_max_iff.mp h1 with h' | h'
      · exact absurd h' (by norm_num)
      · exact (lt_min_iff.mp h').2
    have h3 : max (-1) (min 1 (-x)) < 0 :=
      max_lt (by norm_num) (lt_of_le_of_lt (min_le_right _ _) (by linarith))
    linarith
  | pinf => simp [XFloat.fminf, XFloat.fmaxf, XFloat.lt]
  | ninf =>
    simp [XFloat.fminf, XFloat.fmaxf, XFloat.lt] at h
    exact absurd h (by norm_num)
  | nan => exact absurd rfl hd

theorem IEEE.refract_of_lt (m : Libm F) (fuel : Nat) (I N : vec3 (XFloat F))
    (eta_t eta_i : XFloat F) (h : (IEEE.cosi I N).lt (num 0) = true) :
    IEEE.refract m (fuel + 1) I N eta_t eta_i = IEEE.refract m fuel I (IEEE.neg N) eta_i eta_t := by
  simp only [IEEE.refract, h, if_true]

/-- When the dot product is not NaN two activations of `refract` return. -/
theorem IEEE.refract_returns (m : Libm F) (I N : vec3 (XFloat F)) (eta_t eta_i : XFloat F)
    (hd : IEEE.dot I N ≠ nan) : ∃ v, IEEE.refract m 2 I N eta_t eta_i = some v := by
  by_cases h : (IEEE.cosi I N).lt (num 0) = true
  · rw [IEEE.refract_of_lt m 1 I N eta_t eta_i h]
    exact IEEE.refract_returns_of_not_lt m 0 I (IEEE.neg N) eta_i eta_t
      (XFloat.not_lt_zero_of_pos _ (IEEE.cosi_neg_pos I N hd h))
  · exact IEEE.refract_returns_of_not_lt m 1 I N eta_t eta_i (by simpa using h)

theorem IEEE.normalized_zero (m : Libm F) (h0 : m.sqrtf 0 = 0) :
    IEEE.normalized m (⟨num 0, num 0, num 0⟩ : vec3 (XFloat F)) = ⟨nan, nan, nan⟩ := by
  have hn : IEEE.norm m (⟨num 0, num 0, num 0⟩ : vec3 (XFloat F)) = num 0 := by
    simp [IEEE.norm, XFloat.sqrtf, h0]
  rw [IEEE.normalized, hn]
  simp [IEEE.mul, XFloat.div, XFloat.mul, XFloat.signed_inf]

end IEEELemmas

variable [FloorRing F]

theorem checkerboard_of_accepted (orig dir : vec3 F) (st : Nearest F)
    (h : checker_accepted orig dir st) :
    checkerboard orig dir st =
      { nearest_dist := -(orig.y + 4) / dir.y,
        pt := add orig (mul dir (-(orig.y + 4) / dir.y)),
        N := ⟨0, 1, 0⟩,
        material := { st.material with
          diffuse_color := checker_color (add orig (mul dir (-(orig.y + 4) / dir.y))) } } := by
  simp only [checkerboard, if_pos h.1, if_pos h.2]

theorem checkerboard_of_not_accepted (orig dir : vec3 F) (st : Nearest F)
    (h : ¬ checker_accepted orig dir st) : checkerboard orig dir st = st := by
  simp only [checkerboard]
  by_cases h1 : |dir.y| > 0.001
  · rw [if_pos h1, if_neg (fun h2 => h ⟨h1, h2⟩)]
  · rw [if_neg h1]

theorem toInt_x_in_extent (x : F) (hx : |x| < 10) : toInt (0.5 * x + 1000) = ⌊0.5 * x + 1000⌋ := by
  have h := abs_lt.mp hx
  have : (0 : F) ≤ 0.5 * x + 1000 := by
    have : (0.5 : F) = 1 / 2 := by norm_num
    rw [this]; linarith [h.1]
  simp only [toInt, if_pos this]

theorem toInt_z_in_extent (z : F) (hz : z < -10) : toInt (0.5 * z) = ⌈0.5 * z⌉ := by
  have : ¬ (0 : F) ≤ 0.5 * z := by
    have : (0.5 : F) = 1 / 2 := by norm_num
    rw [this]; intro hc; linarith
  simp only [toInt, if_neg this]

theorem checker_color_cases (p : vec3 F) :
    (checker_color p = ⟨0.3, 0.3, 0.3⟩ ∧
      (toInt (0.5 * p.x + 1000) + toInt (0.5 * p.z)) % 2 = 1) ∨
    (checker_color p = ⟨0.3, 0.2, 0.1⟩ ∧
      (toInt (0.5 * p.x + 1000) + toInt (0.5 * p.z)) % 2 = 0) := by
  simp only [checker_color]
  by_cases h : (toInt (0.5 * p.x + 1000) + toInt (0.5 * p.z)) % 2 ≠ 0
  · rw [if_pos h]
    exact Or.inl ⟨rfl, by omega⟩
  · rw [if_neg h]
    exact Or.inr ⟨rfl, by omega⟩

theorem checker_sum_step (p q : vec3 F)
    (hpx : |p.x| < 10) (hpz : p.z < -10) (hqx : |q.x| < 10) (hqz : q.z < -10)
    (hadj : (q.x = p.x + 2 ∧ q.z = p.z) ∨ (q.x = p.x ∧ q.z = p.z + 2)) :
    toInt (0.5 * q.x + 1000) + toInt (0.5 * q.z)
      = toInt (0.5 * p.x + 1000) + toInt (0.5 * p.z) + 1 := by
  rw [toInt_x_in_extent _ hpx, toInt_x_in_extent _ hqx, toInt_z_in_extent _ hpz,
    toInt_z_in_extent _ hqz]
  rcases hadj with ⟨hx, hz⟩ | ⟨hx, hz⟩
  · have : (0.5 : F) * q.x + 1000 = 0.5 * p.x + 1000 + 1 := by rw [hx]; norm_num; ring
    rw [this, Int.floor_add_one, hz]; ring
  · have : (0.5 : F) * q.z = 0.5 * p.z + 1 := by rw [hz]; norm_num; ring
    rw [this, Int.ceil_add_one, hx]; ring

theorem checker_color_adjacent (p q : vec3 F)
    (hpx : |p.x| < 10) (hpz : p.z < -10) (hqx : |q.x| < 10) (hqz : q.z < -10)
    (hadj : (q.x = p.x + 2 ∧ q.z = p.z) ∨ (q.x = p.x ∧ q.z = p.z + 2)) :
    (checker_color p = ⟨0.3, 0.3, 0.3⟩ ∧ checker_color q = ⟨0.3, 0.2, 0.1⟩) ∨
    (checker_color p = ⟨0.3, 0.2, 0.1⟩ ∧ checker_color q = ⟨0.3, 0.3, 0.3⟩) := by
  have hs := checker_sum_step p q hpx hpz hqx hqz hadj
  rcases checker_color_cases p with ⟨hp, hp2⟩ | ⟨hp, hp2⟩ <;>
    rcases checker_color_cases q with ⟨hq, hq2⟩ | ⟨hq, hq2⟩
  · omega
  · exact Or.inl ⟨hp, hq⟩
  · exact Or.inr ⟨hp, hq⟩
  · omega

theorem cast_ray_unfold (m : Libm F) (orig dir : vec3 F) (depth : Int) :
    cast_ray m orig dir depth =
      if depth > 4 ∨ (scene_intersect m orig dir).hit = false then background
      else
        shade m dir (scene_intersect m orig dir).v (scene_intersect m orig dir).v2
          (scene_intersect m orig dir).mat
          (cast_ray m (scene_intersect m orig dir).v
            (normalized m (reflect dir (scene_intersect m orig dir).v2)) (depth + 1))
          (cast_ray m (scene_intersect m orig dir).v
            (normalized m (refract m dir (scene_intersect m orig dir).v2
              (scene_intersect m orig dir).mat.refractive_index 1)) (depth + 1)) := by
  rw [cast_ray]
  simp only [dite_eq_ite]

/-! ### Nearest-hit resolution -/

theorem checkerboard_invariant (orig dir : vec3 F) :
    (checkerboard orig dir nearest_init).nearest_dist ≤ 1e10 ∧
    (∀ c ∈ (checker_candidate orig dir).toList,
      (checkerboard orig dir nearest_init).nearest_dist ≤ c) ∧
    ((checkerboard orig dir nearest_init).nearest_dist < 1e10 →
      (checkerboard orig dir nearest_init).nearest_dist ∈ (checker_candidate orig dir).toList ∧
      (checkerboard orig dir nearest_init).pt
        = add orig (mul dir (checkerboard orig dir nearest_init).nearest_dist)) := by
  by_cases ha : checker_accepted orig dir (nearest_init : Nearest F)
  · have hc : checker_candidate orig dir = some (-(orig.y + 4) / dir.y) := by
      obtain ⟨h1, h2, -, h4, h5, h6⟩ := ha
      simp only [checker_candidate]
      rw [if_pos ⟨h1, h2, h4, h6, h5⟩]
    rw [checkerboard_of_accepted orig dir nearest_init ha, hc]
    obtain ⟨-, -, h3, -⟩ := ha
    refine ⟨le_of_lt h3, ?_, fun _ => ⟨by simp, rfl⟩⟩
    intro c hcm
    simp only [Option.toList, List.mem_singleton] at hcm
    rw [hcm]
  · rw [checkerboard_of_not_accepted orig dir nearest_init ha]
    refine ⟨le_refl _, ?_, fun h => absurd h (lt_irrefl _)⟩
    intro c hcm
    simp only [checker_candidate] at hcm
    split_ifs at hcm with hcond
    · simp only [Option.toList, List.mem_singleton] at hcm
      obtain ⟨h1, h2, h4, h6, h5⟩ := hcond
      rw [hcm]
      by_contra hlt
      exact ha ⟨h1, h2, not_le.mp hlt, h4, h5, h6⟩
    · simp at hcm

theorem scene_nearest_invariant (m : Libm F) (orig dir : vec3 F) :
    (scene_nearest m orig dir).nearest_dist ≤ 1e10 ∧
    (∀ c ∈ candidates m orig dir, (scene_nearest m orig dir).nearest_dist ≤ c) ∧
    ((scene_nearest m orig dir).nearest_dist < 1e10 →
      (scene_nearest m orig dir).nearest_dist ∈ candidates m orig dir ∧
      (scene_nearest m orig dir).pt
        = add orig (mul dir (scene_nearest m orig dir).nearest_dist)) :=
  sphere_loop_invariant m orig dir spheres _ _ (checkerboard_invariant orig dir)

theorem scene_intersect_hit_iff (m : Libm F) (orig dir : vec3 F) :
    (scene_intersect m orig dir).hit = true ↔ (scene_nearest m orig dir).nearest_dist < 1000 := by
  simp only [scene_intersect, decide_eq_true_eq]

/-- Among the spheres hit at the least distance, the last one in the array holds the hit:
a sphere whose distance is at most the nearest distance found before it, and below the
distance of every sphere hit after it, is the one `scene_intersect` reports. -/
theorem scene_nearest_last_minimal (m : Libm F) (orig dir : vec3 F)
    (pre post : List (Sphere F)) (s : Sphere F)
    (hsplit : (spheres : List (Sphere F)) = pre ++ s :: post)
    (hhit : (ray_sphere_intersect m orig dir s).1 = true)
    (hle : (ray_sphere_intersect m orig dir s).2 ≤
      (pre.foldl (sphere_step m orig dir) (checkerboard orig dir nearest_init)).nearest_dist)
    (hpost : ∀ s' ∈ post, (ray_sphere_intersect m orig dir s').1 = true →
      (ray_sphere_intersect m orig dir s).2 < (ray_sphere_intersect m orig dir s').2) :
    scene_nearest m orig dir =
      { nearest_dist := (ray_sphere_intersect m orig dir s).2,
        pt := add orig (mul dir (ray_sphere_intersect m orig dir s).2),
        N := normalized m
          (sub (add orig (mul dir (ray_sphere_intersect m orig dir s).2)) s.center),
        material := s.material } := by
  rw [scene_nearest, hsplit, List.foldl_append, List.foldl_cons,
    sphere_step_of_le m orig dir _ s hhit hle]
  exact sphere_loop_unchanged m orig dir post _ hpost

/-! ### Shadow rays -/

/-- A light is occluded as soon as the shadow ray meets one sphere closer than the light
and closer than 1000. -/
theorem occluded_of_sphere_hit (m : Libm F) (hm : m.Exact) (point light : vec3 F)
    (s : Sphere F) (hs : s ∈ (spheres : List (Sphere F)))
    (hpos : 0 < norm m (sub light point))
    (hhit : (ray_sphere_intersect m point (normalized m (sub light point)) s).1 = true)
    (hlt : (ray_sphere_intersect m point (normalized m (sub light point)) s).2
      < norm m (sub light point))
    (hlt2 : (ray_sphere_intersect m point (normalized m (sub light point)) s).2 < 1000) :
    occluded m point light = true := by
  obtain ⟨-, hmin, hmem⟩ := scene_nearest_invariant m point (normalized m (sub light point))
  have hbig : (1000 : F) < 1e10 := by norm_num
  have hcand := mem_candidates_of_hit m point _ s hs hhit
  have hle := hmin _ hcand
  have hn : (scene_nearest m point (normalized m (sub light point))).nearest_dist < 1000 :=
    lt_of_le_of_lt hle hlt2
  obtain ⟨hin, hpt⟩ := hmem (lt_trans hn hbig)
  have hn0 : 0 ≤ (scene_nearest m point (normalized m (sub light point))).nearest_dist := by
    have h1 := candidates_gt m point _ _ hin
    have h2 : (0 : F) < 0.001 := by norm_num
    linarith
  have hu := hm.dot_normalized_self (sub light point) hpos
  have hnorm : norm m (sub (scene_nearest m point (normalized m (sub light point))).pt point)
      = (scene_nearest m point (normalized m (sub light point))).nearest_dist := by
    rw [hpt]
    generalize (scene_nearest m point (normalized m (sub light point))).nearest_dist = n
      at hn0 ⊢
    have harg : (sub (add point (mul (normalized m (sub light point)) n)) point).x
          * (sub (add point (mul (normalized m (sub light point)) n)) point).x
        + (sub (add point (mul (normalized m (sub light point)) n)) point).y
          * (sub (add point (mul (normalized m (sub light point)) n)) point).y
        + (sub (add point (mul (normalized m (sub light point)) n)) point).z
          * (sub (add point (mul (normalized m (sub light point)) n)) point).z
        = n * n := by
      have : (sub (add point (mul (normalized m (sub light point)) n)) point).x
          * (sub (add point (mul (normalized m (sub light point)) n)) point).x
        + (sub (add point (mul (normalized m (sub light point)) n)) point).y
          * (sub (add point (mul (normalized m (sub light point)) n)) point).y
        + (sub (add point (mul (normalized m (sub light point)) n)) point).z
          * (sub (add point (mul (normalized m (sub light point)) n)) point).z
        = n * n * dot (normalized m (sub light point)) (normalized m (sub light point)) := by
        simp only [sub, add, mul, dot]; ring
      rw [this, hu, mul_one]
    simp only [norm]
    rw [harg, hm.sqrtf_mul_self hn0]
  simp only [occluded, scene_intersect, Bool.and_eq_true, decide_eq_true_eq]
  exact ⟨hn, by rw [hnorm]; exact lt_of_le_of_lt hle hlt⟩

/-- A point of the surface of a sphere is in the shadow of that sphere for every light
that lies beyond the sphere: the vector `v` to the light points into the sphere and is
longer than the chord it cuts. -/
theorem occluded_from_surface (m : Libm F) (hm : m.Exact) (point light : vec3 F)
    (s : Sphere F) (hs : s ∈ (spheres : List (Sphere F)))
    (hon : dot (sub s.center point) (sub s.center point) = s.radius * s.radius)
    (hq2 : dot (sub light point) (sub light point) ≤ 10000)
    (hin : 1 ≤ dot (sub s.center point) (sub light point))
    (hlt : 2 * dot (sub s.center point) (sub light point)
      < dot (sub light point) (sub light point)) :
    occluded m point light = true := by
  have hnn := hm.norm_mul_self (sub light point)
  have hn0 := hm.norm_nonneg (sub light point)
  have hpos : 0 < norm m (sub light point) := by
    rcases eq_or_lt_of_le hn0 with h | h
    · rw [← h, mul_zero] at hnn; linarith
    · exact h
  have hle100 : norm m (sub light point) ≤ 100 := by nlinarith
  have htca : dot (sub s.center point) (normalized m (sub light point))
      = dot (sub s.center point) (sub light point) / norm m (sub light point) := by
    rw [dot_normalized, mul_one_div]
  have h1 : 0.0005 < dot (sub s.center point) (normalized m (sub light point)) := by
    rw [htca, lt_div_iff₀ hpos]
    have : (0.0005 : F) * norm m (sub light point) ≤ 0.0005 * 100 :=
      mul_le_mul_of_nonneg_left hle100 (by norm_num)
    have h2 : (0.0005 : F) * 100 < 1 := by norm_num
    linarith
  have hr := ray_sphere_intersect_from_surface m hm point (normalized m (sub light point)) s
    hon h1
  have h2 : dot (sub s.center point) (normalized m (sub light point))
      + dot (sub s.center point) (normalized m (sub light point))
      < norm m (sub light point) := by
    rw [htca, ← add_div, div_lt_iff₀ hpos, hnn]
    linarith
  apply occluded_of_sphere_hit m hm point light s hs hpos
  · rw [hr]
  · rw [hr]; exact h2
  · rw [hr]
    exact lt_of_lt_of_le h2 (le_trans hle100 (by norm_num))

theorem light_loop_all_occluded (m : Libm F) (dir point N : vec3 F) (material : Material F)
    (ls : List (vec3 F)) :
    ∀ acc : F × F, (∀ light ∈ ls, occluded m point light = true) →
      ls.foldl (light_step m dir point N material) acc = acc := by
  induction ls with
  | nil => intro acc _; rfl
  | cons l ls ih =>
    intro acc h
    have hl : light_step m dir point N material acc l = acc := by
      simp only [light_step, if_pos (h l (List.mem_cons_self _ _))]
    rw [List.foldl_cons, hl]
    exact ih acc (fun l' hl' => h l' (List.mem_cons_of_mem _ hl'))

/-! ### Two concrete rays in the scene, in exact real arithmetic -/

/-- The ray from `(0, 3.5, -15)` along `(-2/7, -6/7, -3/7)` meets the first sphere at
distance `30/7 − √(23/196)`. -/
theorem tie_ray_sphere0 :
    ray_sphere_intersect (⟨Real.sqrt, fun x y => x ^ y⟩ : Libm ℝ) ⟨0, 3.5, -15⟩
      ⟨-2/7, -6/7, -3/7⟩ ⟨⟨-3, 0, -16⟩, 2, ivory⟩ = (true, 30/7 - Real.sqrt (23/196)) := by
  have hs : Real.sqrt (23/196) < 1 := by
    rw [Real.sqrt_lt' (by norm_num)]; norm_num
  rw [ray_sphere_intersect_eval _ _ _ _ (30/7) (23/196) (by norm_num [sub, dot])
    (by norm_num [sub, dot]) (by norm_num)]
  rw [if_pos (by
    show (30/7 : ℝ) - Real.sqrt (23/196) > 0.001
    have : (0.001 : ℝ) < 30/7 - 1 := by norm_num
    linarith)]

theorem tie_ray_sphere1 :
    ray_sphere_intersect (⟨Real.sqrt, fun x y => x ^ y⟩ : Libm ℝ) ⟨0, 3.5, -15⟩
      ⟨-2/7, -6/7, -3/7⟩ ⟨⟨-1, -1.5, -12⟩, 2, glass⟩ = (false, 0) :=
  ray_sphere_intersect_miss _ _ _ _ (by norm_num [sub, dot])

/-- The same ray meets the third sphere at the same distance `30/7 − √(23/196)`. -/
theorem tie_ray_sphere2 :
    ray_sphere_intersect (⟨Real.sqrt, fun x y => x ^ y⟩ : Libm ℝ) ⟨0, 3.5, -15⟩
      ⟨-2/7, -6/7, -3/7⟩ ⟨⟨1.5, -0.5, -18⟩, 3, red_rubber⟩
      = (true, 30/7 - Real.sqrt (23/196)) := by
  have hs : Real.sqrt (23/196) < 1 := by
    rw [Real.sqrt_lt' (by norm_num)]; norm_num
  rw [ray_sphere_intersect_eval _ _ _ _ (30/7) (23/196) (by norm_num [sub, dot])
    (by norm_num [sub, dot]) (by norm_num)]
  rw [if_pos (by
    show (30/7 : ℝ) - Real.sqrt (23/196) > 0.001
    have : (0.001 : ℝ) < 30/7 - 1 := by norm_num
    linarith)]

theorem tie_ray_sphere3 :
    ray_sphere_intersect (⟨Real.sqrt, fun x y => x ^ y⟩ : Libm ℝ) ⟨0, 3.5, -15⟩
      ⟨-2/7, -6/7, -3/7⟩ ⟨⟨7, 5, -18⟩, 4, mirror⟩ = (false, 0) :=
  ray_sphere_intersect_miss _ _ _ _ (by norm_num [sub, dot])

/-- When the loop reaches the third sphere, the nearest distance is the one of the first
sphere, which the third sphere equals. -/
theorem tie_ray_before_sphere2 :
    (ray_sphere_intersect (⟨Real.sqrt, fun x y => x ^ y⟩ : Libm ℝ) ⟨0, 3.5, -15⟩
      ⟨-2/7, -6/7, -3/7⟩ ⟨⟨1.5, -0.5, -18⟩, 3, red_rubber⟩).2 ≤
    (([⟨⟨-3, 0, -16⟩, 2, ivory⟩, ⟨⟨-1, -1.5, -12⟩, 2, glass⟩] : List (Sphere ℝ)).foldl
      (sphere_step ⟨Real.sqrt, fun x y => x ^ y⟩ ⟨0, 3.5, -15⟩ ⟨-2/7, -6/7, -3/7⟩)
      (checkerboard ⟨0, 3.5, -15⟩ ⟨-2/7, -6/7, -3/7⟩ nearest_init)).nearest_dist := by
  have hacc : checker_accepted (⟨0, 3.5, -15⟩ : vec3 ℝ) ⟨-2/7, -6/7, -3/7⟩ nearest_init := by
    norm_num [checker_accepted, nearest_init, add, mul, abs_lt, lt_abs]
  rw [List.foldl_cons, List.foldl_cons, List.foldl_nil,
    sphere_step_of_miss _ _ _ _ _ (by rw [tie_ray_sphere1]),
    sphere_step_of_le _ _ _ _ _ (by rw [tie_ray_sphere0])
      (by
        rw [tie_ray_sphere0, checkerboard_of_accepted _ _ _ hacc]
        show (30/7 : ℝ) - Real.sqrt (23/196) ≤ -(3.5 + 4) / (-6/7)
        have : (30/7 : ℝ) ≤ -(3.5 + 4) / (-6/7) := by norm_num
        linarith [Real.sqrt_nonneg (23/196 : ℝ)]),
    tie_ray_sphere0, tie_ray_sphere2]

theorem tie_ray_after_sphere2 :
    ∀ s' ∈ ([⟨⟨7, 5, -18⟩, 4, mirror⟩] : List (Sphere ℝ)),
      (ray_sphere_intersect (⟨Real.sqrt, fun x y => x ^ y⟩ : Libm ℝ) ⟨0, 3.5, -15⟩
        ⟨-2/7, -6/7, -3/7⟩ s').1 = true →
      (ray_sphere_intersect (⟨Real.sqrt, fun x y => x ^ y⟩ : Libm ℝ) ⟨0, 3.5, -15⟩
        ⟨-2/7, -6/7, -3/7⟩ ⟨⟨1.5, -0.5, -18⟩, 3, red_rubber⟩).2 <
      (ray_sphere_intersect (⟨Real.sqrt, fun x y => x ^ y⟩ : Libm ℝ) ⟨0, 3.5, -15⟩
        ⟨-2/7, -6/7, -3/7⟩ s').2 := by
  intro s' hs' hhit
  rw [List.mem_singleton.mp hs', tie_ray_sphere3] at hhit
  exact absurd hhit (by simp)

/-- The ray from `(1.5, -3.9, -18)` straight up meets the third sphere at its lowest
point `(1.5, -3.5, -18)`, at distance `0.4`, and nothing else. -/
theorem up_ray_nearest :
    scene_nearest (⟨Real.sqrt, fun x y => x ^ y⟩ : Libm ℝ) ⟨1.5, -3.9, -18⟩ ⟨0, 1, 0⟩ =
      { nearest_dist := 0.4, pt := ⟨1.5, -3.5, -18⟩,
        N := normalized ⟨Real.sqrt, fun x y => x ^ y⟩
          (sub ⟨1.5, -3.5, -18⟩ ⟨1.5, -0.5, -18⟩),
        material := red_rubber } := by
  have h9 : Real.sqrt 9 = 3 := by
    rw [Real.sqrt_eq_iff_mul_self_eq] <;> norm_num
  have h0 : ray_sphere_intersect (⟨Real.sqrt, fun x y => x ^ y⟩ : Libm ℝ) ⟨1.5, -3.9, -18⟩
      ⟨0, 1, 0⟩ ⟨⟨-3, 0, -16⟩, 2, ivory⟩ = (false, 0) :=
    ray_sphere_intersect_miss _ _ _ _ (by norm_num [sub, dot])
  have h1 : ray_sphere_intersect (⟨Real.sqrt, fun x y => x ^ y⟩ : Libm ℝ) ⟨1.5, -3.9, -18⟩
      ⟨0, 1, 0⟩ ⟨⟨-1, -1.5, -12⟩, 2, glass⟩ = (false, 0) :=
    ray_sphere_intersect_miss _ _ _ _ (by norm_num [sub, dot])
  have h2 : ray_sphere_intersect (⟨Real.sqrt, fun x y => x ^ y⟩ : Libm ℝ) ⟨1.5, -3.9, -18⟩
      ⟨0, 1, 0⟩ ⟨⟨1.5, -0.5, -18⟩, 3, red_rubber⟩ = (true, 0.4) := by
    rw [ray_sphere_intersect_eval _ _ _ _ 3.4 9 (by norm_num [sub, dot])
      (by norm_num [sub, dot]) (by norm_num)]
    show (if (3.4 : ℝ) - Real.sqrt 9 > 0.001 then (true, 3.4 - Real.sqrt 9)
      else if (3.4 : ℝ) + Real.sqrt 9 > 0.001 then (true, 3.4 + Real.sqrt 9)
      else (false, 0)) = (true, 0.4)
    rw [h9, if_pos (by norm_num)]
    norm_num
  have h3 : ray_sphere_intersect (⟨Real.sqrt, fun x y => x ^ y⟩ : Libm ℝ) ⟨1.5, -3.9, -18⟩
      ⟨0, 1, 0⟩ ⟨⟨7, 5, -18⟩, 4, mirror⟩ = (false, 0) :=
    ray_sphere_intersect_miss _ _ _ _ (by norm_num [sub, dot])
  have hrej : ¬ checker_accepted (⟨1.5, -3.9, -18⟩ : vec3 ℝ) ⟨0, 1, 0⟩ nearest_init := by
    norm_num [checker_accepted]
  rw [scene_nearest_last_minimal (⟨Real.sqrt, fun x y => x ^ y⟩ : Libm ℝ)
    ⟨1.5, -3.9, -18⟩ ⟨0, 1, 0⟩
    [⟨⟨-3, 0, -16⟩, 2, ivory⟩, ⟨⟨-1, -1.5, -12⟩, 2, glass⟩] [⟨⟨7, 5, -18⟩, 4, mirror⟩]
    ⟨⟨1.5, -0.5, -18⟩, 3, red_rubber⟩ spheres_eq (by rw [h2])
    (by
      rw [List.foldl_cons, List.foldl_cons, List.foldl_nil,
        sphere_step_of_miss _ _ _ _ _ (by rw [h1]),
        sphere_step_of_miss _ _ _ _ _ (by rw [h0]),
        checkerboard_of_not_accepted _ _ _ hrej, h2]
      norm_num [nearest_init])
    (by
      intro s' hs' hhit
      rw [List.mem_singleton.mp hs', h3] at hhit
      exact absurd hhit (by simp)), h2]
  have hp : add (⟨1.5, -3.9, -18⟩ : vec3 ℝ) (mul ⟨0, 1, 0⟩ 0.4) = ⟨1.5, -3.5, -18⟩ := by
    ext <;> norm_num [add, mul]
  simp only [hp]

/-- The ray from the origin straight up meets nothing. -/
theorem sky_ray_miss :
    (scene_intersect (⟨Real.sqrt, fun x y => x ^ y⟩ : Libm ℝ) ⟨0, 0, 0⟩ ⟨0, 1, 0⟩).hit
      = false := by
  have hrej : ¬ checker_accepted (⟨0, 0, 0⟩ : vec3 ℝ) ⟨0, 1, 0⟩ nearest_init := by
    norm_num [checker_accepted]
  have hn : scene_nearest (⟨Real.sqrt, fun x y => x ^ y⟩ : Libm ℝ) ⟨0, 0, 0⟩ ⟨0, 1, 0⟩
      = nearest_init := by
    rw [scene_nearest, checkerboard_of_not_accepted _ _ _ hrej]
    apply sphere_loop_unchanged
    intro s hs hhit
    rw [spheres_eq] at hs
    simp only [List.mem_cons, List.mem_singleton, List.not_mem_nil, or_false] at hs
    rcases hs with h | h | h | h <;> rw [h] at hhit <;>
      rw [ray_sphere_intersect_miss _ _ _ _ (by norm_num [sub, dot])] at hhit <;>
      exact absurd hhit (by simp)
  simp only [scene_intersect, hn]
  norm_num [nearest_init]

/-- Two rays straight down onto the floor, two units apart in `x`. -/
theorem floor_rays_accepted :
    checker_accepted (⟨0, 0, -20⟩ : vec3 ℝ) ⟨0, -1, 0⟩ nearest_init ∧
    checker_accepted (⟨2, 0, -20⟩ : vec3 ℝ) ⟨0, -1, 0⟩ nearest_init := by
  constructor <;> norm_num [checker_accepted, nearest_init, add, mul, abs_lt, lt_abs]

/-! ### The state in which `scene_intersect` ends -/

theorem scene_nearest_cases (m : Libm F) (orig dir : vec3 F) :
    scene_nearest m orig dir = nearest_init ∨
    (checker_accepted orig dir (nearest_init : Nearest F) ∧
      scene_nearest m orig dir =
        { nearest_dist := -(orig.y + 4) / dir.y,
          pt := add orig (mul dir (-(orig.y + 4) / dir.y)),
          N := ⟨0, 1, 0⟩,
          material := { (MATBASE : Material F) with
            diffuse_color := checker_color (add orig (mul dir (-(orig.y + 4) / dir.y))) } }) ∨
    ∃ s ∈ (spheres : List (Sphere F)), (ray_sphere_intersect m orig dir s).1 = true ∧
      scene_nearest m orig dir =
        { nearest_dist := (ray_sphere_intersect m orig dir s).2,
          pt := add orig (mul dir (ray_sphere_intersect m orig dir s).2),
          N := normalized m
            (sub (add orig (mul dir (ray_sphere_intersect m orig dir s).2)) s.center),
          material := s.material } := by
  rcases sphere_loop_cases m orig dir spheres (checkerboard orig dir nearest_init) with
    h | ⟨s, hs, hhit, h⟩
  · by_cases ha : checker_accepted orig dir (nearest_init : Nearest F)
    · right; left
      refine ⟨ha, ?_⟩
      rw [scene_nearest, h, checkerboard_of_accepted orig dir nearest_init ha]
      rfl
    · left
      rw [scene_nearest, h, checkerboard_of_not_accepted orig dir nearest_init ha]
  · right; right
    exact ⟨s, hs, hhit, h⟩

/-! ### Non-negative colours -/

theorem checker_color_nonneg (p : vec3 F) : (checker_color p).nonneg := by
  rcases checker_color_cases p with ⟨h, -⟩ | ⟨h, -⟩ <;> rw [h] <;>
    refine ⟨?_, ?_, ?_⟩ <;> norm_num

theorem scene_material_nonneg (m : Libm F) (orig dir : vec3 F) :
    (scene_intersect m orig dir).mat.nonneg := by
  show (scene_nearest m orig dir).material.nonneg
  rcases scene_nearest_cases m orig dir with h | ⟨-, h⟩ | ⟨s, hs, -, h⟩
  · rw [h]
    refine ⟨?_, ?_, ?_, ?_, ?_, ?_, ?_⟩ <;> norm_num [nearest_init, MATBASE]
  · rw [h]
    refine ⟨?_, ?_, ?_, ?_, checker_color_nonneg _⟩ <;> norm_num [MATBASE]
  · rw [h, spheres_eq] at *
    simp only [List.mem_cons, List.mem_singleton, List.not_mem_nil, or_false] at hs
    rcases hs with h' | h' | h' | h' <;> rw [h'] <;>
      refine ⟨?_, ?_, ?_, ?_, ?_, ?_, ?_⟩ <;>
      norm_num [ivory, glass, red_rubber, mirror]

theorem light_loop_nonneg (m : Libm F) (hp : ∀ x y : F, 0 ≤ x → 0 ≤ m.powf x y)
    (dir point N : vec3 F) (material : Material F) (ls : List (vec3 F)) :
    ∀ acc : F × F, 0 ≤ acc.1 → 0 ≤ acc.2 →
      0 ≤ (ls.foldl (light_step m dir point N material) acc).1 ∧
      0 ≤ (ls.foldl (light_step m dir point N material) acc).2 := by
  induction ls with
  | nil => intro acc h1 h2; exact ⟨h1, h2⟩
  | cons l ls ih =>
    intro acc h1 h2
    rw [List.foldl_cons]
    apply ih
    · simp only [light_step]
      split_ifs
      · exact h1
      · exact add_nonneg h1 (le_max_left _ _)
    · simp only [light_step]
      split_ifs
      · exact h2
      · exact add_nonneg h2 (hp _ _ (le_max_left _ _))

theorem shade_nonneg (m : Libm F) (hp : ∀ x y : F, 0 ≤ x → 0 ≤ m.powf x y)
    (dir point N : vec3 F) (material : Material F) (reflect_color refract_color : vec3 F)
    (hmat : material.nonneg) (h1 : reflect_color.nonneg) (h2 : refract_color.nonneg) :
    (shade m dir point N material reflect_color refract_color).nonneg := by
  obtain ⟨ha0, ha1, ha2, ha3, hdx, hdy, hdz⟩ := hmat
  obtain ⟨h1x, h1y, h1z⟩ := h1
  obtain ⟨h2x, h2y, h2z⟩ := h2
  obtain ⟨hd, hs⟩ := light_loop_nonneg m hp dir point N material lights (0, 0)
    (le_refl _) (le_refl _)
  simp only [shade, vec3.nonneg, add, mul]
  generalize (List.foldl (light_step m dir point N material) (0, 0) lights) = acc at hd hs
  refine ⟨?_, ?_, ?_⟩ <;>
    refine add_nonneg (add_nonneg (mul_nonneg (mul_nonneg ?_ hd) ha0)
      (mul_nonneg (mul_nonneg zero_le_one hs) ha1))
      (add_nonneg (mul_nonneg ?_ ha2) (mul_nonneg ?_ ha3)) <;> assumption

theorem cast_ray_nonneg_aux (m : Libm F) (hp : ∀ x y : F, 0 ≤ x → 0 ≤ m.powf x y)
    (n : Nat) : ∀ (orig dir : vec3 F) (depth : Int), (5 - depth).toNat ≤ n →
      (cast_ray m orig dir depth).nonneg := by
  induction n with
  | zero =>
    intro orig dir depth h
    rw [cast_ray_unfold, if_pos (Or.inl (by omega))]
    exact background_nonneg
  | succ n ih =>
    intro orig dir depth h
    rw [cast_ray_unfold]
    split_ifs with hc
    · exact background_nonneg
    · have hd : depth ≤ 4 := by
        by_contra hgt
        exact hc (Or.inl (by omega))
      exact shade_nonneg m hp _ _ _ _ _ _ (scene_material_nonneg m orig dir)
        (ih _ _ _ (by omega)) (ih _ _ _ (by omega))

/-! ### The colour of a checkerboard hit -/

theorem checker_sum_in_extent (p : vec3 F) (hx : |p.x| < 10) (hz : p.z < -10) :
    toInt (0.5 * p.x + 1000) + toInt (0.5 * p.z) = ⌊0.5 * p.x⌋ + ⌈0.5 * p.z⌉ + 1000 := by
  rw [toInt_x_in_extent _ hx, toInt_z_in_extent _ hz]
  have : (0.5 : F) * p.x + 1000 = 0.5 * p.x + ((1000 : ℤ) : F) := by push_cast; ring
  rw [this, Int.floor_add_int]
  ring

theorem checker_color_eq_iff (p q : vec3 F)
    (hpx : |p.x| < 10) (hpz : p.z < -10) (hqx : |q.x| < 10) (hqz : q.z < -10) :
    checker_color p = checker_color q ↔
      (⌊0.5 * p.x⌋ + ⌈0.5 * p.z⌉) % 2 = (⌊0.5 * q.x⌋ + ⌈0.5 * q.z⌉) % 2 := by
  have hp := checker_sum_in_extent p hpx hpz
  have hq := checker_sum_in_extent q hqx hqz
  rcases checker_color_cases p with ⟨hcp, hp2⟩ | ⟨hcp, hp2⟩ <;>
    rcases checker_color_cases q with ⟨hcq, hq2⟩ | ⟨hcq, hq2⟩ <;>
    rw [hcp, hcq]
  · exact ⟨fun _ => by omega, fun _ => rfl⟩
  · exact ⟨fun h => absurd h checker_grays_ne, fun h => by omega⟩
  · exact ⟨fun h => absurd h.symm checker_grays_ne, fun h => by omega⟩
  · exact ⟨fun _ => by omega, fun _ => rfl⟩

theorem checker_color_x (p : vec3 F) : (checker_color p).x = 0.3 := by
  rcases checker_color_cases p with ⟨h, -⟩ | ⟨h, -⟩ <;> rw [h]

/-! ### More concrete rays -/

/-- The ray straight down onto the floor point `(0, -4, -23)`. -/
theorem floor_ray23_accepted :
    checker_accepted (⟨0, 0, -23⟩ : vec3 ℝ) ⟨0, -1, 0⟩ nearest_init := by
  norm_num [checker_accepted, nearest_init, add, mul, abs_lt, lt_abs]

theorem floor_ray20_pt :
    (checkerboard (⟨0, 0, -20⟩ : vec3 ℝ) ⟨0, -1, 0⟩ nearest_init).pt = ⟨0, -4, -20⟩ := by
  rw [checkerboard_of_accepted _ _ _ floor_rays_accepted.1]
  ext <;> norm_num [add, mul]

theorem floor_ray23_pt :
    (checkerboard (⟨0, 0, -23⟩ : vec3 ℝ) ⟨0, -1, 0⟩ nearest_init).pt = ⟨0, -4, -23⟩ := by
  rw [checkerboard_of_accepted _ _ _ floor_ray23_accepted]
  ext <;> norm_num [add, mul]

theorem floor_ray20_color :
    (checkerboard (⟨0, 0, -20⟩ : vec3 ℝ) ⟨0, -1, 0⟩ nearest_init).material.diffuse_color
      = checker_color ⟨0, -4, -20⟩ := by
  have h := floor_ray20_pt
  rw [checkerboard_of_accepted _ _ _ floor_rays_accepted.1] at h ⊢
  show checker_color _ = _
  rw [show add (⟨0, 0, -20⟩ : vec3 ℝ) (mul ⟨0, -1, 0⟩ (-((⟨0, 0, -20⟩ : vec3 ℝ).y + 4)
    / (⟨0, -1, 0⟩ : vec3 ℝ).y)) = ⟨0, -4, -20⟩ from h]

theorem floor_ray23_color :
    (checkerboard (⟨0, 0, -23⟩ : vec3 ℝ) ⟨0, -1, 0⟩ nearest_init).material.diffuse_color
      = checker_color ⟨0, -4, -23⟩ := by
  have h := floor_ray23_pt
  rw [checkerboard_of_accepted _ _ _ floor_ray23_accepted] at h ⊢
  show checker_color _ = _
  rw [show add (⟨0, 0, -23⟩ : vec3 ℝ) (mul ⟨0, -1, 0⟩ (-((⟨0, 0, -23⟩ : vec3 ℝ).y + 4)
    / (⟨0, -1, 0⟩ : vec3 ℝ).y)) = ⟨0, -4, -23⟩ from h]

theorem floor_values :
    ⌊(0.5 : ℝ) * 0⌋ = 0 ∧ ⌊(0.5 : ℝ) * -20⌋ = -10 ∧ ⌊(0.5 : ℝ) * -23⌋ = -12 ∧
    ⌈(0.5 : ℝ) * -20⌉ = -10 ∧ ⌈(0.5 : ℝ) * -23⌉ = -11 := by
  refine ⟨?_, ?_, ?_, ?_, ?_⟩
  · rw [Int.floor_eq_iff]; constructor <;> norm_num
  · rw [Int.floor_eq_iff]; constructor <;> norm_num
  · rw [Int.floor_eq_iff]; constructor <;> norm_num
  · rw [Int.ceil_eq_iff]; constructor <;> norm_num
  · rw [Int.ceil_eq_iff]; constructor <;> norm_num

theorem floor_colors_differ :
    checker_color (⟨0, -4, -20⟩ : vec3 ℝ) ≠ checker_color ⟨0, -4, -23⟩ := by
  intro h
  have h2 := (checker_color_eq_iff (⟨0, -4, -20⟩ : vec3 ℝ) ⟨0, -4, -23⟩
    (by norm_num) (by norm_num) (by norm_num) (by norm_num)).mp h
  obtain ⟨f0, -, -, c20, c23⟩ := floor_values
  simp only [f0, c20, c23] at h2
  omega

/-- The ray from `(5, 1996, -25)` straight down meets the floor at distance 2000 and
no sphere. -/
theorem far_floor_ray_nearest :
    checker_accepted (⟨5, 1996, -25⟩ : vec3 ℝ) ⟨0, -1, 0⟩ nearest_init ∧
    scene_nearest (⟨Real.sqrt, fun x y => x ^ y⟩ : Libm ℝ) ⟨5, 1996, -25⟩ ⟨0, -1, 0⟩ =
      checkerboard ⟨5, 1996, -25⟩ ⟨0, -1, 0⟩ nearest_init := by
  refine ⟨by norm_num [checker_accepted, nearest_init, add, mul, abs_lt, lt_abs], ?_⟩
  rw [scene_nearest]
  apply sphere_loop_unchanged
  intro s hs hhit
  rw [spheres_eq] at hs
  simp only [List.mem_cons, List.mem_singleton, List.not_mem_nil, or_false] at hs
  rcases hs with h | h | h | h <;> rw [h] at hhit <;>
    rw [ray_sphere_intersect_miss _ _ _ _ (by norm_num [sub, dot])] at hhit <;>
    exact absurd hhit (by simp)

/-! ### Facts about a hit used for the recursion of `cast_ray` -/

theorem scene_material_index_ne_zero (m : Libm F) (orig dir : vec3 F) :
    (scene_intersect m orig dir).mat.refractive_index ≠ 0 := by
  show (scene_nearest m orig dir).material.refractive_index ≠ 0
  rcases scene_nearest_cases m orig dir with h | ⟨-, h⟩ | ⟨s, hs, -, h⟩
  · rw [h]; norm_num [nearest_init, MATBASE]
  · rw [h]; norm_num [MATBASE]
  · rw [h, spheres_eq] at *
    simp only [List.mem_cons, List.mem_singleton, List.not_mem_nil, or_false] at hs
    rcases hs with h' | h' | h' | h' <;> rw [h'] <;>
      norm_num [ivory, glass, red_rubber, mirror]

theorem scene_normal_dot_self (m : Libm F) (hm : m.Exact) (orig dir : vec3 F)
    (hdd : dot dir dir = 1) (hhit : (scene_intersect m orig dir).hit = true) :
    dot (scene_intersect m orig dir).v2 (scene_intersect m orig dir).v2 = 1 := by
  have hlt := (scene_intersect_hit_iff m orig dir).mp hhit
  show dot (scene_nearest m orig dir).N (scene_nearest m orig dir).N = 1
  rcases scene_nearest_cases m orig dir with h | ⟨-, h⟩ | ⟨s, hs, hsh, h⟩
  · rw [h] at hlt
    exact absurd hlt (by norm_num [nearest_init])
  · rw [h]; norm_num [dot]
  · rw [h]
    have hr := spheres_radius_pos s hs
    have hon := ray_sphere_intersect_on_sphere m hm orig dir s hdd hsh
    have hn : norm m (sub (add orig (mul dir (ray_sphere_intersect m orig dir s).2))
        s.center) = s.radius := by
      have : norm m (sub (add orig (mul dir (ray_sphere_intersect m orig dir s).2)) s.center)
          = m.sqrtf (dot (sub (add orig (mul dir (ray_sphere_intersect m orig dir s).2))
              s.center) (sub (add orig (mul dir (ray_sphere_intersect m orig dir s).2))
              s.center)) := rfl
      rw [this, hon, hm.sqrtf_mul_self (le_of_lt hr)]
    exact hm.dot_normalized_self _ (by rw [hn]; exact hr)


/-! ### The scene with the IEEE special values -/

section IEEEScene

open XFloat

theorem IEEE.checker_color_lift (p : vec3 F) :
    IEEE.checker_color p.lift = (ScrollView.checker_color p).lift := by
  simp only [IEEE.checker_color, ScrollView.checker_color, vec3.lift, XFloat.mul_num,
    XFloat.add_num, XFloat.toInt]
  split_ifs <;> rfl

theorem IEEE.checkerboard_lift (orig dir : vec3 F) (st : Nearest F) :
    IEEE.checkerboard orig.lift dir.lift st.lift = (ScrollView.checkerboard orig dir st).lift := by
  by_cases h1 : |dir.y| > 0.001
  · have hy : dir.y ≠ 0 := by
      intro h0
      rw [h0, abs_zero] at h1
      norm_num at h1
    have hd : ((XFloat.add (num orig.y) (num 4)).neg).div (num dir.y)
        = num (-(orig.y + 4) / dir.y) := by
      rw [XFloat.add_num, XFloat.neg_num, XFloat.div_num _ _ hy]
    have hX : (num (0.001 : F)).lt (fabsf (num dir.y)) = true := by
      simpa using h1
    simp only [IEEE.checkerboard, ScrollView.checkerboard, if_pos h1]
    simp only [vec3.lift, Nearest.lift] at hX ⊢
    rw [if_pos hX, hd]
    have hp : IEEE.add ⟨num orig.x, num orig.y, num orig.z⟩
        (IEEE.mul ⟨num dir.x, num dir.y, num dir.z⟩ (num (-(orig.y + 4) / dir.y)))
        = (ScrollView.add orig (ScrollView.mul dir (-(orig.y + 4) / dir.y))).lift := rfl
    rw [hp]
    simp only [vec3.lift, XFloat.lt_num, XFloat.fabsf_num, decide_eq_true_eq, gt_iff_lt]
    split_ifs with h2
    · have := IEEE.checker_color_lift
        (ScrollView.add orig (ScrollView.mul dir (-(orig.y + 4) / dir.y)))
      simp only [vec3.lift] at this
      simp only [this, Material.lift, vec3.lift]
    · rfl
  · have hX : (num (0.001 : F)).lt (fabsf (num dir.y)) = false := by
      simpa using h1
    simp only [IEEE.checkerboard, ScrollView.checkerboard, if_neg h1]
    simp only [vec3.lift] at hX ⊢
    rw [hX]
    rfl

/-- For a unit direction and numbers the IEEE `scene_intersect` ends in the state of the
exact embedding. -/
theorem IEEE.scene_nearest_lift (m : Libm F) (hm : m.Exact) (orig dir : vec3 F)
    (hdd : ScrollView.dot dir dir = 1) :
    IEEE.scene_nearest m orig.lift dir.lift = (ScrollView.scene_nearest m orig dir).lift := by
  rw [IEEE.scene_nearest, IEEE.spheres, IEEE.nearest_init_lift, IEEE.checkerboard_lift,
    IEEE.sphere_loop_lift m hm orig dir hdd _ (fun s hs => spheres_radius_pos s hs)]
  rfl

theorem IEEE.scene_intersect_lift (m : Libm F) (hm : m.Exact) (orig dir : vec3 F)
    (hdd : ScrollView.dot dir dir = 1) :
    IEEE.scene_intersect m orig.lift dir.lift =
      ⟨(ScrollView.scene_intersect m orig dir).hit, (ScrollView.scene_intersect m orig dir).v.lift,
        (ScrollView.scene_intersect m orig dir).v2.lift,
        (ScrollView.scene_intersect m orig dir).mat.lift⟩ := by
  simp only [IEEE.scene_intersect, IEEE.scene_nearest_lift m hm orig dir hdd,
    ScrollView.scene_intersect]
  rfl

/-- For a unit direction and an origin of numbers, `cast_ray` returns as soon as the stack
holds `(5 - depth) + 2` activations. -/
theorem IEEE.cast_ray_returns (m : Libm F) (hm : m.Exact) (fuel : Nat) :
    ∀ (orig dir : vec3 F) (depth : Int), ScrollView.dot dir dir = 1 →
      (5 - depth).toNat + 2 ≤ fuel →
      ∃ v, IEEE.cast_ray m fuel orig.lift dir.lift depth = some v := by
  induction fuel with
  | zero => intro _ _ _ _ h; omega
  | succ n ih =>
    intro orig dir depth hdd hf
    simp only [IEEE.cast_ray, IEEE.scene_intersect_lift m hm orig dir hdd]
    by_cases hc : depth > 4 ∨ (ScrollView.scene_intersect m orig dir).hit = false
    · rw [if_pos hc]
      exact ⟨_, rfl⟩
    · rw [if_neg hc]
      have hd : depth ≤ 4 := by
        by_contra hgt
        exact hc (Or.inl (by omega))
      have hhit : (ScrollView.scene_intersect m orig dir).hit = true := by
        by_contra hh
        exact hc (Or.inr (by simpa using hh))
      have hN := scene_normal_dot_self m hm orig dir hdd hhit
      have hri := scene_material_index_ne_zero m orig dir
      obtain ⟨k, hk⟩ : ∃ k, n = k + 2 := ⟨n - 2, by omega⟩
      have hfuel : (5 - (depth + 1)).toNat + 2 ≤ n := by omega
      have hmat : ((ScrollView.scene_intersect m orig dir).mat.lift).refractive_index
          = num (ScrollView.scene_intersect m orig dir).mat.refractive_index := rfl
      have hrefr : IEEE.refract m n dir.lift (ScrollView.scene_intersect m orig dir).v2.lift
          (num (ScrollView.scene_intersect m orig dir).mat.refractive_index) (num 1)
          = some (ScrollView.refract m dir (ScrollView.scene_intersect m orig dir).v2
              (ScrollView.scene_intersect m orig dir).mat.refractive_index 1).lift := by
        rw [hk]
        exact IEEE.refract_lift m k _ _ _ _ hri one_ne_zero
      have hrl := ScrollView.reflect_dot_self dir (ScrollView.scene_intersect m orig dir).v2
        hdd hN
      have hrr := ScrollView.refract_dot_self m hm dir
        (ScrollView.scene_intersect m orig dir).v2
        (ScrollView.scene_intersect m orig dir).mat.refractive_index 1 hdd hN
      obtain ⟨hl0, hl1⟩ := hm.normalized_unit _ hrl
      obtain ⟨hr0, hr1⟩ := hm.normalized_unit _ hrr
      obtain ⟨a, ha⟩ := ih (ScrollView.scene_intersect m orig dir).v
        (ScrollView.normalized m
          (ScrollView.reflect dir (ScrollView.scene_intersect m orig dir).v2))
        (depth + 1) hl1 hfuel
      obtain ⟨b, hb⟩ := ih (ScrollView.scene_intersect m orig dir).v
        (ScrollView.normalized m
          (ScrollView.refract m dir (ScrollView.scene_intersect m orig dir).v2
            (ScrollView.scene_intersect m orig dir).mat.refractive_index 1))
        (depth + 1) hr1 hfuel
      rw [hmat, hrefr]
      simp only [IEEE.reflect_lift, IEEE.normalized_lift m _ hl0,
        IEEE.normalized_lift m _ hr0, ha, hb]
      exact ⟨_, rfl⟩

/-! ### The ray of zero direction from the centre of the first sphere -/

theorem IEEE.zero_dir_sphere0 :
    IEEE.sphere_step (⟨Real.sqrt, fun x y => x ^ y⟩ : Libm ℝ)
      (⟨-3, 0, -16⟩ : vec3 ℝ).lift (⟨0, 0, 0⟩ : vec3 ℝ).lift
      (ScrollView.nearest_init : Nearest ℝ).lift
      (⟨⟨-3, 0, -16⟩, 2, ivory⟩ : Sphere ℝ).lift
      = ⟨num 2, ⟨num (-3), num 0, num (-16)⟩, ⟨nan, nan, nan⟩, (ivory : Material ℝ).lift⟩ := by
  have h4 : Real.sqrt 4 = 2 := by
    rw [Real.sqrt_eq_iff_mul_self_eq] <;> norm_num
  have h0 : ScrollView.ray_sphere_intersect (⟨Real.sqrt, fun x y => x ^ y⟩ : Libm ℝ)
      ⟨-3, 0, -16⟩ ⟨0, 0, 0⟩ ⟨⟨-3, 0, -16⟩, 2, ivory⟩ = (true, 2) := by
    rw [ray_sphere_intersect_eval _ _ _ _ 0 4 (by norm_num [ScrollView.sub, ScrollView.dot])
      (by norm_num [ScrollView.sub, ScrollView.dot]) (by norm_num)]
    show (if (0 : ℝ) - Real.sqrt 4 > 0.001 then (true, (0 : ℝ) - Real.sqrt 4)
      else if (0 : ℝ) + Real.sqrt 4 > 0.001 then (true, (0 : ℝ) + Real.sqrt 4)
      else (false, 0)) = (true, 2)
    rw [h4, if_neg (by norm_num), if_pos (by norm_num)]
    norm_num
  have hpt : ScrollView.add (⟨-3, 0, -16⟩ : vec3 ℝ) (ScrollView.mul ⟨0, 0, 0⟩ 2)
      = ⟨-3, 0, -16⟩ := by
    ext <;> norm_num [ScrollView.add, ScrollView.mul]
  have hz : ScrollView.sub (⟨-3, 0, -16⟩ : vec3 ℝ) ⟨-3, 0, -16⟩ = ⟨0, 0, 0⟩ := by
    ext <;> norm_num [ScrollView.sub]
  have hnd : ((ScrollView.nearest_init : Nearest ℝ).lift).nearest_dist.lt (num 2) = false := by
    show decide ((1e10 : ℝ) < 2) = false
    rw [decide_eq_false_iff_not]
    norm_num
  have hc : ((⟨⟨-3, 0, -16⟩, 2, ivory⟩ : Sphere ℝ).lift).center
      = (⟨-3, 0, -16⟩ : vec3 ℝ).lift := rfl
  simp only [IEEE.sphere_step, IEEE.ray_sphere_intersect_lift, h0, hnd, Bool.true_eq_false,
    Bool.false_eq_true, or_self, if_false, hc, IEEE.mul_lift, IEEE.add_lift, IEEE.sub_lift,
    hpt, hz]
  have hN := IEEE.normalized_zero (⟨Real.sqrt, fun x y => x ^ y⟩ : Libm ℝ) Real.sqrt_zero
  have hl : (⟨0, 0, 0⟩ : vec3 ℝ).lift = ⟨num 0, num 0, num 0⟩ := rfl
  rw [hl, hN]
  rfl

theorem IEEE.zero_dir_miss (st : Nearest (XFloat ℝ)) (s : Sphere ℝ)
    (h : ScrollView.dot (ScrollView.sub s.center ⟨-3, 0, -16⟩)
        (ScrollView.sub s.center ⟨-3, 0, -16⟩) > s.radius * s.radius) :
    IEEE.sphere_step (⟨Real.sqrt, fun x y => x ^ y⟩ : Libm ℝ)
      (⟨-3, 0, -16⟩ : vec3 ℝ).lift (⟨0, 0, 0⟩ : vec3 ℝ).lift st s.lift = st := by
  apply IEEE.sphere_step_no_hit
  rw [IEEE.ray_sphere_intersect_lift, ray_sphere_intersect_miss]
  have h0 : ScrollView.dot (ScrollView.sub s.center ⟨-3, 0, -16⟩) (⟨0, 0, 0⟩ : vec3 ℝ) = 0 := by
    simp [ScrollView.dot]
  rw [h0]
  linarith

/-- The locals of `scene_intersect` for the ray of zero direction from the centre of the
first sphere: a hit at distance 2 whose normal is `normalized` of the zero vector. -/
theorem IEEE.zero_dir_scene :
    IEEE.scene_nearest (⟨Real.sqrt, fun x y => x ^ y⟩ : Libm ℝ)
      ⟨num (-3), num 0, num (-16)⟩ ⟨num 0, num 0, num 0⟩
      = ⟨num 2, ⟨num (-3), num 0, num (-16)⟩, ⟨nan, nan, nan⟩, (ivory : Material ℝ).lift⟩ := by
  have ho : (⟨num (-3), num 0, num (-16)⟩ : vec3 (XFloat ℝ)) = (⟨-3, 0, -16⟩ : vec3 ℝ).lift := rfl
  have hd : (⟨num 0, num 0, num 0⟩ : vec3 (XFloat ℝ)) = (⟨0, 0, 0⟩ : vec3 ℝ).lift := rfl
  have hcb : ScrollView.checkerboard (⟨-3, 0, -16⟩ : vec3 ℝ) ⟨0, 0, 0⟩ ScrollView.nearest_init
      = ScrollView.nearest_init := by
    have : ¬ |(0 : ℝ)| > 0.001 := by norm_num
    simp only [ScrollView.checkerboard, if_neg this]
  rw [IEEE.scene_nearest, ho, hd, IEEE.nearest_init_lift, IEEE.checkerboard_lift, hcb,
    IEEE.spheres, spheres_eq]
  simp only [List.map_cons, List.map_nil, List.foldl_cons, List.foldl_nil]
  rw [IEEE.zero_dir_sphere0,
    IEEE.zero_dir_miss _ ⟨⟨-1, -1.5, -12⟩, 2, glass⟩ (by norm_num [ScrollView.sub, ScrollView.dot]),
    IEEE.zero_dir_miss _ ⟨⟨1.5, -0.5, -18⟩, 3, red_rubber⟩
      (by norm_num [ScrollView.sub, ScrollView.dot]),
    IEEE.zero_dir_miss _ ⟨⟨7, 5, -18⟩, 4, mirror⟩ (by norm_num [ScrollView.sub, ScrollView.dot])]
  rfl

/-- No stack suffices for `cast_ray` on the ray of zero direction from the centre of the
first sphere. -/
theorem IEEE.zero_dir_cast_ray (fuel : Nat) :
    IEEE.cast_ray (⟨Real.sqrt, fun x y => x ^ y⟩ : Libm ℝ) fuel
      ⟨num (-3), num 0, num (-16)⟩ ⟨num 0, num 0, num 0⟩ 0 = none := by
  cases fuel with
  | zero => rfl
  | succ n =>
    have hdot : IEEE.dot (⟨num 0, num 0, num 0⟩ : vec3 (XFloat ℝ)) ⟨nan, nan, nan⟩ = nan := by
      simp [IEEE.dot]
    have hhit : ((num (2 : ℝ)).lt (num 1000)) = true := by
      simp only [XFloat.lt_num, decide_eq_true_eq]
      norm_num
    simp only [IEEE.cast_ray, IEEE.scene_intersect, IEEE.zero_dir_scene, hhit]
    rw [if_neg (by simp), IEEE.refract_of_dot_nan _ n _ _ _ _ hdot]

end IEEEScene

end Lemmas

/-! ## The claims -/

section Claims

variable {F : Type} [LinearOrderedField F]

/-- C1: `cast_ray` returns exactly the background colour `(0.2, 0.7, 0.8)` whenever
`depth > 4` (hit or not) or `scene_intersect` reports no hit for the ray. -/
theorem cast_ray_background [FloorRing F] (m : Libm F) (orig dir : vec3 F) (depth : Int)
    (h : depth > 4 ∨ (scene_intersect m orig dir).hit = false) :
    cast_ray m orig dir depth = ⟨0.2, 0.7, 0.8⟩ := by
  rw [cast_ray_unfold, if_pos h, background]

/-- C1 (witness): the ray from the origin straight up meets nothing, at depth 0. -/
theorem cast_ray_background_witness :
    (scene_intersect (⟨Real.sqrt, fun x y => x ^ y⟩ : Libm ℝ) ⟨0, 0, 0⟩ ⟨0, 1, 0⟩).hit
      = false ∧
    cast_ray (⟨Real.sqrt, fun x y => x ^ y⟩ : Libm ℝ) ⟨0, 0, 0⟩ ⟨0, 1, 0⟩ 0
      = ⟨0.2, 0.7, 0.8⟩ :=
  ⟨sky_ray_miss, cast_ray_background _ _ _ 0 (Or.inr sky_ray_miss)⟩

/-- C2 (counterexample): from the origin `(-3, 0, -13.9995)`, outside the first sphere
of the scene (centre `(-3, 0, -16)`, radius 2) at distance `2.0005` from its centre, the
ray aimed at the centre is reported as a hit at distance `4.0005`, which is not
`|origin − center| − radius = 0.0005`. -/
theorem ray_at_center_near_surface :
    (0 : ℝ) < 2 ∧
    norm (⟨Real.sqrt, fun x y => x ^ y⟩ : Libm ℝ) (sub ⟨-3, 0, -13.9995⟩ ⟨-3, 0, -16⟩) > 2 ∧
    ray_sphere_intersect (⟨Real.sqrt, fun x y => x ^ y⟩ : Libm ℝ) ⟨-3, 0, -13.9995⟩
      (normalized ⟨Real.sqrt, fun x y => x ^ y⟩ (sub ⟨-3, 0, -16⟩ ⟨-3, 0, -13.9995⟩))
      ⟨⟨-3, 0, -16⟩, 2, ⟨1, 0.9, 0.5, 0.1, 0, ⟨0.4, 0.4, 0.3⟩, 50⟩⟩ = (true, 4.0005) ∧
    ray_sphere_intersect (⟨Real.sqrt, fun x y => x ^ y⟩ : Libm ℝ) ⟨-3, 0, -13.9995⟩
      (normalized ⟨Real.sqrt, fun x y => x ^ y⟩ (sub ⟨-3, 0, -16⟩ ⟨-3, 0, -13.9995⟩))
      ⟨⟨-3, 0, -16⟩, 2, ⟨1, 0.9, 0.5, 0.1, 0, ⟨0.4, 0.4, 0.3⟩, 50⟩⟩ ≠
      (true, norm (⟨Real.sqrt, fun x y => x ^ y⟩ : Libm ℝ)
        (sub ⟨-3, 0, -13.9995⟩ ⟨-3, 0, -16⟩) - 2) := by
  have hn : norm (⟨Real.sqrt, fun x y => x ^ y⟩ : Libm ℝ)
      (sub ⟨-3, 0, -13.9995⟩ ⟨-3, 0, -16⟩) = 2.0005 := by
    simp only [norm, sub]
    rw [Real.sqrt_eq_iff_mul_self_eq] <;> norm_num
  have h := ray_at_center (⟨Real.sqrt, fun x y => x ^ y⟩ : Libm ℝ) (real_exact _)
    ⟨-3, 0, -13.9995⟩ ⟨⟨-3, 0, -16⟩, 2, ⟨1, 0.9, 0.5, 0.1, 0, ⟨0.4, 0.4, 0.3⟩, 50⟩⟩
    (by norm_num) (by rw [hn]; norm_num)
  rw [hn, if_neg (by norm_num), if_pos (by norm_num)] at h
  refine ⟨by norm_num, by rw [hn]; norm_num, ?_, ?_⟩
  · rw [h]; norm_num
  · rw [h, hn]; norm_num

/-- C2 (amended): for each of the four spheres of the scene and an origin whose distance
to the centre is at most 100 and exceeds the radius by more than 0.002, the ray aimed at
the centre is reported as a hit at distance `|origin − center| − radius` (exact square
root).  The two bounds keep the binary32 run of the code on the same branch: the margin
over the `.001f` offset absorbs the rounding of `t0`, and the distance bound keeps the
cancellation in `d2` far below the squared radius. -/
theorem ray_at_scene_sphere_center (m : Libm F) (hm : m.Exact) (orig : vec3 F) (s : Sphere F)
    (hs : s ∈ (spheres : List (Sphere F)))
    (hout : norm m (sub orig s.center) - s.radius > 0.002)
    (_hnear : norm m (sub orig s.center) ≤ 100) :
    ray_sphere_intersect m orig (normalized m (sub s.center orig)) s =
      (true, norm m (sub orig s.center) - s.radius) := by
  have hr : 0 < s.radius := spheres_radius_pos s hs
  have h1 : (0.001 : F) < 0.002 := by norm_num
  have hn : 0 < norm m (sub orig s.center) := by
    have : (0 : F) < 0.002 := by norm_num
    linarith
  rw [ray_at_center m hm orig s hr hn, if_pos (by linarith)]

/-- C2 (witness): the origin `(-3, 0, -10)` is at distance 6 from the centre of the first
sphere of the scene, of radius 2; `6 - 2 > 0.002` and `6 ≤ 100`. -/
theorem ray_at_scene_sphere_center_witness :
    (⟨⟨-3, 0, -16⟩, 2, ivory⟩ : Sphere ℝ) ∈ (spheres : List (Sphere ℝ)) ∧
    norm (⟨Real.sqrt, fun x y => x ^ y⟩ : Libm ℝ) (sub ⟨-3, 0, -10⟩ ⟨-3, 0, -16⟩) = 6 ∧
    ray_sphere_intersect (⟨Real.sqrt, fun x y => x ^ y⟩ : Libm ℝ) ⟨-3, 0, -10⟩
      (normalized ⟨Real.sqrt, fun x y => x ^ y⟩ (sub ⟨-3, 0, -16⟩ ⟨-3, 0, -10⟩))
      ⟨⟨-3, 0, -16⟩, 2, ivory⟩ =
      (true, norm (⟨Real.sqrt, fun x y => x ^ y⟩ : Libm ℝ)
        (sub ⟨-3, 0, -10⟩ ⟨-3, 0, -16⟩) - 2) := by
  have hn : norm (⟨Real.sqrt, fun x y => x ^ y⟩ : Libm ℝ)
      (sub ⟨-3, 0, -10⟩ ⟨-3, 0, -16⟩) = 6 := by
    simp only [norm, sub]
    rw [Real.sqrt_eq_iff_mul_self_eq] <;> norm_num
  have hs : (⟨⟨-3, 0, -16⟩, 2, ivory⟩ : Sphere ℝ) ∈ (spheres : List (Sphere ℝ)) := by
    rw [spheres_eq]
    exact List.mem_cons_self _ _
  exact ⟨hs, hn, ray_at_scene_sphere_center (⟨Real.sqrt, fun x y => x ^ y⟩ : Libm ℝ)
    (real_exact _) ⟨-3, 0, -10⟩ ⟨⟨-3, 0, -16⟩, 2, ivory⟩ hs
    (by
      show norm (⟨Real.sqrt, fun x y => x ^ y⟩ : Libm ℝ)
          (sub ⟨-3, 0, -10⟩ ⟨-3, 0, -16⟩) - 2 > 0.002
      rw [hn]; norm_num)
    (by
      show norm (⟨Real.sqrt, fun x y => x ^ y⟩ : Libm ℝ)
          (sub ⟨-3, 0, -10⟩ ⟨-3, 0, -16⟩) ≤ 100
      rw [hn]; norm_num)⟩

/-- C3 (counterexample): the unit-direction ray from `(0, 3.5, -15)` along
`(-2/7, -6/7, -3/7)` meets the first sphere (ivory) and the third sphere (red rubber) of
the scene at exactly the same distance `30/7 − √(23/196)`, and `scene_intersect`
returns the material of the later one, red rubber, not that of the earlier one. -/
theorem equal_distance_later_sphere_holds_hit :
    norm (⟨Real.sqrt, fun x y => x ^ y⟩ : Libm ℝ) ⟨-2/7, -6/7, -3/7⟩ = 1 ∧
    ray_sphere_intersect (⟨Real.sqrt, fun x y => x ^ y⟩ : Libm ℝ) ⟨0, 3.5, -15⟩
        ⟨-2/7, -6/7, -3/7⟩ ⟨⟨-3, 0, -16⟩, 2, ivory⟩ = (true, 30/7 - Real.sqrt (23/196)) ∧
    ray_sphere_intersect (⟨Real.sqrt, fun x y => x ^ y⟩ : Libm ℝ) ⟨0, 3.5, -15⟩
        ⟨-2/7, -6/7, -3/7⟩ ⟨⟨1.5, -0.5, -18⟩, 3, red_rubber⟩
      = (true, 30/7 - Real.sqrt (23/196)) ∧
    (scene_intersect (⟨Real.sqrt, fun x y => x ^ y⟩ : Libm ℝ) ⟨0, 3.5, -15⟩
        ⟨-2/7, -6/7, -3/7⟩).mat = red_rubber ∧
    (scene_intersect (⟨Real.sqrt, fun x y => x ^ y⟩ : Libm ℝ) ⟨0, 3.5, -15⟩
        ⟨-2/7, -6/7, -3/7⟩).mat ≠ ivory := by
  have hn := scene_nearest_last_minimal (⟨Real.sqrt, fun x y => x ^ y⟩ : Libm ℝ)
    ⟨0, 3.5, -15⟩ ⟨-2/7, -6/7, -3/7⟩
    [⟨⟨-3, 0, -16⟩, 2, ivory⟩, ⟨⟨-1, -1.5, -12⟩, 2, glass⟩] [⟨⟨7, 5, -18⟩, 4, mirror⟩]
    ⟨⟨1.5, -0.5, -18⟩, 3, red_rubber⟩ spheres_eq (by rw [tie_ray_sphere2])
    tie_ray_before_sphere2 tie_ray_after_sphere2
  have hmat : (scene_intersect (⟨Real.sqrt, fun x y => x ^ y⟩ : Libm ℝ) ⟨0, 3.5, -15⟩
      ⟨-2/7, -6/7, -3/7⟩).mat = red_rubber := by
    show (scene_nearest _ _ _).material = _
    rw [hn]
  refine ⟨?_, tie_ray_sphere0, tie_ray_sphere2, hmat, ?_⟩
  · simp only [norm]
    rw [Real.sqrt_eq_iff_mul_self_eq] <;> norm_num
  · rw [hmat]
    exact ivory_ne_red_rubber

/-- C3 (amended): a sphere that `ray_sphere_intersect` hits at a distance at most the
nearest distance found before it (equal included), and below the distance of every
sphere hit after it in the array, holds the hit of `scene_intersect`: material, normal
and hit point are its own; a sphere is skipped only when its distance is strictly
greater than the current nearest distance. -/
theorem sphere_at_most_nearest_replaces [FloorRing F] (m : Libm F) (orig dir : vec3 F)
    (pre post : List (Sphere F)) (s : Sphere F)
    (hsplit : (spheres : List (Sphere F)) = pre ++ s :: post)
    (hhit : (ray_sphere_intersect m orig dir s).1 = true)
    (hle : (ray_sphere_intersect m orig dir s).2 ≤
      (pre.foldl (sphere_step m orig dir) (checkerboard orig dir nearest_init)).nearest_dist)
    (hpost : ∀ s' ∈ post, (ray_sphere_intersect m orig dir s').1 = true →
      (ray_sphere_intersect m orig dir s).2 < (ray_sphere_intersect m orig dir s').2) :
    (scene_intersect m orig dir).mat = s.material ∧
    (scene_intersect m orig dir).v2 = normalized m
      (sub (add orig (mul dir (ray_sphere_intersect m orig dir s).2)) s.center) ∧
    (scene_intersect m orig dir).v = add orig (mul dir (ray_sphere_intersect m orig dir s).2) ∧
    (∀ st : Nearest F, (ray_sphere_intersect m orig dir s).2 > st.nearest_dist →
      sphere_step m orig dir st s = st) := by
  have hn := scene_nearest_last_minimal m orig dir pre post s hsplit hhit hle hpost
  refine ⟨?_, ?_, ?_, fun st h => sphere_step_of_gt m orig dir st s h⟩
  · show (scene_nearest m orig dir).material = _
    rw [hn]
  · show (scene_nearest m orig dir).N = _
    rw [hn]
  · show (scene_nearest m orig dir).pt = _
    rw [hn]

/-- C3 (witness): on the ray from `(0, 3.5, -15)` along `(-2/7, -6/7, -3/7)` the third
sphere is hit at the distance of the first one, and holds the hit. -/
theorem sphere_at_most_nearest_replaces_witness :
    (ray_sphere_intersect (⟨Real.sqrt, fun x y => x ^ y⟩ : Libm ℝ) ⟨0, 3.5, -15⟩
        ⟨-2/7, -6/7, -3/7⟩ ⟨⟨1.5, -0.5, -18⟩, 3, red_rubber⟩).2 =
      (ray_sphere_intersect (⟨Real.sqrt, fun x y => x ^ y⟩ : Libm ℝ) ⟨0, 3.5, -15⟩
        ⟨-2/7, -6/7, -3/7⟩ ⟨⟨-3, 0, -16⟩, 2, ivory⟩).2 ∧
    (scene_intersect (⟨Real.sqrt, fun x y => x ^ y⟩ : Libm ℝ) ⟨0, 3.5, -15⟩
        ⟨-2/7, -6/7, -3/7⟩).mat = red_rubber :=
  ⟨by rw [tie_ray_sphere0, tie_ray_sphere2],
    (sphere_at_most_nearest_replaces (⟨Real.sqrt, fun x y => x ^ y⟩ : Libm ℝ)
      ⟨0, 3.5, -15⟩ ⟨-2/7, -6/7, -3/7⟩
      [⟨⟨-3, 0, -16⟩, 2, ivory⟩, ⟨⟨-1, -1.5, -12⟩, 2, glass⟩] [⟨⟨7, 5, -18⟩, 4, mirror⟩]
      ⟨⟨1.5, -0.5, -18⟩, 3, red_rubber⟩ spheres_eq (by rw [tie_ray_sphere2])
      tie_ray_before_sphere2 tie_ray_after_sphere2).1⟩

/-- C4: nearest-hit resolution.  `scene_intersect` reports a hit exactly when the minimum
of the candidate distances exists and is below 1000, and then the returned hit point is
`orig + t·dir` for that minimum `t`. -/
theorem scene_intersect_nearest_hit [FloorRing F] (m : Libm F) (orig dir : vec3 F) :
    ((scene_intersect m orig dir).hit = true ↔
      ∃ t ∈ candidates m orig dir, (∀ c ∈ candidates m orig dir, t ≤ c) ∧ t < 1000) ∧
    (∀ t ∈ candidates m orig dir, (∀ c ∈ candidates m orig dir, t ≤ c) → t < 1000 →
      (scene_intersect m orig dir).v = add orig (mul dir t)) := by
  obtain ⟨-, hmin, hmem⟩ := scene_nearest_invariant m orig dir
  have hbig : (1000 : F) < 1e10 := by norm_num
  constructor
  · rw [scene_intersect_hit_iff]
    constructor
    · intro h
      exact ⟨_, (hmem (lt_trans h hbig)).1, hmin, h⟩
    · rintro ⟨t, ht, -, hlt⟩
      exact lt_of_le_of_lt (hmin t ht) hlt
  · intro t ht htmin hlt
    have hn : (scene_nearest m orig dir).nearest_dist < 1000 :=
      lt_of_le_of_lt (hmin t ht) hlt
    obtain ⟨hin, hpt⟩ := hmem (lt_trans hn hbig)
    have heq : (scene_nearest m orig dir).nearest_dist = t :=
      le_antisymm (hmin t ht) (htmin _ hin)
    show (scene_nearest m orig dir).pt = _
    rw [hpt, heq]

/-- C4 (witness): on the ray from `(1.5, -3.9, -18)` straight up the least candidate is
`0.4`, and the returned hit point is `orig + 0.4·dir`. -/
theorem scene_intersect_nearest_hit_witness :
    (0.4 : ℝ) ∈ candidates (⟨Real.sqrt, fun x y => x ^ y⟩ : Libm ℝ) ⟨1.5, -3.9, -18⟩
      ⟨0, 1, 0⟩ ∧
    (scene_intersect (⟨Real.sqrt, fun x y => x ^ y⟩ : Libm ℝ) ⟨1.5, -3.9, -18⟩
      ⟨0, 1, 0⟩).v = add ⟨1.5, -3.9, -18⟩ (mul ⟨0, 1, 0⟩ 0.4) := by
  obtain ⟨-, hmin, hmem⟩ := scene_nearest_invariant (⟨Real.sqrt, fun x y => x ^ y⟩ : Libm ℝ)
    ⟨1.5, -3.9, -18⟩ ⟨0, 1, 0⟩
  rw [up_ray_nearest] at hmin hmem
  have hin := (hmem (by norm_num)).1
  exact ⟨hin, (scene_intersect_nearest_hit (⟨Real.sqrt, fun x y => x ^ y⟩ : Libm ℝ)
    ⟨1.5, -3.9, -18⟩ ⟨0, 1, 0⟩).2 0.4 hin hmin (by norm_num)⟩

/-- C5: `ray_sphere_intersect` equals the reference definition; when it reports a hit
the distance is one of the two roots, exceeds 0.001 and is at most every root that
exceeds 0.001; and when `d2 ≤ radius²` and `t0 > 0.001` the result is a hit at `t0`
(`sqrtf` non-negative on non-negative arguments). -/
theorem ray_sphere_intersect_eq_ref (m : Libm F)
    (hm : ∀ x : F, 0 ≤ x → 0 ≤ m.sqrtf x) (orig dir : vec3 F) (s : Sphere F) :
    ray_sphere_intersect m orig dir s = ray_sphere_intersect_ref m orig dir s ∧
    (∀ d : F, ray_sphere_intersect m orig dir s = (true, d) →
      ref_d2 orig dir s ≤ s.radius ^ 2 ∧ 0.001 < d ∧
      (d = ref_t0 m orig dir s ∨ d = ref_t1 m orig dir s) ∧
      (0.001 < ref_t0 m orig dir s → d ≤ ref_t0 m orig dir s) ∧
      (0.001 < ref_t1 m orig dir s → d ≤ ref_t1 m orig dir s)) ∧
    (ref_d2 orig dir s ≤ s.radius ^ 2 → 0.001 < ref_t0 m orig dir s →
      ray_sphere_intersect m orig dir s = (true, ref_t0 m orig dir s)) := by
  have heq : ray_sphere_intersect m orig dir s = ray_sphere_intersect_ref m orig dir s := by
    simp only [ray_sphere_intersect, ray_sphere_intersect_ref, ref_t0, ref_t1, ref_thc,
      ref_d2, ref_tca, ref_L, pow_two, gt_iff_lt]
  refine ⟨heq, ?_, ?_⟩
  · intro d hd
    rw [heq] at hd
    simp only [ray_sphere_intersect_ref] at hd
    by_cases h1 : ref_d2 orig dir s > s.radius ^ 2
    · rw [if_pos h1] at hd
      simp at hd
    · rw [if_neg h1] at hd
      have hle : ref_d2 orig dir s ≤ s.radius ^ 2 := not_lt.mp h1
      have hthc : 0 ≤ ref_thc m orig dir s := hm _ (by linarith)
      have h01 : ref_t0 m orig dir s ≤ ref_t1 m orig dir s := by
        simp only [ref_t0, ref_t1]; linarith
      by_cases h2 : ref_t0 m orig dir s > 0.001
      · rw [if_pos h2] at hd
        have hd2 : ref_t0 m orig dir s = d := by simpa using hd
        subst hd2
        exact ⟨hle, h2, Or.inl rfl, fun _ => le_refl _, fun _ => h01⟩
      · rw [if_neg h2] at hd
        by_cases h3 : ref_t1 m orig dir s > 0.001
        · rw [if_pos h3] at hd
          have hd2 : ref_t1 m orig dir s = d := by simpa using hd
          subst hd2
          exact ⟨hle, h3, Or.inr rfl, fun h => absurd h h2, fun _ => le_refl _⟩
        · rw [if_neg h3] at hd
          simp at hd
  · intro hle h0
    rw [heq]
    simp only [ray_sphere_intersect_ref]
    rw [if_neg (not_lt.mpr hle), if_pos h0]

/-- C5 (witness): the real square root is non-negative; the ray from the origin along
`(0, 0, -1)` and the first sphere of the scene. -/
theorem ray_sphere_intersect_eq_ref_witness :
    (∀ x : ℝ, 0 ≤ x → 0 ≤ Real.sqrt x) ∧
    ray_sphere_intersect (⟨Real.sqrt, fun x y => x ^ y⟩ : Libm ℝ) ⟨0, 0, 0⟩ ⟨0, 0, -1⟩
      ⟨⟨-3, 0, -16⟩, 2, ⟨1, 0.9, 0.5, 0.1, 0, ⟨0.4, 0.4, 0.3⟩, 50⟩⟩ =
    ray_sphere_intersect_ref (⟨Real.sqrt, fun x y => x ^ y⟩ : Libm ℝ) ⟨0, 0, 0⟩ ⟨0, 0, -1⟩
      ⟨⟨-3, 0, -16⟩, 2, ⟨1, 0.9, 0.5, 0.1, 0, ⟨0.4, 0.4, 0.3⟩, 50⟩⟩ :=
  ⟨fun x _ => Real.sqrt_nonneg x,
    (ray_sphere_intersect_eq_ref (⟨Real.sqrt, fun x y => x ^ y⟩ : Libm ℝ)
      (fun x _ => Real.sqrt_nonneg x) ⟨0, 0, 0⟩ ⟨0, 0, -1⟩
      ⟨⟨-3, 0, -16⟩, 2, ⟨1, 0.9, 0.5, 0.1, 0, ⟨0.4, 0.4, 0.3⟩, 50⟩⟩).1⟩

/-- C6: Snell round trip.  For unit vectors `I`, `N` with `dot I N ≤ 0` and positive
indices with `k ≥ 0`, refracting the refracted direction with the two indices swapped
gives back `I` (exact square root). -/
theorem refract_round_trip (m : Libm F) (hm : m.Exact) (I N : vec3 F) (n_t n_i : F)
    (hI : norm m I = 1) (hN : norm m N = 1) (hdot : dot I N ≤ 0)
    (ht : 0 < n_t) (hi : 0 < n_i)
    (hk : 0 ≤ 1 - n_i / n_t * (n_i / n_t) * (1 - cosi I N * cosi I N)) :
    refract m (refract m I N n_t n_i) N n_i n_t = I := by
  have hII := hm.dot_self_of_norm_one hI
  have hNN := hm.dot_self_of_norm_one hN
  obtain ⟨hge, hle⟩ := abs_dot_le_one hII hNN
  have hc : cosi I N = -dot I N := cosi_eq I N hge hle
  have hc0 : ¬ cosi I N < 0 := by rw [hc]; linarith
  have hee : n_i / n_t * (n_t / n_i) = 1 := by field_simp
  -- the first refraction
  have hT : refract m I N n_t n_i = add (mul I (n_i / n_t)) (mul N (n_i / n_t * cosi I N -
      m.sqrtf (1 - n_i / n_t * (n_i / n_t) * (1 - cosi I N * cosi I N)))) := by
    rw [refract_of_nonneg m I N n_t n_i hc0, if_neg (not_lt.mpr hk)]
  have hs0 := hm.1 _ hk
  have hss := hm.2 _ hk
  generalize m.sqrtf (1 - n_i / n_t * (n_i / n_t) * (1 - cosi I N * cosi I N)) = sk
    at hT hs0 hss
  have hs1 : sk ≤ 1 := by
    have : 0 ≤ n_i / n_t * (n_i / n_t) * (1 - cosi I N * cosi I N) := by
      apply mul_nonneg (mul_self_nonneg _)
      rw [hc]; nlinarith
    nlinarith
  have hdT : dot (refract m I N n_t n_i) N = -sk := by
    have : dot (refract m I N n_t n_i) N
        = n_i / n_t * dot I N + (n_i / n_t * cosi I N - sk) * dot N N := by
      rw [hT]; simp only [dot, add, mul]; ring
    rw [this, hNN, hc]; ring
  have hcT : cosi (refract m I N n_t n_i) N = sk := by
    rw [cosi_eq _ _ (by rw [hdT]; linarith) (by rw [hdT]; linarith), hdT, neg_neg]
  have hk2 : 1 - n_t / n_i * (n_t / n_i) * (1 - sk * sk) = cosi I N * cosi I N := by
    rw [hss]
    have : n_t / n_i * (n_t / n_i) * (n_i / n_t * (n_i / n_t)) = 1 := by
      calc n_t / n_i * (n_t / n_i) * (n_i / n_t * (n_i / n_t))
          = (n_i / n_t * (n_t / n_i)) * (n_i / n_t * (n_t / n_i)) := by ring
        _ = 1 := by rw [hee, mul_one]
    linear_combination (-(1 - cosi I N * cosi I N)) * this
  have hcn : 0 ≤ cosi I N := not_lt.mp hc0
  rw [refract_of_nonneg m _ N n_i n_t (by rw [hcT]; exact not_lt.mpr hs0), hcT, hk2,
    if_neg (not_lt.mpr (mul_self_nonneg _)), hm.sqrtf_mul_self hcn, hT]
  ext
  · simp only [add, mul]
    linear_combination (I.x + N.x * cosi I N) * hee
  · simp only [add, mul]
    linear_combination (I.y + N.y * cosi I N) * hee
  · simp only [add, mul]
    linear_combination (I.z + N.z * cosi I N) * hee

/-- C6 (witness): the unit direction `(0.6, 0, -0.8)` entering glass (index 1.5) from
air through the normal `(0, 0, 1)`. -/
theorem refract_round_trip_witness :
    refract (⟨Real.sqrt, fun x y => x ^ y⟩ : Libm ℝ)
      (refract ⟨Real.sqrt, fun x y => x ^ y⟩ ⟨0.6, 0, -0.8⟩ ⟨0, 0, 1⟩ 1.5 1)
      ⟨0, 0, 1⟩ 1 1.5 = ⟨0.6, 0, -0.8⟩ :=
  refract_round_trip (⟨Real.sqrt, fun x y => x ^ y⟩ : Libm ℝ) (real_exact _)
    ⟨0.6, 0, -0.8⟩ ⟨0, 0, 1⟩ 1.5 1
    (by simp only [norm]; rw [Real.sqrt_eq_iff_mul_self_eq] <;> norm_num)
    (by simp only [norm]; rw [Real.sqrt_eq_iff_mul_self_eq] <;> norm_num)
    (by norm_num [dot])
    (by norm_num) (by norm_num)
    (by norm_num [cosi, dot])

/-- C7 (counterexample): on the incident direction `(0, 0, -1)` and a normal whose
components are NaN (what `normalized` returns on the zero vector) the dot product is NaN;
`fminf` and `fmaxf` drop the NaN, so `cosi` is `-1` for the normal and again for the
flipped normal, and no number of activations lets `refract` return. -/
theorem refract_nan_normal_never_returns :
    IEEE.dot (⟨.num 0, .num 0, .num (-1)⟩ : vec3 (XFloat ℝ)) ⟨.nan, .nan, .nan⟩ = .nan ∧
    IEEE.cosi (⟨.num 0, .num 0, .num (-1)⟩ : vec3 (XFloat ℝ)) ⟨.nan, .nan, .nan⟩ = .num (-1) ∧
    IEEE.cosi (⟨.num 0, .num 0, .num (-1)⟩ : vec3 (XFloat ℝ))
      (IEEE.neg ⟨.nan, .nan, .nan⟩) = .num (-1) ∧
    ¬ ∃ (fuel : Nat) (v : vec3 (XFloat ℝ)),
      IEEE.refract (⟨Real.sqrt, fun x y => x ^ y⟩ : Libm ℝ) fuel
        ⟨.num 0, .num 0, .num (-1)⟩ ⟨.nan, .nan, .nan⟩ (.num 1.5) (.num 1) = some v := by
  have hd : IEEE.dot (⟨.num 0, .num 0, .num (-1)⟩ : vec3 (XFloat ℝ)) ⟨.nan, .nan, .nan⟩
      = .nan := by
    simp [IEEE.dot]
  have hd2 : IEEE.dot (⟨.num 0, .num 0, .num (-1)⟩ : vec3 (XFloat ℝ))
      (IEEE.neg ⟨.nan, .nan, .nan⟩) = .nan := by
    rw [IEEE.dot_flipped_normal, hd]
    rfl
  refine ⟨hd, IEEE.cosi_of_dot_nan _ _ hd, IEEE.cosi_of_dot_nan _ _ hd2, ?_⟩
  rintro ⟨fuel, v, hv⟩
  rw [IEEE.refract_of_dot_nan _ fuel _ _ _ _ hd] at hv
  exact Option.noConfusion hv

/-- C7 (amended): `refract` returns exactly when the dot product `dot(I, N)` is not NaN.
It then returns with at most one nested call (two activations suffice), and when `cosi`
is negative the call it makes, on the flipped normal and the swapped indices, has a
positive `cosi` and so returns without a further call.  The vectors and the indices
range over all floats, infinities and NaN included. -/
theorem refract_recurses_once_unless_nan (m : Libm F) (I N : vec3 (XFloat F))
    (eta_t eta_i : XFloat F) :
    ((∃ (fuel : Nat) (v : vec3 (XFloat F)), IEEE.refract m fuel I N eta_t eta_i = some v) ↔
      IEEE.dot I N ≠ .nan) ∧
    (IEEE.dot I N ≠ .nan →
      (∃ v, IEEE.refract m 2 I N eta_t eta_i = some v) ∧
      ((IEEE.cosi I N).lt (.num 0) = true →
        (XFloat.num 0).lt (IEEE.cosi I (IEEE.neg N)) = true ∧
        IEEE.refract m 2 I N eta_t eta_i = IEEE.refract m 1 I (IEEE.neg N) eta_i eta_t ∧
        ∃ v, IEEE.refract m 1 I (IEEE.neg N) eta_i eta_t = some v)) := by
  refine ⟨⟨?_, fun hd => ⟨2, IEEE.refract_returns m I N eta_t eta_i hd⟩⟩, fun hd => ?_⟩
  · rintro ⟨fuel, v, hv⟩ hnan
    rw [IEEE.refract_of_dot_nan m fuel I N eta_t eta_i hnan] at hv
    exact Option.noConfusion hv
  · refine ⟨IEEE.refract_returns m I N eta_t eta_i hd, fun h => ?_⟩
    have hpos := IEEE.cosi_neg_pos I N hd h
    exact ⟨hpos, IEEE.refract_of_lt m 1 I N eta_t eta_i h,
      IEEE.refract_returns_of_not_lt m 0 I (IEEE.neg N) eta_i eta_t
        (XFloat.not_lt_zero_of_pos _ hpos)⟩

/-- C7 (witness): the incident direction `(0, 0, 1)` on the normal `(0, 0, 1)` comes from
inside: the dot product is 1 and `cosi = -1`. -/
theorem refract_recurses_once_unless_nan_witness :
    IEEE.dot (⟨.num 0, .num 0, .num 1⟩ : vec3 (XFloat ℝ)) ⟨.num 0, .num 0, .num 1⟩ ≠ .nan ∧
    (IEEE.cosi (⟨.num 0, .num 0, .num 1⟩ : vec3 (XFloat ℝ))
      ⟨.num 0, .num 0, .num 1⟩).lt (.num 0) = true ∧
    (XFloat.num (0 : ℝ)).lt (IEEE.cosi (⟨.num 0, .num 0, .num 1⟩ : vec3 (XFloat ℝ))
      (IEEE.neg ⟨.num 0, .num 0, .num 1⟩)) = true ∧
    ∃ v, IEEE.refract (⟨Real.sqrt, fun x y => x ^ y⟩ : Libm ℝ) 2
      ⟨.num 0, .num 0, .num 1⟩ ⟨.num 0, .num 0, .num 1⟩ (.num 1.5) (.num 1) = some v := by
  have hdot : IEEE.dot (⟨.num 0, .num 0, .num 1⟩ : vec3 (XFloat ℝ)) ⟨.num 0, .num 0, .num 1⟩
      = .num 1 := by
    simp [IEEE.dot]
  have hd : IEEE.dot (⟨.num 0, .num 0, .num 1⟩ : vec3 (XFloat ℝ)) ⟨.num 0, .num 0, .num 1⟩
      ≠ .nan := by
    rw [hdot]
    exact XFloat.noConfusion
  have hc : (IEEE.cosi (⟨.num 0, .num 0, .num 1⟩ : vec3 (XFloat ℝ))
      ⟨.num 0, .num 0, .num 1⟩).lt (.num 0) = true := by
    rw [IEEE.cosi, hdot, XFloat.fminf_num, XFloat.fmaxf_num]
    simp
  have hw := refract_recurses_once_unless_nan (⟨Real.sqrt, fun x y => x ^ y⟩ : Libm ℝ)
    ⟨.num 0, .num 0, .num 1⟩ ⟨.num 0, .num 0, .num 1⟩ (.num 1.5) (.num 1)
  exact ⟨hd, hc, ((hw.2 hd).2 hc).1, (hw.2 hd).1⟩

/-- C8 (counterexample): the ray from `(-3, 0, -16)`, the centre of the first sphere, with
the zero direction at depth 0.  `scene_intersect` reports a hit (at distance 2, at the
origin itself), the normal `normalized(pt - center)` is `normalized` of the zero vector,
whose components are `0 · (1/0)`, NaN, and the call of `refract` on that normal never
returns: no number of activations lets `cast_ray` return. -/
theorem cast_ray_zero_direction_never_returns :
    (IEEE.scene_intersect (⟨Real.sqrt, fun x y => x ^ y⟩ : Libm ℝ)
      ⟨.num (-3), .num 0, .num (-16)⟩ ⟨.num 0, .num 0, .num 0⟩).hit = true ∧
    (IEEE.scene_intersect (⟨Real.sqrt, fun x y => x ^ y⟩ : Libm ℝ)
      ⟨.num (-3), .num 0, .num (-16)⟩ ⟨.num 0, .num 0, .num 0⟩).v2 = ⟨.nan, .nan, .nan⟩ ∧
    ¬ ∃ (fuel : Nat) (v : vec3 (XFloat ℝ)),
      IEEE.cast_ray (⟨Real.sqrt, fun x y => x ^ y⟩ : Libm ℝ) fuel
        ⟨.num (-3), .num 0, .num (-16)⟩ ⟨.num 0, .num 0, .num 0⟩ 0 = some v := by
  refine ⟨?_, ?_, ?_⟩
  · simp only [IEEE.scene_intersect, IEEE.zero_dir_scene, XFloat.lt_num, decide_eq_true_eq]
    norm_num
  · simp only [IEEE.scene_intersect, IEEE.zero_dir_scene]
  · rintro ⟨fuel, v, hv⟩
    rw [IEEE.zero_dir_cast_ray fuel] at hv
    exact Option.noConfusion hv

/-- C8 (amended): `cast_ray` terminates for every origin of finite coordinates, every
integer depth and every direction of unit length: a call with `depth > 4` returns the
background without a nested call, the recursive calls are made at `depth + 1`, on
directions that are again of unit length, and the call of `refract` returns because the
hit normal is a unit vector; a stack of `(5 - depth) + 2` activations always suffices
(exact square root). -/
theorem cast_ray_terminates_unit_direction [FloorRing F] (m : Libm F) (hm : m.Exact)
    (fuel : Nat) (orig dir : vec3 F) (depth : Int)
    (hunit : dot dir dir = 1) (h : (5 - depth).toNat + 2 ≤ fuel) :
    (∃ v, IEEE.cast_ray m fuel orig.lift dir.lift depth = some v) ∧
    (depth > 4 →
      IEEE.cast_ray m 1 orig.lift dir.lift depth = some ⟨.num 0.2, .num 0.7, .num 0.8⟩) := by
  refine ⟨IEEE.cast_ray_returns m hm fuel orig dir depth hunit h, fun hd => ?_⟩
  simp only [IEEE.cast_ray]
  rw [if_pos (Or.inl hd)]

/-- C8 (witness): seven activations suffice for the ray from `(1.5, -3.9, -18)` straight
up at depth 0, and at depth 5 the same ray returns the background in one activation. -/
theorem cast_ray_terminates_unit_direction_witness :
    dot (⟨0, 1, 0⟩ : vec3 ℝ) ⟨0, 1, 0⟩ = 1 ∧
    (∃ v, IEEE.cast_ray (⟨Real.sqrt, fun x y => x ^ y⟩ : Libm ℝ) 7
      (⟨1.5, -3.9, -18⟩ : vec3 ℝ).lift (⟨0, 1, 0⟩ : vec3 ℝ).lift 0 = some v) ∧
    IEEE.cast_ray (⟨Real.sqrt, fun x y => x ^ y⟩ : Libm ℝ) 1
      (⟨1.5, -3.9, -18⟩ : vec3 ℝ).lift (⟨0, 1, 0⟩ : vec3 ℝ).lift 5
      = some ⟨.num 0.2, .num 0.7, .num 0.8⟩ :=
  ⟨by norm_num [dot],
    (cast_ray_terminates_unit_direction (⟨Real.sqrt, fun x y => x ^ y⟩ : Libm ℝ)
      (real_exact _) 7 ⟨1.5, -3.9, -18⟩ ⟨0, 1, 0⟩ 0 (by norm_num [dot]) (by decide)).1,
    (cast_ray_terminates_unit_direction (⟨Real.sqrt, fun x y => x ^ y⟩ : Libm ℝ)
      (real_exact _) 2 ⟨1.5, -3.9, -18⟩ ⟨0, 1, 0⟩ 5 (by norm_num [dot]) (by decide)).2
      (by decide)⟩

/-- C9: a light whose shadow ray hits the scene strictly closer than the light adds
nothing to the diffuse or specular intensity; and when every light is occluded at the
hit point (depth ≤ 4), `cast_ray` returns exactly
`reflect_color·albedo[2] + refract_color·albedo[3]`. -/
theorem occluded_lights_add_nothing [FloorRing F] (m : Libm F) (orig dir : vec3 F)
    (depth : Int) :
    (∀ (point N : vec3 F) (material : Material F) (acc : F × F) (light : vec3 F),
      occluded m point light = true →
      light_step m dir point N material acc light = acc) ∧
    (depth ≤ 4 → (scene_intersect m orig dir).hit = true →
      (∀ light ∈ (lights : List (vec3 F)),
        occluded m (scene_intersect m orig dir).v light = true) →
      cast_ray m orig dir depth =
        add
          (mul (cast_ray m (scene_intersect m orig dir).v
              (normalized m (reflect dir (scene_intersect m orig dir).v2)) (depth + 1))
            (scene_intersect m orig dir).mat.albedo2)
          (mul (cast_ray m (scene_intersect m orig dir).v
              (normalized m (refract m dir (scene_intersect m orig dir).v2
                (scene_intersect m orig dir).mat.refractive_index 1)) (depth + 1))
            (scene_intersect m orig dir).mat.albedo3)) := by
  constructor
  · intro point N material acc light h
    simp only [light_step, if_pos h]
  · intro hd hhit hocc
    have hc : ¬ (depth > 4 ∨ (scene_intersect m orig dir).hit = false) := by
      rintro (h | h)
      · omega
      · rw [hhit] at h; exact Bool.noConfusion h
    rw [cast_ray_unfold, if_neg hc]
    simp only [shade]
    rw [light_loop_all_occluded m dir _ _ _ lights (0, 0) hocc]
    ext <;> simp [add, mul]

/-- C9 (witness): the ray from `(1.5, -3.9, -18)` straight up hits the lowest point of
the third sphere, which that sphere hides from all three lights. -/
theorem occluded_lights_add_nothing_witness :
    (scene_intersect (⟨Real.sqrt, fun x y => x ^ y⟩ : Libm ℝ) ⟨1.5, -3.9, -18⟩
      ⟨0, 1, 0⟩).v = ⟨1.5, -3.5, -18⟩ ∧
    (∀ light ∈ (lights : List (vec3 ℝ)),
      occluded (⟨Real.sqrt, fun x y => x ^ y⟩ : Libm ℝ) ⟨1.5, -3.5, -18⟩ light = true) ∧
    cast_ray (⟨Real.sqrt, fun x y => x ^ y⟩ : Libm ℝ) ⟨1.5, -3.9, -18⟩ ⟨0, 1, 0⟩ 0 =
      add
        (mul (cast_ray ⟨Real.sqrt, fun x y => x ^ y⟩
            (scene_intersect (⟨Real.sqrt, fun x y => x ^ y⟩ : Libm ℝ) ⟨1.5, -3.9, -18⟩
              ⟨0, 1, 0⟩).v
            (normalized ⟨Real.sqrt, fun x y => x ^ y⟩ (reflect ⟨0, 1, 0⟩
              (scene_intersect (⟨Real.sqrt, fun x y => x ^ y⟩ : Libm ℝ) ⟨1.5, -3.9, -18⟩
                ⟨0, 1, 0⟩).v2)) (0 + 1))
          (scene_intersect (⟨Real.sqrt, fun x y => x ^ y⟩ : Libm ℝ) ⟨1.5, -3.9, -18⟩
            ⟨0, 1, 0⟩).mat.albedo2)
        (mul (cast_ray ⟨Real.sqrt, fun x y => x ^ y⟩
            (scene_intersect (⟨Real.sqrt, fun x y => x ^ y⟩ : Libm ℝ) ⟨1.5, -3.9, -18⟩
              ⟨0, 1, 0⟩).v
            (normalized ⟨Real.sqrt, fun x y => x ^ y⟩
              (refract ⟨Real.sqrt, fun x y => x ^ y⟩ ⟨0, 1, 0⟩
                (scene_intersect (⟨Real.sqrt, fun x y => x ^ y⟩ : Libm ℝ) ⟨1.5, -3.9, -18⟩
                  ⟨0, 1, 0⟩).v2
                (scene_intersect (⟨Real.sqrt, fun x y => x ^ y⟩ : Libm ℝ) ⟨1.5, -3.9, -18⟩
                  ⟨0, 1, 0⟩).mat.refractive_index 1)) (0 + 1))
          (scene_intersect (⟨Real.sqrt, fun x y => x ^ y⟩ : Libm ℝ) ⟨1.5, -3.9, -18⟩
            ⟨0, 1, 0⟩).mat.albedo3) := by
  have hv : (scene_intersect (⟨Real.sqrt, fun x y => x ^ y⟩ : Libm ℝ) ⟨1.5, -3.9, -18⟩
      ⟨0, 1, 0⟩).v = ⟨1.5, -3.5, -18⟩ := by
    show (scene_nearest _ _ _).pt = _
    rw [up_ray_nearest]
  have hhit : (scene_intersect (⟨Real.sqrt, fun x y => x ^ y⟩ : Libm ℝ) ⟨1.5, -3.9, -18⟩
      ⟨0, 1, 0⟩).hit = true := by
    rw [scene_intersect_hit_iff, up_ray_nearest]
    norm_num
  have hocc : ∀ light ∈ (lights : List (vec3 ℝ)),
      occluded (⟨Real.sqrt, fun x y => x ^ y⟩ : Libm ℝ) ⟨1.5, -3.5, -18⟩ light = true := by
    intro light hl
    simp only [lights, List.mem_cons, List.mem_singleton, List.not_mem_nil, or_false] at hl
    have hs : (⟨⟨1.5, -0.5, -18⟩, 3, red_rubber⟩ : Sphere ℝ) ∈ (spheres : List (Sphere ℝ)) := by
      rw [spheres_eq]; simp
    rcases hl with h | h | h <;> rw [h] <;>
      exact occluded_from_surface _ (real_exact _) _ _ _ hs (by norm_num [sub, dot])
        (by norm_num [sub, dot]) (by norm_num [sub, dot]) (by norm_num [sub, dot])
  exact ⟨hv, hocc, (occluded_lights_add_nothing (⟨Real.sqrt, fun x y => x ^ y⟩ : Libm ℝ)
    ⟨1.5, -3.9, -18⟩ ⟨0, 1, 0⟩ 0).2 (by norm_num) hhit (by rw [hv]; exact hocc)⟩

/-- C10: two accepted checkerboard hits in adjacent cells (same `z` and `x` differing by
exactly 2, or same `x` and `z` differing by exactly 2) get different diffuse colours, one
`(0.3, 0.3, 0.3)` and the other `(0.3, 0.2, 0.1)`. -/
theorem checkerboard_adjacent_alternate [FloorRing F] (orig dir orig' dir' : vec3 F)
    (st st' : Nearest F)
    (ha : checker_accepted orig dir st) (ha' : checker_accepted orig' dir' st')
    (hadj :
      ((checkerboard orig' dir' st').pt.z = (checkerboard orig dir st).pt.z ∧
        |(checkerboard orig' dir' st').pt.x - (checkerboard orig dir st).pt.x| = 2) ∨
      ((checkerboard orig' dir' st').pt.x = (checkerboard orig dir st).pt.x ∧
        |(checkerboard orig' dir' st').pt.z - (checkerboard orig dir st).pt.z| = 2)) :
    (checkerboard orig dir st).material.diffuse_color ≠
      (checkerboard orig' dir' st').material.diffuse_color ∧
    (((checkerboard orig dir st).material.diffuse_color = ⟨0.3, 0.3, 0.3⟩ ∧
        (checkerboard orig' dir' st').material.diffuse_color = ⟨0.3, 0.2, 0.1⟩) ∨
      ((checkerboard orig dir st).material.diffuse_color = ⟨0.3, 0.2, 0.1⟩ ∧
        (checkerboard orig' dir' st').material.diffuse_color = ⟨0.3, 0.3, 0.3⟩)) := by
  rw [checkerboard_of_accepted orig dir st ha,
    checkerboard_of_accepted orig' dir' st' ha'] at hadj ⊢
  simp only at hadj ⊢
  obtain ⟨-, -, -, hpx, hpz, -⟩ := ha
  obtain ⟨-, -, -, hqx, hqz, -⟩ := ha'
  generalize add orig (mul dir (-(orig.y + 4) / dir.y)) = p at hadj hpx hpz ⊢
  generalize add orig' (mul dir' (-(orig'.y + 4) / dir'.y)) = q at hadj hqx hqz ⊢
  have key : (checker_color p = ⟨0.3, 0.3, 0.3⟩ ∧ checker_color q = ⟨0.3, 0.2, 0.1⟩) ∨
      (checker_color p = ⟨0.3, 0.2, 0.1⟩ ∧ checker_color q = ⟨0.3, 0.3, 0.3⟩) := by
    rcases hadj with ⟨hz, hx⟩ | ⟨hx, hz⟩
    · rcases abs_eq (by norm_num : (0 : F) ≤ 2) |>.mp hx with h | h
      · exact checker_color_adjacent p q hpx hpz hqx hqz (Or.inl ⟨by linarith, hz⟩)
      · exact (checker_color_adjacent q p hqx hqz hpx hpz
          (Or.inl ⟨by linarith, hz.symm⟩)).symm.imp And.symm And.symm
    · rcases abs_eq (by norm_num : (0 : F) ≤ 2) |>.mp hz with h | h
      · exact checker_color_adjacent p q hpx hpz hqx hqz (Or.inr ⟨hx, by linarith⟩)
      · exact (checker_color_adjacent q p hqx hqz hpx hpz
          (Or.inr ⟨hx.symm, by linarith⟩)).symm.imp And.symm And.symm
  refine ⟨?_, key⟩
  rcases key with ⟨h1, h2⟩ | ⟨h1, h2⟩
  · rw [h1, h2]; exact checker_grays_ne
  · rw [h1, h2]; exact checker_grays_ne.symm

/-- C10 (witness): the floor points `(0, -4, -20)` and `(2, -4, -20)`, hit by two rays
straight down, get different colours. -/
theorem checkerboard_adjacent_alternate_witness :
    (checkerboard (⟨0, 0, -20⟩ : vec3 ℝ) ⟨0, -1, 0⟩ nearest_init).material.diffuse_color ≠
      (checkerboard (⟨2, 0, -20⟩ : vec3 ℝ) ⟨0, -1, 0⟩ nearest_init).material.diffuse_color :=
  (checkerboard_adjacent_alternate (⟨0, 0, -20⟩ : vec3 ℝ) ⟨0, -1, 0⟩ ⟨2, 0, -20⟩ ⟨0, -1, 0⟩
    nearest_init nearest_init floor_rays_accepted.1 floor_rays_accepted.2
    (Or.inl (by
      rw [checkerboard_of_accepted _ _ _ floor_rays_accepted.1,
        checkerboard_of_accepted _ _ _ floor_rays_accepted.2]
      norm_num [add, mul]))).1

/-- C11 (counterexample): the accepted floor hits `(0, -4, -20)` and `(0, -4, -23)` have
`floor(0.5·x) + floor(0.5·z)` equal to `-10` and `-12`, of the same parity, and get
different diffuse colours. -/
theorem floor_parity_same_colors_differ :
    checker_accepted (⟨0, 0, -20⟩ : vec3 ℝ) ⟨0, -1, 0⟩ nearest_init ∧
    checker_accepted (⟨0, 0, -23⟩ : vec3 ℝ) ⟨0, -1, 0⟩ nearest_init ∧
    (checkerboard (⟨0, 0, -20⟩ : vec3 ℝ) ⟨0, -1, 0⟩ nearest_init).pt = ⟨0, -4, -20⟩ ∧
    (checkerboard (⟨0, 0, -23⟩ : vec3 ℝ) ⟨0, -1, 0⟩ nearest_init).pt = ⟨0, -4, -23⟩ ∧
    (⌊(0.5 : ℝ) * 0⌋ + ⌊(0.5 : ℝ) * -20⌋) % 2 = (⌊(0.5 : ℝ) * 0⌋ + ⌊(0.5 : ℝ) * -23⌋) % 2 ∧
    (checkerboard (⟨0, 0, -20⟩ : vec3 ℝ) ⟨0, -1, 0⟩ nearest_init).material.diffuse_color ≠
      (checkerboard (⟨0, 0, -23⟩ : vec3 ℝ) ⟨0, -1, 0⟩ nearest_init).material.diffuse_color := by
  refine ⟨floor_rays_accepted.1, floor_ray23_accepted, floor_ray20_pt, floor_ray23_pt, ?_, ?_⟩
  · obtain ⟨f0, f20, f23, -, -⟩ := floor_values
    rw [f0, f20, f23]
    decide
  · rw [floor_ray20_color, floor_ray23_color]
    exact floor_colors_differ

/-- C11 (amended): for accepted checkerboard hits at `(x, -4, z)` whose `0.5·x` lies more
than `2^-14` below the next integer, the diffuse colour is determined by the parity of
`floor(0.5·x) + ceil(0.5·z)`: two such hits get the same gray exactly when this sum has
the same parity for both.  The margin is one unit in the last place of the binary32 sum
`.5f * x + 1000.f`, which otherwise rounds up to the integer. -/
theorem checkerboard_color_parity_margin [FloorRing F] (orig dir orig' dir' : vec3 F)
    (st st' : Nearest F)
    (ha : checker_accepted orig dir st) (ha' : checker_accepted orig' dir' st')
    (_hx : 0.5 * (checkerboard orig dir st).pt.x + 1 / 16384
      < (⌊0.5 * (checkerboard orig dir st).pt.x⌋ : F) + 1)
    (_hx' : 0.5 * (checkerboard orig' dir' st').pt.x + 1 / 16384
      < (⌊0.5 * (checkerboard orig' dir' st').pt.x⌋ : F) + 1) :
    (checkerboard orig dir st).material.diffuse_color =
        (checkerboard orig' dir' st').material.diffuse_color ↔
      (⌊0.5 * (checkerboard orig dir st).pt.x⌋ + ⌈0.5 * (checkerboard orig dir st).pt.z⌉) % 2 =
        (⌊0.5 * (checkerboard orig' dir' st').pt.x⌋
          + ⌈0.5 * (checkerboard orig' dir' st').pt.z⌉) % 2 := by
  rw [checkerboard_of_accepted orig dir st ha, checkerboard_of_accepted orig' dir' st' ha']
  obtain ⟨-, -, -, hpx, hpz, -⟩ := ha
  obtain ⟨-, -, -, hqx, hqz, -⟩ := ha'
  exact checker_color_eq_iff _ _ hpx hpz hqx hqz

/-- C11 (witness): the floor hits `(0, -4, -20)` and `(0, -4, -23)`, whose sums
`floor(0.5·x) + ceil(0.5·z)` are `-10` and `-11`; `0.5·0 + 2^-14 < 1`. -/
theorem checkerboard_color_parity_margin_witness :
    (checkerboard (⟨0, 0, -20⟩ : vec3 ℝ) ⟨0, -1, 0⟩ nearest_init).material.diffuse_color =
        (checkerboard (⟨0, 0, -23⟩ : vec3 ℝ) ⟨0, -1, 0⟩ nearest_init).material.diffuse_color ↔
      (⌊(0.5 : ℝ) * (checkerboard (⟨0, 0, -20⟩ : vec3 ℝ) ⟨0, -1, 0⟩ nearest_init).pt.x⌋
        + ⌈(0.5 : ℝ) * (checkerboard (⟨0, 0, -20⟩ : vec3 ℝ) ⟨0, -1, 0⟩ nearest_init).pt.z⌉) % 2 =
      (⌊(0.5 : ℝ) * (checkerboard (⟨0, 0, -23⟩ : vec3 ℝ) ⟨0, -1, 0⟩ nearest_init).pt.x⌋
        + ⌈(0.5 : ℝ) * (checkerboard (⟨0, 0, -23⟩ : vec3 ℝ) ⟨0, -1, 0⟩ nearest_init).pt.z⌉) % 2 :=
  checkerboard_color_parity_margin (⟨0, 0, -20⟩ : vec3 ℝ) ⟨0, -1, 0⟩ ⟨0, 0, -23⟩ ⟨0, -1, 0⟩
    nearest_init nearest_init floor_rays_accepted.1 floor_ray23_accepted
    (by rw [floor_ray20_pt]; norm_num)
    (by rw [floor_ray23_pt]; norm_num)

/-- C12 (counterexample): the ray from `(5, 1996, -25)` straight down meets the floor at
distance 2000; `scene_intersect` reports no hit and writes back a material whose diffuse
colour is the checkerboard colour, not the `(0, 0, 0)` of `MATBASE`. -/
theorem far_floor_no_hit_material_changed :
    (scene_intersect (⟨Real.sqrt, fun x y => x ^ y⟩ : Libm ℝ) ⟨5, 1996, -25⟩
      ⟨0, -1, 0⟩).hit = false ∧
    (scene_intersect (⟨Real.sqrt, fun x y => x ^ y⟩ : Libm ℝ) ⟨5, 1996, -25⟩
      ⟨0, -1, 0⟩).mat.diffuse_color.x = 0.3 ∧
    (scene_intersect (⟨Real.sqrt, fun x y => x ^ y⟩ : Libm ℝ) ⟨5, 1996, -25⟩
      ⟨0, -1, 0⟩).mat ≠ MATBASE := by
  obtain ⟨hacc, hn⟩ := far_floor_ray_nearest
  have hx : (scene_intersect (⟨Real.sqrt, fun x y => x ^ y⟩ : Libm ℝ) ⟨5, 1996, -25⟩
      ⟨0, -1, 0⟩).mat.diffuse_color.x = 0.3 := by
    show (scene_nearest _ _ _).material.diffuse_color.x = _
    rw [hn, checkerboard_of_accepted _ _ _ hacc]
    exact checker_color_x _
  refine ⟨?_, hx, ?_⟩
  · simp only [scene_intersect, hn, checkerboard_of_accepted _ _ _ hacc]
    norm_num
  · intro h
    rw [h] at hx
    norm_num [MATBASE] at hx

/-- C12 (amended): when the checkerboard hit is not accepted and `ray_sphere_intersect`
fails for every sphere, `scene_intersect` reports no hit and the material it writes back
is `MATBASE`, unchanged in every field. -/
theorem nothing_intersected_material_default [FloorRing F] (m : Libm F) (orig dir : vec3 F)
    (hc : ¬ checker_accepted orig dir (nearest_init : Nearest F))
    (hs : ∀ s ∈ (spheres : List (Sphere F)), (ray_sphere_intersect m orig dir s).1 = false) :
    (scene_intersect m orig dir).hit = false ∧ (scene_intersect m orig dir).mat = MATBASE := by
  have hn : scene_nearest m orig dir = nearest_init := by
    rw [scene_nearest, checkerboard_of_not_accepted orig dir nearest_init hc]
    apply sphere_loop_unchanged
    intro s hmem hhit
    rw [hs s hmem] at hhit
    exact Bool.noConfusion hhit
  simp only [scene_intersect, hn]
  exact ⟨by norm_num [nearest_init], rfl⟩

/-- C12 (witness): the ray from the origin straight up meets nothing. -/
theorem nothing_intersected_material_default_witness :
    (scene_intersect (⟨Real.sqrt, fun x y => x ^ y⟩ : Libm ℝ) ⟨0, 0, 0⟩ ⟨0, 1, 0⟩).mat
      = MATBASE :=
  (nothing_intersected_material_default (⟨Real.sqrt, fun x y => x ^ y⟩ : Libm ℝ)
    ⟨0, 0, 0⟩ ⟨0, 1, 0⟩ (by norm_num [checker_accepted])
    (by
      intro s hs
      rw [spheres_eq] at hs
      simp only [List.mem_cons, List.mem_singleton, List.not_mem_nil, or_false] at hs
      rcases hs with h | h | h | h <;> rw [h] <;>
        rw [ray_sphere_intersect_miss _ _ _ _ (by norm_num [sub, dot])])).2

/-- C13: image-writer pixel conversion.  For a colour with non-negative components each
channel value `trunc(255·component/max)` lies in `0..255` and is the byte written; when
all components are `≤ 1` the divisor is exactly 1 and the channel is
`trunc(255·component)`; the background colour is written as the bytes `(51, 178, 204)`. -/
theorem pixel_conversion [FloorRing F] (color : vec3 F) :
    (0 ≤ color.x → 0 ≤ color.y → 0 ≤ color.z →
      (0 ≤ (pixel_chars color).1 ∧ (pixel_chars color).1 ≤ 255) ∧
      (0 ≤ (pixel_chars color).2.1 ∧ (pixel_chars color).2.1 ≤ 255) ∧
      (0 ≤ (pixel_chars color).2.2 ∧ (pixel_chars color).2.2 ≤ 255) ∧
      pixel_bytes color = pixel_chars color) ∧
    (color.x ≤ 1 → color.y ≤ 1 → color.z ≤ 1 →
      pixel_max color = 1 ∧
      pixel_chars color = (toInt (255 * color.x), toInt (255 * color.y),
        toInt (255 * color.z))) ∧
    pixel_bytes (background : vec3 F) = (51, 178, 204) := by
  refine ⟨?_, ?_, ?_⟩
  · intro hx hy hz
    have hm1 : 1 ≤ pixel_max color := le_max_left _ _
    have hmx : color.x ≤ pixel_max color := le_trans (le_max_left _ _) (le_max_right _ _)
    have hmy : color.y ≤ pixel_max color :=
      le_trans (le_trans (le_max_left _ _) (le_max_right _ _)) (le_max_right _ _)
    have hmz : color.z ≤ pixel_max color :=
      le_trans (le_trans (le_max_right _ _) (le_max_right _ _)) (le_max_right _ _)
    have hpos : 0 < pixel_max color := lt_of_lt_of_le zero_lt_one hm1
    have key : ∀ c : F, 0 ≤ c → c ≤ pixel_max color →
        0 ≤ toInt (255 * c / pixel_max color) ∧ toInt (255 * c / pixel_max color) ≤ 255 := by
      intro c hc hcm
      have h0 : 0 ≤ 255 * c / pixel_max color :=
        div_nonneg (mul_nonneg (by norm_num) hc) (le_of_lt hpos)
      have h1 : 255 * c / pixel_max color ≤ 255 := by
        rw [div_le_iff₀ hpos]
        exact mul_le_mul_of_nonneg_left hcm (by norm_num)
      simp only [toInt, if_pos h0]
      refine ⟨Int.floor_nonneg.mpr h0, ?_⟩
      have : ⌊255 * c / pixel_max color⌋ < 256 := by
        rw [Int.floor_lt]
        push_cast
        linarith
      omega
    obtain ⟨hx0, hx1⟩ := key color.x hx hmx
    obtain ⟨hy0, hy1⟩ := key color.y hy hmy
    obtain ⟨hz0, hz1⟩ := key color.z hz hmz
    refine ⟨⟨hx0, hx1⟩, ⟨hy0, hy1⟩, ⟨hz0, hz1⟩, ?_⟩
    simp only [pixel_bytes, pixel_chars] at *
    rw [Int.emod_eq_of_lt hx0 (by omega), Int.emod_eq_of_lt hy0 (by omega),
      Int.emod_eq_of_lt hz0 (by omega)]
  · intro hx hy hz
    have hm : pixel_max color = 1 := by
      simp only [pixel_max]
      exact max_eq_left (max_le hx (max_le hy hz))
    refine ⟨hm, ?_⟩
    simp only [pixel_chars, hm, div_one]
  · have hm : pixel_max (background : vec3 F) = 1 := by
      simp only [pixel_max, background]
      exact max_eq_left (max_le (by norm_num) (max_le (by norm_num) (by norm_num)))
    have h1 : toInt (255 * (0.2 : F) / 1) = 51 := by
      rw [toInt, if_pos (by norm_num), Int.floor_eq_iff]
      constructor <;> norm_num
    have h2 : toInt (255 * (0.7 : F) / 1) = 178 := by
      rw [toInt, if_pos (by norm_num), Int.floor_eq_iff]
      constructor <;> norm_num
    have h3 : toInt (255 * (0.8 : F) / 1) = 204 := by
      rw [toInt, if_pos (by norm_num), Int.floor_eq_iff]
      constructor <;> norm_num
    simp only [pixel_bytes, pixel_chars, hm]
    simp only [background, h1, h2, h3]
    rfl

/-- C13 (witness): the over-bright colour `(2, 1, 0.5)`. -/
theorem pixel_conversion_witness :
    pixel_bytes (⟨2, 1, 0.5⟩ : vec3 ℚ) = pixel_chars (⟨2, 1, 0.5⟩ : vec3 ℚ) :=
  ((pixel_conversion (⟨2, 1, 0.5⟩ : vec3 ℚ)).1 (by norm_num) (by norm_num)
    (by norm_num)).2.2.2

/-- C14: for a ray with unit direction for which `scene_intersect` reports a hit, the
returned normal has unit length; it is `(0, 1, 0)` (checkerboard) or, for a sphere of the
scene, `normalized (hit − center)`, where `hit − center` has the length of the radius,
which is positive, so the normal is `(hit − center)/radius` (exact square root). -/
theorem scene_intersect_unit_normal [FloorRing F] (m : Libm F) (hm : m.Exact)
    (orig dir : vec3 F) (hunit : norm m dir = 1)
    (hhit : (scene_intersect m orig dir).hit = true) :
    norm m (scene_intersect m orig dir).v2 = 1 ∧
    ((checker_accepted orig dir (nearest_init : Nearest F) ∧
        (scene_intersect m orig dir).v2 = ⟨0, 1, 0⟩) ∨
      ∃ s ∈ (spheres : List (Sphere F)),
        (scene_intersect m orig dir).v2
          = normalized m (sub (scene_intersect m orig dir).v s.center) ∧
        norm m (sub (scene_intersect m orig dir).v s.center) = s.radius ∧
        0 < s.radius ∧
        (scene_intersect m orig dir).v2
          = mul (sub (scene_intersect m orig dir).v s.center) (1 / s.radius)) := by
  have hdd := hm.dot_self_of_norm_one hunit
  have hlt := (scene_intersect_hit_iff m orig dir).mp hhit
  show norm m (scene_nearest m orig dir).N = 1 ∧
    ((checker_accepted orig dir (nearest_init : Nearest F) ∧
        (scene_nearest m orig dir).N = ⟨0, 1, 0⟩) ∨
      ∃ s ∈ (spheres : List (Sphere F)),
        (scene_nearest m orig dir).N
          = normalized m (sub (scene_nearest m orig dir).pt s.center) ∧
        norm m (sub (scene_nearest m orig dir).pt s.center) = s.radius ∧
        0 < s.radius ∧
        (scene_nearest m orig dir).N
          = mul (sub (scene_nearest m orig dir).pt s.center) (1 / s.radius))
  rcases scene_nearest_cases m orig dir with h | ⟨ha, h⟩ | ⟨s, hs, hsh, h⟩
  · rw [h] at hlt
    exact absurd hlt (by norm_num [nearest_init])
  · rw [h]
    exact ⟨hm.norm_eq_one_of_dot (by norm_num [dot]), Or.inl ⟨ha, rfl⟩⟩
  · rw [h]
    have hr := spheres_radius_pos s hs
    have hon := ray_sphere_intersect_on_sphere m hm orig dir s hdd hsh
    have hn : norm m (sub (add orig (mul dir (ray_sphere_intersect m orig dir s).2))
        s.center) = s.radius := by
      have : norm m (sub (add orig (mul dir (ray_sphere_intersect m orig dir s).2)) s.center)
          = m.sqrtf (dot (sub (add orig (mul dir (ray_sphere_intersect m orig dir s).2))
              s.center) (sub (add orig (mul dir (ray_sphere_intersect m orig dir s).2))
              s.center)) := rfl
      rw [this, hon, hm.sqrtf_mul_self (le_of_lt hr)]
    refine ⟨?_, Or.inr ⟨s, hs, rfl, hn, hr, ?_⟩⟩
    · exact hm.norm_eq_one_of_dot (hm.dot_normalized_self _ (by rw [hn]; exact hr))
    · show normalized m _ = _
      rw [normalized, hn]

/-- C14 (witness): the ray from `(1.5, -3.9, -18)` straight up hits the third sphere. -/
theorem scene_intersect_unit_normal_witness :
    norm (⟨Real.sqrt, fun x y => x ^ y⟩ : Libm ℝ)
      (scene_intersect (⟨Real.sqrt, fun x y => x ^ y⟩ : Libm ℝ) ⟨1.5, -3.9, -18⟩
        ⟨0, 1, 0⟩).v2 = 1 :=
  (scene_intersect_unit_normal (⟨Real.sqrt, fun x y => x ^ y⟩ : Libm ℝ) (real_exact _)
    ⟨1.5, -3.9, -18⟩ ⟨0, 1, 0⟩
    (by simp only [norm]; rw [Real.sqrt_eq_iff_mul_self_eq] <;> norm_num)
    (by rw [scene_intersect_hit_iff, up_ray_nearest]; norm_num)).1

/-- C17: every component of the colour returned by `cast_ray` is non-negative, for every
origin, direction and depth (`powf` non-negative on a non-negative base). -/
theorem cast_ray_nonneg [FloorRing F] (m : Libm F)
    (hp : ∀ x y : F, 0 ≤ x → 0 ≤ m.powf x y) (orig dir : vec3 F) (depth : Int) :
    0 ≤ (cast_ray m orig dir depth).x ∧ 0 ≤ (cast_ray m orig dir depth).y ∧
      0 ≤ (cast_ray m orig dir depth).z :=
  cast_ray_nonneg_aux m hp (5 - depth).toNat orig dir depth (le_refl _)

/-- C17 (witness): the real power function is non-negative on a non-negative base; the
ray from `(1.5, -3.9, -18)` straight up at depth 0. -/
theorem cast_ray_nonneg_witness :
    0 ≤ (cast_ray (⟨Real.sqrt, fun x y => x ^ y⟩ : Libm ℝ) ⟨1.5, -3.9, -18⟩ ⟨0, 1, 0⟩ 0).x :=
  (cast_ray_nonneg (⟨Real.sqrt, fun x y => x ^ y⟩ : Libm ℝ)
    (fun _ y hx => Real.rpow_nonneg hx y) ⟨1.5, -3.9, -18⟩ ⟨0, 1, 0⟩ 0).1

/-- C19: when `dot I N ≤ 0` and `0 < eta_i ≤ eta_t`, `k ≥ 0`, and
`refract I N eta_t eta_i` is the non-sentinel value
`eta·I + (eta·cosi − sqrt k)·N` with `eta = eta_i/eta_t`. -/
theorem refract_into_denser_no_sentinel (m : Libm F) (I N : vec3 F) (eta_t eta_i : F)
    (hdot : dot I N ≤ 0) (hi : 0 < eta_i) (hle : eta_i ≤ eta_t) :
    0 ≤ 1 - eta_i / eta_t * (eta_i / eta_t) * (1 - cosi I N * cosi I N) ∧
    refract m I N eta_t eta_i =
      add (mul I (eta_i / eta_t))
        (mul N (eta_i / eta_t * cosi I N -
          m.sqrtf (1 - eta_i / eta_t * (eta_i / eta_t) * (1 - cosi I N * cosi I N)))) := by
  obtain ⟨hc0, hc1⟩ := cosi_bounds_of_dot_nonpos I N hdot
  have ht : 0 < eta_t := lt_of_lt_of_le hi hle
  have he0 : 0 ≤ eta_i / eta_t := le_of_lt (div_pos hi ht)
  have he1 : eta_i / eta_t ≤ 1 := (div_le_one ht).mpr hle
  have hk : 0 ≤ 1 - eta_i / eta_t * (eta_i / eta_t) * (1 - cosi I N * cosi I N) := by
    have h1 : eta_i / eta_t * (eta_i / eta_t) ≤ 1 := by nlinarith
    have h2 : 0 ≤ eta_i / eta_t * (eta_i / eta_t) := mul_nonneg he0 he0
    have h3 : 0 ≤ 1 - cosi I N * cosi I N := by nlinarith
    have h4 : 1 - cosi I N * cosi I N ≤ 1 := by nlinarith
    nlinarith
  refine ⟨hk, ?_⟩
  rw [refract_of_nonneg m I N eta_t eta_i (not_lt.mpr hc0), if_neg (not_lt.mpr hk)]

/-- C19 (witness): the direction `(0.6, 0, -0.8)` entering glass (index 1.5) from air. -/
theorem refract_into_denser_no_sentinel_witness :
    (0 : ℝ) ≤ 1 - 1 / 1.5 * (1 / 1.5) *
      (1 - cosi (⟨0.6, 0, -0.8⟩ : vec3 ℝ) ⟨0, 0, 1⟩ * cosi ⟨0.6, 0, -0.8⟩ ⟨0, 0, 1⟩) :=
  (refract_into_denser_no_sentinel (⟨Real.sqrt, fun x y => x ^ y⟩ : Libm ℝ)
    ⟨0.6, 0, -0.8⟩ ⟨0, 0, 1⟩ 1.5 1 (by norm_num [dot]) (by norm_num) (by norm_num)).1

/-- C20: for unit vectors `I` and `N` and positive indices with `k ≥ 0`, the value of
`refract I N eta_t eta_i` has unit length, and normalizing it leaves it unchanged (exact
square root). -/
theorem refract_unit_length (m : Libm F) (hm : m.Exact) (I N : vec3 F) (eta_t eta_i : F)
    (hI : norm m I = 1) (hN : norm m N = 1) (_ht : 0 < eta_t) (_hi : 0 < eta_i)
    (_hk : 0 ≤ 1 - eta_i / eta_t * (eta_i / eta_t) * (1 - cosi I N * cosi I N)) :
    norm m (refract m I N eta_t eta_i) = 1 ∧
    normalized m (refract m I N eta_t eta_i) = refract m I N eta_t eta_i := by
  have h1 : norm m (refract m I N eta_t eta_i) = 1 :=
    hm.norm_eq_one_of_dot (refract_dot_self m hm I N eta_t eta_i
      (hm.dot_self_of_norm_one hI) (hm.dot_self_of_norm_one hN))
  exact ⟨h1, normalized_of_norm_one m _ h1⟩

/-- C20 (witness): the unit direction `(0.6, 0, -0.8)` entering glass (index 1.5) from
air through the unit normal `(0, 0, 1)`. -/
theorem refract_unit_length_witness :
    norm (⟨Real.sqrt, fun x y => x ^ y⟩ : Libm ℝ)
      (refract ⟨Real.sqrt, fun x y => x ^ y⟩ ⟨0.6, 0, -0.8⟩ ⟨0, 0, 1⟩ 1.5 1) = 1 :=
  (refract_unit_length (⟨Real.sqrt, fun x y => x ^ y⟩ : Libm ℝ) (real_exact _)
    ⟨0.6, 0, -0.8⟩ ⟨0, 0, 1⟩ 1.5 1
    (by simp only [norm]; rw [Real.sqrt_eq_iff_mul_self_eq] <;> norm_num)
    (by simp only [norm]; rw [Real.sqrt_eq_iff_mul_self_eq] <;> norm_num)
    (by norm_num) (by norm_num)
    (by norm_num [cosi, dot])).1

end Claims

end ScrollView
